import Mathlib

/-!
# The nginx pool allocator (`src/ngx_palloc.c`)

A shallow embedding of the region allocator of `ngx_palloc.c` and proofs of
properties of it.

## Modelling conventions

* Addresses, sizes and handler identifiers are natural numbers; the null
  pointer is `0`.  Pointer-plus-offset is plain addition (overflowing it is
  undefined in C and is not modelled); the two places where the source
  computes in an unsigned machine integer are modelled modulo `2 ^ bits`:
  the cast `(size_t) (p->d.end - m)` and `size - sizeof(ngx_pool_t)`, as is the
  `uintptr_t` arithmetic of `ngx_align_ptr`.
* The block chain (`d.next` links) is a list of blocks whose head is the pool
  header; `current` is the position in the chain of the block the C field
  points to.  The large and cleanup registries are the lists of their records
  in link order.  For the cleanup records this is what the memory holds until
  a record is written where a linked one lies, which `ngx_reset_pool` makes
  possible; a second embedding (`CleanupChain`) follows the pointers of the
  cleanup records for that case.
* The raw memory provider (`ngx_alloc`, `ngx_memalign`, `ngx_free`) is external:
  its future answers are a list consumed one per request (an exhausted list or
  an answer `0` is a failed request).  Every request, release and handler call
  is appended to a chronological trace.
* Constants and type sizes that live in headers outside `src/` are fields of
  `Platform`; `lp64` gives their values on a 64-bit Linux build.
-/

namespace NgxPalloc

/-! ## Platform constants -/

/-- Constants of `ngx_config.h` / `ngx_palloc.h` the allocator depends on. -/
structure Platform where
  /-- width in bits of `size_t` and `uintptr_t` -/
  bits : Nat
  /-- `NGX_ALIGNMENT` (`sizeof(unsigned long)`) -/
  NGX_ALIGNMENT : Nat
  /-- `NGX_POOL_ALIGNMENT` -/
  NGX_POOL_ALIGNMENT : Nat
  /-- `NGX_MAX_ALLOC_FROM_POOL` (`ngx_pagesize - 1`) -/
  NGX_MAX_ALLOC_FROM_POOL : Nat
  /-- `sizeof(ngx_pool_t)` -/
  sizeof_pool_t : Nat
  /-- `sizeof(ngx_pool_data_t)` -/
  sizeof_pool_data_t : Nat
  /-- `sizeof(ngx_pool_large_t)` -/
  sizeof_pool_large_t : Nat
  /-- `sizeof(ngx_pool_cleanup_t)` -/
  sizeof_pool_cleanup_t : Nat
deriving DecidableEq, Repr

/-- Number of values of a machine word: `2 ^ bits`. -/
def Platform.word (P : Platform) : Nat := 2 ^ P.bits

/-- The constants on x86-64 Linux: 8-byte words, 4 KiB pages. -/
def lp64 : Platform :=
  { bits := 64
    NGX_ALIGNMENT := 8
    NGX_POOL_ALIGNMENT := 16
    NGX_MAX_ALLOC_FROM_POOL := 4095
    sizeof_pool_t := 80
    sizeof_pool_data_t := 32
    sizeof_pool_large_t := 16
    sizeof_pool_cleanup_t := 24 }

/-- The constants on a 32-bit Linux build: 4-byte words, 4 KiB pages. -/
def ilp32 : Platform :=
  { bits := 32
    NGX_ALIGNMENT := 4
    NGX_POOL_ALIGNMENT := 16
    NGX_MAX_ALLOC_FROM_POOL := 4095
    sizeof_pool_t := 40
    sizeof_pool_data_t := 16
    sizeof_pool_large_t := 8
    sizeof_pool_cleanup_t := 12 }

/-- `NGX_OK` -/
def NGX_OK : Int := 0

/-- `NGX_DECLINED` -/
def NGX_DECLINED : Int := -5

/-- Identifier standing for the address of the function `ngx_pool_cleanup_file`. -/
def ngx_pool_cleanup_file : Nat := 1

/-! ## Machine arithmetic -/

/-- Unsigned subtraction in a machine word, `(size_t) (a - b)`. -/
def size_sub (P : Platform) (a b : Nat) : Nat :=
  (a + (P.word - b % P.word)) % P.word

/-- The macro `ngx_align_ptr(p, a)`:
`(((uintptr_t) (p) + ((uintptr_t) a - 1)) & ~((uintptr_t) a - 1))`, as quoted for
`ngx_align` in the comment of `ngx_palloc_small`. -/
def ngx_align_ptr (P : Platform) (p a : Nat) : Nat :=
  ((p + (a - 1)) % P.word) &&& (P.word - 1 - (a - 1))

/-! ## Data model -/

/-- One block of the chain: its address and the fields of its `ngx_pool_data_t`
(`next` is the list structure of the chain). -/
structure Block where
  /-- address of the block (`(u_char *) p`) -/
  base : Nat
  /-- `d.last`, the bump cursor -/
  last : Nat
  /-- `d.end` -/
  end_ : Nat
  /-- `d.failed` -/
  failed : Nat
deriving DecidableEq, Repr

/-- One `ngx_pool_large_t` record. -/
structure LargeRec where
  /-- address of the record inside the pool -/
  addr : Nat
  /-- `alloc`, the payload (`0` when released) -/
  alloc : Nat
deriving DecidableEq, Repr

/-- One `ngx_pool_cleanup_t` record.  `fd` is the descriptor stored in the
payload `data` points to when that payload is an `ngx_pool_cleanup_file_t`. -/
structure CleanupRec where
  /-- address of the record inside the pool -/
  addr : Nat
  /-- `handler` (`0` when unset) -/
  handler : Nat
  /-- `data` -/
  data : Nat
  /-- `((ngx_pool_cleanup_file_t *) data)->fd` -/
  fd : Nat
deriving DecidableEq, Repr

/-- The pool: `ngx_pool_t` together with the chain hanging from it. -/
structure Pool where
  /-- the chain of blocks, header block first -/
  blocks : List Block
  /-- `max` -/
  max : Nat
  /-- `current`, as a position in `blocks` -/
  current : Nat
  /-- `large`, in link order -/
  large : List LargeRec
  /-- `cleanup`, in link order -/
  cleanup : List CleanupRec
deriving DecidableEq, Repr

/-- What the outside world observes. -/
inductive Event where
  /-- `ngx_alloc(size)` answered `addr` -/
  | alloc (size addr : Nat)
  /-- `ngx_memalign(alignment, size)` answered `addr` -/
  | memalign (alignment size addr : Nat)
  /-- `ngx_free(addr)` -/
  | free (addr : Nat)
  /-- `handler(data)` of a cleanup record -/
  | handler (h data : Nat)
deriving DecidableEq, Repr

/-- The pool, the provider's future answers and the trace so far. -/
structure World where
  pool : Pool
  prov : List Nat
  trace : List Event
deriving DecidableEq, Repr

/-! ## The raw memory provider -/

/-- The provider answers a request with the next answer of `prov`. -/
def provider_next (prov : List Nat) : Nat × List Nat :=
  match prov with
  | [] => (0, [])
  | a :: rest => (a, rest)

/-- `ngx_alloc(size, log)` -/
def ngx_alloc (size : Nat) (w : World) : Nat × World :=
  let r := provider_next w.prov
  (r.1, { w with prov := r.2, trace := w.trace ++ [Event.alloc size r.1] })

/-- `ngx_memalign(alignment, size, log)` -/
def ngx_memalign (alignment size : Nat) (w : World) : Nat × World :=
  let r := provider_next w.prov
  (r.1, { w with prov := r.2, trace := w.trace ++ [Event.memalign alignment size r.1] })

/-- `ngx_free(p)` -/
def ngx_free (p : Nat) (w : World) : World :=
  { w with trace := w.trace ++ [Event.free p] }

/-! ## `ngx_create_pool` -/

/-- `ngx_create_pool(size, log)`; `none` is the `NULL` result. -/
def ngx_create_pool (P : Platform) (size : Nat) (prov : List Nat) : Option World :=
  let r := provider_next prov
  let p := r.1
  if p = 0 then none
  else
    let size' := size_sub P size P.sizeof_pool_t
    some
      { pool :=
          { blocks := [{ base := p, last := p + P.sizeof_pool_t, end_ := p + size, failed := 0 }]
            max := if size' < P.NGX_MAX_ALLOC_FROM_POOL then size' else P.NGX_MAX_ALLOC_FROM_POOL
            current := 0
            large := []
            cleanup := [] }
        prov := r.2
        trace := [Event.memalign P.NGX_POOL_ALIGNMENT size p] }

/-! ## The small path -/

/-- The `for` loop of `ngx_palloc_block` over the blocks from `current` on: every
block that has a successor gets `failed++`, and `current` moves to the
successor when the value before the increment exceeded 4.  `i` is the position
of the head of the list in the chain; the second component is the new
`current`. -/
def walk_failed : List Block → Nat → Nat → List Block × Nat
  | [], _, cur => ([], cur)
  | [b], _, cur => ([b], cur)
  | b :: b' :: rest, i, cur =>
    let r := walk_failed (b' :: rest) (i + 1) (if b.failed > 4 then i + 1 else cur)
    ({ b with failed := b.failed + 1 } :: r.1, r.2)

/-- `ngx_palloc_block(pool, size)`.  The chain of a pool is never empty; on an
empty list, where the C code would read through a dangling pointer, nothing
happens. -/
def ngx_palloc_block (P : Platform) (w : World) (size : Nat) : Nat × World :=
  match w.pool.blocks with
  | [] => (0, w)
  | hd :: _ =>
    let psize := size_sub P hd.end_ hd.base
    let r := ngx_memalign P.NGX_POOL_ALIGNMENT psize w
    let m := r.1
    let w1 := r.2
    if m = 0 then (0, w1)
    else
      let m' := ngx_align_ptr P (m + P.sizeof_pool_data_t) P.NGX_ALIGNMENT
      let new : Block := { base := m, last := m' + size, end_ := m + psize, failed := 0 }
      let cur := w1.pool.current
      let f := walk_failed (w1.pool.blocks.drop cur) cur cur
      (m', { w1 with pool := { w1.pool with
                blocks := w1.pool.blocks.take cur ++ f.1 ++ [new]
                current := f.2 } })

/-- The candidate start address `m` computed in the loop body of
`ngx_palloc_small` for block `b`. -/
def candidate (P : Platform) (align : Nat) (b : Block) : Nat :=
  if align ≠ 0 then ngx_align_ptr P b.last P.NGX_ALIGNMENT else b.last

/-- The `do ... while (p)` loop of `ngx_palloc_small` over the blocks from
`current` on: the first block with room is claimed. -/
def scan_blocks (P : Platform) (size align : Nat) : List Block → Option (Nat × List Block)
  | [] => none
  | b :: rest =>
    let m := candidate P align b
    if size_sub P b.end_ m ≥ size then
      some (m, { b with last := m + size } :: rest)
    else
      match scan_blocks P size align rest with
      | none => none
      | some (a, rest') => some (a, b :: rest')

/-- `ngx_palloc_small(pool, size, align)`.  `current` always designates a block of
the chain, so the `do ... while` body runs at least once on it. -/
def ngx_palloc_small (P : Platform) (w : World) (size align : Nat) : Nat × World :=
  match scan_blocks P size align (w.pool.blocks.drop w.pool.current) with
  | some (m, bs) =>
    (m, { w with pool := { w.pool with blocks := w.pool.blocks.take w.pool.current ++ bs } })
  | none => ngx_palloc_block P w size

/-! ## The large path -/

/-- The slot-reuse loop of `ngx_palloc_large`: `n` counts the records passed. -/
def reuse_slot (p : Nat) : List LargeRec → Nat → Option (List LargeRec)
  | [], _ => none
  | l :: rest, n =>
    if l.alloc = 0 then some ({ l with alloc := p } :: rest)
    else if n > 3 then none
    else
      match reuse_slot p rest (n + 1) with
      | none => none
      | some rest' => some (l :: rest')

/-- `ngx_palloc_large(pool, size)` -/
def ngx_palloc_large (P : Platform) (w : World) (size : Nat) : Nat × World :=
  let r := ngx_alloc size w
  let p := r.1
  let w1 := r.2
  if p = 0 then (0, w1)
  else
    match reuse_slot p w1.pool.large 0 with
    | some ls => (p, { w1 with pool := { w1.pool with large := ls } })
    | none =>
      let s := ngx_palloc_small P w1 P.sizeof_pool_large_t 1
      let large := s.1
      let w2 := s.2
      if large = 0 then (0, ngx_free p w2)
      else
        (p, { w2 with pool := { w2.pool with
                large := { addr := large, alloc := p } :: w2.pool.large } })

/-- `ngx_palloc(pool, size)`, built without `NGX_DEBUG_PALLOC`. -/
def ngx_palloc (P : Platform) (w : World) (size : Nat) : Nat × World :=
  if size ≤ w.pool.max then ngx_palloc_small P w size 1
  else ngx_palloc_large P w size

/-- `ngx_pnalloc(pool, size)`, built without `NGX_DEBUG_PALLOC`. -/
def ngx_pnalloc (P : Platform) (w : World) (size : Nat) : Nat × World :=
  if size ≤ w.pool.max then ngx_palloc_small P w size 0
  else ngx_palloc_large P w size

/-- `ngx_pcalloc(pool, size)`: `ngx_memzero` only writes the bytes of the region
returned, which the model does not track.  After `ngx_reset_pool` that region
can cover a cleanup record that `pool->cleanup` still links; the list `cleanup`
does not show the zeroed fields. -/
def ngx_pcalloc (P : Platform) (w : World) (size : Nat) : Nat × World :=
  ngx_palloc P w size

/-- `ngx_pmemalign(pool, size, alignment)` -/
def ngx_pmemalign (P : Platform) (w : World) (size alignment : Nat) : Nat × World :=
  let r := ngx_memalign alignment size w
  let p := r.1
  let w1 := r.2
  if p = 0 then (0, w1)
  else
    let s := ngx_palloc_small P w1 P.sizeof_pool_large_t 1
    let large := s.1
    let w2 := s.2
    if large = 0 then (0, ngx_free p w2)
    else
      (p, { w2 with pool := { w2.pool with
              large := { addr := large, alloc := p } :: w2.pool.large } })

/-- The loop of `ngx_pfree`: the first record whose `alloc` equals `p` is
cleared. -/
def free_slot (p : Nat) : List LargeRec → Option (List LargeRec)
  | [] => none
  | l :: rest =>
    if p = l.alloc then some ({ l with alloc := 0 } :: rest)
    else
      match free_slot p rest with
      | none => none
      | some rest' => some (l :: rest')

/-- `ngx_pfree(pool, p)` -/
def ngx_pfree (w : World) (p : Nat) : Int × World :=
  match free_slot p w.pool.large with
  | some ls => (NGX_OK, { ngx_free p w with pool := { w.pool with large := ls } })
  | none => (NGX_DECLINED, w)

/-! ## The cleanup registry -/

/-- `ngx_pool_cleanup_add(p, size)`; the result is the address of the record.
The registry is kept as the list of the records linked from `pool->cleanup`,
the latest first.  That list is what the memory holds as long as no record is
written where a linked one lies; after `ngx_reset_pool`, which rewinds the
cursors over the records and keeps `pool->cleanup`, it no longer is, and
`ngx_pool_cleanup_add_linked` below follows the pointers instead. -/
def ngx_pool_cleanup_add (P : Platform) (w : World) (size : Nat) : Nat × World :=
  let r := ngx_palloc P w P.sizeof_pool_cleanup_t
  let c := r.1
  let w1 := r.2
  if c = 0 then (0, w1)
  else if size ≠ 0 then
    let r2 := ngx_palloc P w1 size
    let data := r2.1
    let w2 := r2.2
    if data = 0 then (0, w2)
    else
      (c, { w2 with pool := { w2.pool with
              cleanup := { addr := c, handler := 0, data := data, fd := 0 } :: w2.pool.cleanup } })
  else
    (c, { w1 with pool := { w1.pool with
            cleanup := { addr := c, handler := 0, data := 0, fd := 0 } :: w1.pool.cleanup } })

/-- The caller's assignments through the handle `c` returned by
`ngx_pool_cleanup_add`: `c->handler = h` and, in the payload, `fd`. -/
def set_cleanup (c h fd : Nat) : List CleanupRec → List CleanupRec
  | [] => []
  | r :: rest =>
    if r.addr = c then { r with handler := h, fd := fd } :: rest
    else r :: set_cleanup c h fd rest

/-- The loop of `ngx_pool_run_cleanup_file`: the events it emits and the
registry afterwards. -/
def run_file (fd : Nat) : List CleanupRec → List Event × List CleanupRec
  | [] => ([], [])
  | c :: rest =>
    if c.handler = ngx_pool_cleanup_file ∧ c.fd = fd then
      ([Event.handler c.handler c.data], { c with handler := 0 } :: rest)
    else
      let r := run_file fd rest
      (r.1, c :: r.2)

/-- `ngx_pool_run_cleanup_file(p, fd)` -/
def ngx_pool_run_cleanup_file (w : World) (fd : Nat) : World :=
  let r := run_file fd w.pool.cleanup
  { w with pool := { w.pool with cleanup := r.2 }, trace := w.trace ++ r.1 }

/-! ## Reset and destroy -/

/-- The handler loop of `ngx_destroy_pool`. -/
def run_handlers : List CleanupRec → List Event
  | [] => []
  | c :: rest =>
    if c.handler ≠ 0 then Event.handler c.handler c.data :: run_handlers rest
    else run_handlers rest

/-- The loop releasing the live payloads of the large registry. -/
def free_large : List LargeRec → List Event
  | [] => []
  | l :: rest =>
    if l.alloc ≠ 0 then Event.free l.alloc :: free_large rest
    else free_large rest

/-- The loop of `ngx_destroy_pool` releasing the blocks. -/
def free_blocks : List Block → List Event
  | [] => []
  | b :: rest => Event.free b.base :: free_blocks rest

/-- `ngx_destroy_pool(pool)`, built without `NGX_DEBUG`: the pool is gone
afterwards, what remains is the provider and the trace.  A handler is an
opaque call: it is recorded in the trace and assumed not to touch the pool. -/
def ngx_destroy_pool (w : World) : List Nat × List Event :=
  (w.prov,
    w.trace ++ run_handlers w.pool.cleanup ++ free_large w.pool.large
      ++ free_blocks w.pool.blocks)

/-- The second loop of `ngx_reset_pool`. -/
def rewind (P : Platform) : List Block → List Block
  | [] => []
  | b :: rest => { b with last := b.base + P.sizeof_pool_t, failed := 0 } :: rewind P rest

/-- `ngx_reset_pool(pool)`: `current`, `chain` and `large` are assigned,
`pool->cleanup` is not. -/
def ngx_reset_pool (P : Platform) (w : World) : World :=
  { w with
    pool := { w.pool with
      blocks := rewind P w.pool.blocks
      current := 0
      large := [] }
    trace := w.trace ++ free_large w.pool.large }

/-! ## Sequences of calls -/

/-- One call on a pool by its owner. -/
inductive Op where
  | palloc (size : Nat)
  | pnalloc (size : Nat)
  | pcalloc (size : Nat)
  | pmemalign (size alignment : Nat)
  | pfree (p : Nat)
  | cleanup_add (size : Nat)
  | set_cleanup (c h fd : Nat)
  | run_cleanup_file (fd : Nat)
  | reset
deriving DecidableEq, Repr

/-- The world after one call. -/
def step (P : Platform) (w : World) : Op → World
  | Op.palloc size => (ngx_palloc P w size).2
  | Op.pnalloc size => (ngx_pnalloc P w size).2
  | Op.pcalloc size => (ngx_pcalloc P w size).2
  | Op.pmemalign size alignment => (ngx_pmemalign P w size alignment).2
  | Op.pfree p => (ngx_pfree w p).2
  | Op.cleanup_add size => (ngx_pool_cleanup_add P w size).2
  | Op.set_cleanup c h fd =>
    { w with pool := { w.pool with cleanup := set_cleanup c h fd w.pool.cleanup } }
  | Op.run_cleanup_file fd => ngx_pool_run_cleanup_file w fd
  | Op.reset => ngx_reset_pool P w

/-- The world after a sequence of calls. -/
def run (P : Platform) (w : World) (ops : List Op) : World :=
  ops.foldl (step P) w

/-- The calls in which the cleanup registry has no part: the allocations,
`ngx_pfree` and `ngx_reset_pool`. -/
def Op.plain : Op → Bool
  | Op.palloc _ => true
  | Op.pnalloc _ => true
  | Op.pcalloc _ => true
  | Op.pmemalign _ _ => true
  | Op.pfree _ => true
  | Op.reset => true
  | Op.cleanup_add _ => false
  | Op.set_cleanup _ _ _ => false
  | Op.run_cleanup_file _ => false

/-- One registration by a caller: `ngx_pool_cleanup_add(p, size)` followed, when it
succeeds, by the assignment of the handler (and of the descriptor in the
payload) through the handle returned.  `none` when the registration failed. -/
def register (P : Platform) (w : World) (size h fd : Nat) : Option World :=
  let r := ngx_pool_cleanup_add P w size
  if r.1 = 0 then none
  else some { r.2 with pool := { r.2.pool with
                cleanup := set_cleanup r.1 h fd r.2.pool.cleanup } }

/-- A request for one registration: payload size, handler and descriptor. -/
structure CleanupReq where
  size : Nat
  handler : Nat
  fd : Nat
deriving DecidableEq, Repr

/-- Successive registrations, first request first. -/
def register_all (P : Platform) (w : World) : List CleanupReq → Option World
  | [] => some w
  | r :: rest =>
    match register P w r.size r.handler r.fd with
    | none => none
    | some w' => register_all P w' rest

/-! ## Assumptions and invariants -/

/-- Assumptions on the platform constants: `NGX_ALIGNMENT` is a power of two
that fits a word and divides `NGX_POOL_ALIGNMENT` and the two header sizes,
and a block header plus one large record fit in a pool header. -/
structure Platform.WF (P : Platform) : Prop where
  align_pow : ∃ k, k ≤ P.bits ∧ P.NGX_ALIGNMENT = 2 ^ k
  pool_align : P.NGX_ALIGNMENT ∣ P.NGX_POOL_ALIGNMENT
  hdr_align : P.NGX_ALIGNMENT ∣ P.sizeof_pool_t
  data_align : P.NGX_ALIGNMENT ∣ P.sizeof_pool_data_t
  data_le : P.sizeof_pool_data_t + P.sizeof_pool_large_t ≤ P.sizeof_pool_t

/-- The contract of `ngx_memalign` for blocks of `S` bytes: an answer is a
multiple of `NGX_POOL_ALIGNMENT` and the block ends inside the address space,
at least one alignment step below its top. -/
def ProvOK (P : Platform) (S a : Nat) : Prop :=
  P.NGX_POOL_ALIGNMENT ∣ a ∧ a + S + P.NGX_ALIGNMENT ≤ P.word

instance (P : Platform) (S a : Nat) : Decidable (ProvOK P S a) := by
  unfold ProvOK; infer_instance

/-- The pool header placed at `a` is `NGX_POOL_ALIGNMENT`-aligned and lies inside
the address space, one alignment step below its top. -/
def HeaderOK (P : Platform) (a : Nat) : Prop :=
  P.NGX_POOL_ALIGNMENT ∣ a ∧ a + P.sizeof_pool_t + P.NGX_ALIGNMENT ≤ P.word

instance (P : Platform) (a : Nat) : Decidable (HeaderOK P a) := by
  unfold HeaderOK; infer_instance

/-- The provider never hands out two overlapping blocks of `S` bytes (`0` is a
refused request, not a block). -/
def ProvApart (S : Nat) (prov : List Nat) : Prop :=
  prov.Pairwise (fun a b => a ≠ 0 → b ≠ 0 → a + S ≤ b ∨ b + S ≤ a)

/-- A block of `S` bytes at a non-null address whose cursor is within bounds
and whose end is aligned. -/
structure BlockOK (P : Platform) (S : Nat) (b : Block) : Prop where
  last_le : b.last ≤ b.end_
  end_eq : b.end_ = b.base + S
  end_align : P.NGX_ALIGNMENT ∣ b.end_
  end_lt : b.end_ < P.word
  base_pos : 0 < b.base
  base_le : b.base ≤ b.last

/-- The invariant of a pool of block size `S`. -/
structure Inv (P : Platform) (S : Nat) (w : World) : Prop where
  blocks_ok : ∀ b ∈ w.pool.blocks, BlockOK P S b
  max_le : w.pool.max + P.sizeof_pool_t ≤ S
  size_align : P.NGX_ALIGNMENT ∣ S
  prov_ok : ∀ a ∈ w.prov, ProvOK P S a

/-- The address `a` is the least multiple of `NGX_ALIGNMENT` that is at least
`c`; in particular fewer than `NGX_ALIGNMENT` bytes lie between them. -/
def LeastAligned (P : Platform) (c a : Nat) : Prop :=
  P.NGX_ALIGNMENT ∣ a ∧ c ≤ a ∧ a < c + P.NGX_ALIGNMENT ∧
    ∀ q, P.NGX_ALIGNMENT ∣ q → c ≤ q → a ≤ q

/-- The extent of a block: its address and its end. -/
def Block.geom (b : Block) : Nat × Nat := (b.base, b.end_)

/-- Blocks keep their address and end and stay in place; new blocks are added
at the tail; `max` does not change. -/
def Extends (w w' : World) : Prop :=
  (∃ extra, w'.pool.blocks.map Block.geom = w.pool.blocks.map Block.geom ++ extra) ∧
    w'.pool.max = w.pool.max

/-- A block has room for `size` bytes at its candidate address. -/
def fits (P : Platform) (size align : Nat) (b : Block) : Prop :=
  size_sub P b.end_ (candidate P align b) ≥ size

instance (P : Platform) (size align : Nat) (b : Block) : Decidable (fits P size align b) := by
  unfold fits; infer_instance

/-- The world `w` with `cs` as its cleanup registry. -/
def with_cleanup (w : World) (cs : List CleanupRec) : World :=
  { w with pool := { w.pool with cleanup := cs } }

/-! ## What was obtained from the provider and what was given back -/

/-- The non-null answers of the provider recorded in a trace, in order. -/
def obtained : List Event → List Nat
  | [] => []
  | Event.alloc _ a :: t => if a ≠ 0 then a :: obtained t else obtained t
  | Event.memalign _ _ a :: t => if a ≠ 0 then a :: obtained t else obtained t
  | Event.free _ :: t => obtained t
  | Event.handler _ _ :: t => obtained t

/-- The non-null addresses passed to `ngx_free` in a trace, in order. -/
def released : List Event → List Nat
  | [] => []
  | Event.free a :: t => if a ≠ 0 then a :: released t else released t
  | Event.alloc _ _ :: t => released t
  | Event.memalign _ _ _ :: t => released t
  | Event.handler _ _ :: t => released t

/-- The live payloads of a large registry, in registry order. -/
def live_payloads (ls : List LargeRec) : List Nat :=
  (ls.filter (fun l => l.alloc ≠ 0)).map (fun l => l.alloc)

/-- The accounts of the world balance: no block is at `NULL`, and every address
was obtained from the provider as many times as it was released, is held as a
live payload, is the base of a block, or is listed in `extra` (what a call in
progress holds). -/
def Accounted (extra : List Nat) (w : World) : Prop :=
  0 ∉ w.pool.blocks.map (fun b => b.base) ∧
  ∀ a, (obtained w.trace).count a
    = (released w.trace).count a + (live_payloads w.pool.large).count a
      + (w.pool.blocks.map (fun b => b.base)).count a + extra.count a

/-- `current` designates a block of the chain and no block from `current` on has
failed more than five times. -/
def FailedOK (w : World) : Prop :=
  w.pool.current < w.pool.blocks.length ∧
    ∀ b ∈ w.pool.blocks.drop w.pool.current, b.failed ≤ 5

/-! ## The cleanup records as they lie in the pool's memory

`Pool.cleanup` above is the list of the records linked from `pool->cleanup`.  It
is what the memory holds as long as no record is written where a linked one
lies, which can only happen after `ngx_reset_pool`: the cursors are rewound
over the records while `pool->cleanup` keeps pointing at them.  The
definitions below follow the pointers instead. -/

/-- The fields of a `ngx_pool_cleanup_t`. -/
structure CleanupCell where
  handler : Nat
  data : Nat
  next : Nat
deriving DecidableEq, Repr

/-- The field `pool->cleanup` and the records written so far, by address; the
latest write at an address comes first. -/
structure CleanupChain where
  head : Nat
  cells : List (Nat × CleanupCell)
deriving DecidableEq, Repr

/-- The record that lies at address `a`, when one was written there. -/
def lookup_cell : List (Nat × CleanupCell) → Nat → Option CleanupCell
  | [], _ => none
  | (k, r) :: rest, a => if k = a then some r else lookup_cell rest a

/-- The assignment `c->data = v` on a record already written. -/
def write_data (ch : CleanupChain) (c v : Nat) : CleanupChain :=
  match lookup_cell ch.cells c with
  | some r => { ch with cells := (c, { r with data := v }) :: ch.cells }
  | none => ch

/-- The caller's assignment `c->handler = h` through the handle `c`. -/
def write_handler (ch : CleanupChain) (c h : Nat) : CleanupChain :=
  match lookup_cell ch.cells c with
  | some r => { ch with cells := (c, { r with handler := h }) :: ch.cells }
  | none => ch

/-- `ngx_pool_cleanup_add(p, size)` with the records in memory: the record is
written at the address `c` that `ngx_palloc` returns (`c->data`, then
`c->handler = NULL`, then `c->next = p->cleanup`) and `p->cleanup = c`.  The pool
`w` is used for the two `ngx_palloc` calls only; its list `cleanup` plays no
part here. -/
def ngx_pool_cleanup_add_linked (P : Platform) (w : World) (ch : CleanupChain) (size : Nat) :
    Nat × World × CleanupChain :=
  let r := ngx_palloc P w P.sizeof_pool_cleanup_t
  let c := r.1
  let w1 := r.2
  if c = 0 then (0, w1, ch)
  else if size ≠ 0 then
    let r2 := ngx_palloc P w1 size
    let data := r2.1
    let w2 := r2.2
    if data = 0 then (0, w2, write_data ch c 0)
    else
      (c, w2, { head := c,
                cells := (c, { handler := 0, data := data, next := ch.head }) :: ch.cells })
  else
    (c, w1, { head := c,
              cells := (c, { handler := 0, data := 0, next := ch.head }) :: ch.cells })

/-- The first loop of `ngx_destroy_pool`, `for (c = pool->cleanup; c; c = c->next)`,
followed through the records in memory from `c` for at most `fuel` records: the
handler calls made, and whether the loop has ended (`c` reached `NULL`).  A
record never written is not followed. -/
def cleanup_loop (cells : List (Nat × CleanupCell)) : Nat → Nat → List Event × Bool
  | 0, c => ([], decide (c = 0))
  | fuel + 1, c =>
    if c = 0 then ([], true)
    else
      match lookup_cell cells c with
      | none => ([], false)
      | some r =>
        let rest := cleanup_loop cells fuel r.next
        (if r.handler ≠ 0 then Event.handler r.handler r.data :: rest.1 else rest.1, rest.2)

/-! ## Example worlds -/

/-- A one-block pool whose cursor 4193 is not aligned. -/
def ex_unaligned : World :=
  { pool := { blocks := [{ base := 4096, last := 4193, end_ := 8192, failed := 0 }],
              max := 4016, current := 0, large := [], cleanup := [] },
    prov := [], trace := [] }

/-- A 4096-byte pool holding one large record with payload 196608 and one
released record, with a provider about to answer 131072. -/
def ex_large : World :=
  { pool := { blocks := [{ base := 65536, last := 65648, end_ := 69632, failed := 0 }],
              max := 4016, current := 0,
              large := [{ addr := 65632, alloc := 196608 }, { addr := 65616, alloc := 0 }],
              cleanup := [] },
    prov := [131072, 262144], trace := [] }

/-- The pool `ngx_create_pool(4096)` returns when the provider answers 65536,
with the provider's next answers. -/
def ex_fresh : World :=
  { pool := { blocks := [{ base := 65536, last := 65616, end_ := 69632, failed := 0 }],
              max := 4016, current := 0, large := [], cleanup := [] },
    prov := [131072, 196608, 262144], trace := [Event.memalign 16 4096 65536] }

/-- The pool `ex_fresh` after two registrations: first handler 11 with an
8-byte payload, then handler 12 without payload. -/
def ex_two_cleanups : World :=
  { pool := { blocks := [{ base := 65536, last := 65672, end_ := 69632, failed := 0 }],
              max := 4016, current := 0, large := [],
              cleanup := [{ addr := 65648, handler := 12, data := 0, fd := 0 },
                          { addr := 65616, handler := 11, data := 65640, fd := 0 }] },
    prov := [131072, 196608, 262144], trace := [Event.memalign 16 4096 65536] }

/-- Another freshly created 4096-byte pool, at 1048576. -/
def ex_fresh_b : World :=
  { pool := { blocks := [{ base := 1048576, last := 1048656, end_ := 1052672, failed := 0 }],
              max := 4016, current := 0, large := [], cleanup := [] },
    prov := [], trace := [Event.memalign 16 4096 1048576] }

/-- The pool `ngx_create_pool(100)` returns when the provider answers 4096, with
8192 as the provider's next answer. -/
def ex_small : World :=
  { pool := { blocks := [{ base := 4096, last := 4176, end_ := 4196, failed := 0 }],
              max := 20, current := 0, large := [], cleanup := [] },
    prov := [8192], trace := [Event.memalign 16 100 4096] }

/-- The pool `ex_fresh` after three registrations of `ngx_pool_cleanup_file` with
an 8-byte payload: for descriptor 5, then 7, then 5 again. -/
def ex_files : World :=
  { pool := { blocks := [{ base := 65536, last := 65712, end_ := 69632, failed := 0 }],
              max := 4016, current := 0, large := [],
              cleanup := [{ addr := 65680, handler := 1, data := 65704, fd := 5 },
                          { addr := 65648, handler := 1, data := 65672, fd := 7 },
                          { addr := 65616, handler := 1, data := 65640, fd := 5 }] },
    prov := [131072, 196608, 262144], trace := [Event.memalign 16 4096 65536] }

/-- A freshly created 4096-byte pool at 65536 with seven further answers of the
provider. -/
def ex_rich : World :=
  { pool := { blocks := [{ base := 65536, last := 65616, end_ := 69632, failed := 0 }],
              max := 4016, current := 0, large := [], cleanup := [] },
    prov := [131072, 196608, 262144, 327680, 393216, 458752, 524288],
    trace := [Event.memalign 16 4096 65536] }

/-- The pool `ex_rich` after five allocations of 5000 bytes and the release of
the first of them: four live records, then an empty one. -/
def ex_five_large : World :=
  { pool := { blocks := [{ base := 65536, last := 65696, end_ := 69632, failed := 0 }],
              max := 4016, current := 0,
              large := [{ addr := 65680, alloc := 393216 }, { addr := 65664, alloc := 327680 },
                        { addr := 65648, alloc := 262144 }, { addr := 65632, alloc := 196608 },
                        { addr := 65616, alloc := 0 }],
              cleanup := [] },
    prov := [458752, 524288],
    trace := [Event.memalign 16 4096 65536, Event.alloc 5000 131072, Event.alloc 5000 196608,
              Event.alloc 5000 262144, Event.alloc 5000 327680, Event.alloc 5000 393216,
              Event.free 131072] }

/-- The 4096-byte pool at 65536 after `ngx_palloc(4016)`, which fills its block,
with one answer of the provider left. -/
def ex_full : World :=
  { pool := { blocks := [{ base := 65536, last := 69632, end_ := 69632, failed := 0 }],
              max := 4016, current := 0, large := [], cleanup := [] },
    prov := [131072], trace := [Event.memalign 16 4096 65536] }

/-- The cleanup chain of `ex_fresh` after one registration with an 8-byte payload
and handler 11: one record, at 65616. -/
def ex_chain_one : CleanupChain :=
  { head := 65616,
    cells := [(65616, { handler := 11, data := 65640, next := 0 }),
              (65616, { handler := 0, data := 65640, next := 0 })] }

/-- The chain `ex_chain_one` after `ngx_reset_pool` and a second registration,
with handler 12: the record at 65616 has been written again and is its own
successor. -/
def ex_chain_relinked : CleanupChain :=
  { head := 65616,
    cells := [(65616, { handler := 12, data := 65640, next := 65616 }),
              (65616, { handler := 0, data := 65640, next := 65616 }),
              (65616, { handler := 11, data := 65640, next := 0 }),
              (65616, { handler := 0, data := 65640, next := 0 })] }

/-- The cleanup chain of `ex_fresh` after a registration of `ngx_pool_cleanup_file`
with a 16-byte payload, `ngx_reset_pool`, and the same registration again. -/
def ex_chain_file_relinked : CleanupChain :=
  { head := 65616,
    cells := [(65616, { handler := 1, data := 65640, next := 65616 }),
              (65616, { handler := 0, data := 65640, next := 65616 }),
              (65616, { handler := 1, data := 65640, next := 0 }),
              (65616, { handler := 0, data := 65640, next := 0 })] }

/-! # Theorems -/

/-! ## Machine arithmetic -/

theorem testBit_mask (w k i : Nat) (hk : k ≤ w) :
    (2 ^ w - 1 - (2 ^ k - 1)).testBit i = (decide (k ≤ i) && decide (i < w)) := by
  have h1 : 2 ^ w - 1 - (2 ^ k - 1) = (2 ^ (w - k) - 1) * 2 ^ k := by
    have : 2 ^ w = 2 ^ (w - k) * 2 ^ k := by
      rw [← pow_add]; congr 1; omega
    have hpos : 0 < 2 ^ k := Nat.two_pow_pos k
    have hpos2 : 0 < 2 ^ (w - k) := Nat.two_pow_pos _
    rw [Nat.sub_mul, one_mul, ← this]
    omega
  rw [h1, ← Nat.shiftLeft_eq, Nat.testBit_shiftLeft, Nat.testBit_two_pow_sub_one]
  by_cases h : k ≤ i
  · simp [h]; omega
  · simp [h]

theorem land_mask (w k x : Nat) (hk : k ≤ w) (hx : x < 2 ^ w) :
    x &&& (2 ^ w - 1 - (2 ^ k - 1)) = x / 2 ^ k * 2 ^ k := by
  apply Nat.eq_of_testBit_eq
  intro i
  rw [Nat.testBit_and, testBit_mask w k i hk, ← Nat.shiftRight_eq_div_pow, ← Nat.shiftLeft_eq,
    Nat.testBit_shiftLeft, Nat.testBit_shiftRight]
  by_cases h : k ≤ i
  · by_cases h2 : i < w
    · simp [h, h2]
    · simp [h, h2]
      exact Nat.testBit_lt_two_pow (lt_of_lt_of_le hx (Nat.pow_le_pow_right (by decide) (by omega)))
  · simp [h]


theorem lp64_wf : lp64.WF :=
  ⟨⟨3, by decide, by decide⟩, by decide, by decide, by decide, by decide⟩

theorem ilp32_wf : ilp32.WF :=
  ⟨⟨2, by decide, by decide⟩, by decide, by decide, by decide, by decide⟩

theorem Platform.WF.align_pos {P : Platform} (hP : P.WF) : 0 < P.NGX_ALIGNMENT := by
  obtain ⟨k, _, hk⟩ := hP.align_pow
  rw [hk]; exact Nat.two_pow_pos k

theorem Platform.WF.align_dvd_word {P : Platform} (hP : P.WF) : P.NGX_ALIGNMENT ∣ P.word := by
  obtain ⟨k, hkb, hk⟩ := hP.align_pow
  rw [hk, Platform.word]; exact pow_dvd_pow 2 hkb

theorem Platform.word_pos (P : Platform) : 0 < P.word := Nat.two_pow_pos _

/-- Without wrap-around the mask of `ngx_align_ptr` rounds up to the next
multiple of `NGX_ALIGNMENT`. -/
theorem ngx_align_ptr_eq {P : Platform} (hP : P.WF) (p : Nat)
    (hp : p + P.NGX_ALIGNMENT ≤ P.word) :
    ngx_align_ptr P p P.NGX_ALIGNMENT
      = (p + (P.NGX_ALIGNMENT - 1)) / P.NGX_ALIGNMENT * P.NGX_ALIGNMENT := by
  obtain ⟨k, hkb, hk⟩ := hP.align_pow
  have hpos := hP.align_pos
  have hlt : p + (P.NGX_ALIGNMENT - 1) < P.word := by omega
  unfold ngx_align_ptr
  rw [Nat.mod_eq_of_lt hlt, hk]
  exact land_mask P.bits k _ hkb (by rw [← hk]; exact hlt)

theorem ngx_align_ptr_dvd {P : Platform} (hP : P.WF) (p : Nat)
    (hp : p + P.NGX_ALIGNMENT ≤ P.word) :
    P.NGX_ALIGNMENT ∣ ngx_align_ptr P p P.NGX_ALIGNMENT := by
  rw [ngx_align_ptr_eq hP p hp]; exact Nat.dvd_mul_left _ _

theorem ngx_align_ptr_ge {P : Platform} (hP : P.WF) (p : Nat)
    (hp : p + P.NGX_ALIGNMENT ≤ P.word) :
    p ≤ ngx_align_ptr P p P.NGX_ALIGNMENT := by
  rw [ngx_align_ptr_eq hP p hp]
  have hpos := hP.align_pos
  have h1 := Nat.div_add_mod (p + (P.NGX_ALIGNMENT - 1)) P.NGX_ALIGNMENT
  have h2 := Nat.mod_lt (p + (P.NGX_ALIGNMENT - 1)) hpos
  rw [Nat.mul_comm] at h1
  omega

theorem ngx_align_ptr_lt {P : Platform} (hP : P.WF) (p : Nat)
    (hp : p + P.NGX_ALIGNMENT ≤ P.word) :
    ngx_align_ptr P p P.NGX_ALIGNMENT < p + P.NGX_ALIGNMENT := by
  rw [ngx_align_ptr_eq hP p hp]
  have hpos := hP.align_pos
  have h1 := Nat.div_mul_le_self (p + (P.NGX_ALIGNMENT - 1)) P.NGX_ALIGNMENT
  omega

theorem ngx_align_ptr_least {P : Platform} (hP : P.WF) (p q : Nat)
    (hp : p + P.NGX_ALIGNMENT ≤ P.word) (hq : P.NGX_ALIGNMENT ∣ q) (hpq : p ≤ q) :
    ngx_align_ptr P p P.NGX_ALIGNMENT ≤ q := by
  rw [ngx_align_ptr_eq hP p hp]
  have hpos := hP.align_pos
  obtain ⟨c, rfl⟩ := hq
  rw [Nat.mul_comm _ c]
  apply Nat.mul_le_mul_right
  rw [Nat.div_le_iff_le_mul_add_pred hpos]
  omega

theorem ngx_align_ptr_fix {P : Platform} (hP : P.WF) (p : Nat)
    (hp : p + P.NGX_ALIGNMENT ≤ P.word) (hq : P.NGX_ALIGNMENT ∣ p) :
    ngx_align_ptr P p P.NGX_ALIGNMENT = p :=
  Nat.le_antisymm (ngx_align_ptr_least hP p p hp hq (Nat.le_refl p)) (ngx_align_ptr_ge hP p hp)

/-- A multiple of the alignment below the word bound leaves room for one more
alignment step. -/
theorem aligned_room {P : Platform} (hP : P.WF) (e : Nat)
    (he : P.NGX_ALIGNMENT ∣ e) (hlt : e < P.word) : e + P.NGX_ALIGNMENT ≤ P.word := by
  obtain ⟨c, rfl⟩ := he
  obtain ⟨d, hd⟩ := hP.align_dvd_word
  rw [hd] at hlt ⊢
  have : c < d := Nat.lt_of_mul_lt_mul_left hlt
  calc P.NGX_ALIGNMENT * c + P.NGX_ALIGNMENT = P.NGX_ALIGNMENT * (c + 1) := by ring
    _ ≤ P.NGX_ALIGNMENT * d := Nat.mul_le_mul_left _ this

theorem size_sub_of_le (P : Platform) (a b : Nat) (hba : b ≤ a) (ha : a < P.word) :
    size_sub P a b = a - b := by
  unfold size_sub
  rw [Nat.mod_eq_of_lt (lt_of_le_of_lt hba ha)]
  have : a + (P.word - b) = (a - b) + P.word := by omega
  rw [this, Nat.add_mod_right, Nat.mod_eq_of_lt (by omega)]

/-- Unsigned subtraction does not see a common offset. -/
theorem size_sub_add_left (P : Platform) (b x y : Nat) :
    size_sub P (b + x) (b + y) = size_sub P x y := by
  unfold size_sub
  have hW := P.word_pos
  have h1 := Nat.div_add_mod (b + y) P.word
  have h2 := Nat.div_add_mod y P.word
  have l1 := Nat.mod_lt (b + y) hW
  have l2 := Nat.mod_lt y hW
  -- b + x + (W - r1) + W * q2 = x + (W - r2) + W * q1
  have key : b + x + (P.word - (b + y) % P.word) + P.word * (y / P.word)
      = x + (P.word - y % P.word) + P.word * ((b + y) / P.word) := by omega
  have e1 : (b + x + (P.word - (b + y) % P.word)) % P.word
      = (b + x + (P.word - (b + y) % P.word) + P.word * (y / P.word)) % P.word :=
    (Nat.add_mul_mod_self_left _ _ _).symm
  have e2 : (x + (P.word - y % P.word)) % P.word
      = (x + (P.word - y % P.word) + P.word * ((b + y) / P.word)) % P.word :=
    (Nat.add_mul_mod_self_left _ _ _).symm
  rw [e1, e2, key]

theorem fresh_max_le_sub (P : Platform) (S : Nat) :
    (if size_sub P S P.sizeof_pool_t < P.NGX_MAX_ALLOC_FROM_POOL
      then size_sub P S P.sizeof_pool_t else P.NGX_MAX_ALLOC_FROM_POOL)
      ≤ size_sub P S P.sizeof_pool_t := by
  split <;> omega

/-! ## The loops -/

theorem scan_blocks_none (P : Platform) (size align : Nat) (bs : List Block) :
    scan_blocks P size align bs = none ↔ ∀ b ∈ bs, ¬ fits P size align b := by
  induction bs with
  | nil => simp [scan_blocks]
  | cons b rest ih =>
    unfold scan_blocks
    by_cases h : size_sub P b.end_ (candidate P align b) ≥ size
    · simp [h, fits]
    · cases hr : scan_blocks P size align rest with
      | none =>
        have := ih.mp hr
        simp only [h, if_false, true_iff]
        intro x hx
        rcases List.mem_cons.mp hx with rfl | hx
        · exact h
        · exact this x hx
      | some r =>
        simp only [h, if_false]
        constructor
        · intro hc; cases hc
        · intro hall
          have : scan_blocks P size align rest = none :=
            ih.mpr (fun x hx => hall x (List.mem_cons_of_mem _ hx))
          rw [hr] at this; cases this

theorem scan_blocks_some (P : Platform) (size align : Nat) (bs : List Block) (m : Nat)
    (bs' : List Block) (h : scan_blocks P size align bs = some (m, bs')) :
    ∃ pre b post, bs = pre ++ b :: post ∧ (∀ x ∈ pre, ¬ fits P size align x) ∧
      fits P size align b ∧ m = candidate P align b ∧
      bs' = pre ++ { b with last := m + size } :: post := by
  induction bs generalizing bs' with
  | nil => simp [scan_blocks] at h
  | cons b rest ih =>
    unfold scan_blocks at h
    by_cases hf : size_sub P b.end_ (candidate P align b) ≥ size
    · simp only [hf, if_true, Option.some.injEq, Prod.mk.injEq] at h
      obtain ⟨rfl, rfl⟩ := h
      exact ⟨[], b, rest, rfl, by simp, hf, rfl, rfl⟩
    · simp only [hf, if_false] at h
      cases hr : scan_blocks P size align rest with
      | none => rw [hr] at h; cases h
      | some r =>
        obtain ⟨a, rest'⟩ := r
        rw [hr] at h
        simp only [Option.some.injEq, Prod.mk.injEq] at h
        obtain ⟨rfl, rfl⟩ := h
        obtain ⟨pre, c, post, h1, h2, h3, h4, h5⟩ := ih rest' hr
        refine ⟨b :: pre, c, post, by simp [h1], ?_, h3, h4, by simp [h5]⟩
        intro x hx
        rcases List.mem_cons.mp hx with rfl | hx
        · exact hf
        · exact h2 x hx

theorem walk_failed_length (bs : List Block) (i cur : Nat) :
    (walk_failed bs i cur).1.length = bs.length := by
  induction bs generalizing i cur with
  | nil => simp [walk_failed]
  | cons b rest ih =>
    cases rest with
    | nil => simp [walk_failed]
    | cons b' rest' =>
      simp only [walk_failed, List.length_cons]
      have := ih (i + 1) (if b.failed > 4 then i + 1 else cur)
      simp only [List.length_cons] at this
      omega

/-- The walk of `ngx_palloc_block` only touches `failed`. -/
theorem walk_failed_forall (Q : Block → Prop)
    (hQ : ∀ b : Block, Q b → Q { b with failed := b.failed + 1 })
    (bs : List Block) (i cur : Nat) (h : ∀ b ∈ bs, Q b) :
    ∀ b ∈ (walk_failed bs i cur).1, Q b := by
  induction bs generalizing i cur with
  | nil => simp [walk_failed]
  | cons b rest ih =>
    cases rest with
    | nil => simpa [walk_failed] using h
    | cons b' rest' =>
      simp only [walk_failed]
      intro x hx
      rcases List.mem_cons.mp hx with rfl | hx
      · exact hQ b (h b (List.mem_cons_self _ _))
      · exact ih (i + 1) _ (fun y hy => h y (List.mem_cons_of_mem _ hy)) x hx

theorem provider_next_eq (prov : List Nat) :
    provider_next prov = (prov.headD 0, prov.tail) := by
  cases prov <;> rfl

theorem headD_mem_or (prov : List Nat) : prov.headD 0 = 0 ∨ prov.headD 0 ∈ prov := by
  cases prov with
  | nil => left; rfl
  | cons a rest => right; simp

/-! ## The invariant `last <= end` -/

theorem BlockOK.candidate_le {P : Platform} {S : Nat} {b : Block} (hP : P.WF)
    (h : BlockOK P S b) (align : Nat) : candidate P align b ≤ b.end_ := by
  unfold candidate
  split
  · exact ngx_align_ptr_least hP _ _
      (le_trans (Nat.add_le_add_right h.last_le _) (aligned_room hP _ h.end_align h.end_lt))
      h.end_align h.last_le
  · exact h.last_le

theorem BlockOK.le_candidate {P : Platform} {S : Nat} {b : Block} (hP : P.WF)
    (h : BlockOK P S b) (align : Nat) : b.last ≤ candidate P align b := by
  unfold candidate
  split
  · exact ngx_align_ptr_ge hP _
      (le_trans (Nat.add_le_add_right h.last_le _) (aligned_room hP _ h.end_align h.end_lt))
  · exact Nat.le_refl _

theorem BlockOK.claim {P : Platform} {S : Nat} {b : Block} (hP : P.WF)
    (h : BlockOK P S b) (size align : Nat) (hf : fits P size align b) :
    BlockOK P S { b with last := candidate P align b + size } := by
  have hc := h.candidate_le hP align
  have hge := h.le_candidate hP align
  have hbl := h.base_le
  have hs := size_sub_of_le P _ _ hc h.end_lt
  unfold fits at hf
  rw [hs] at hf
  exact ⟨by simp only; omega, h.end_eq, h.end_align, h.end_lt, h.base_pos, by simp only; omega⟩

theorem scan_blocks_ok {P : Platform} {S : Nat} (hP : P.WF) (size align : Nat)
    (bs : List Block) (m : Nat) (bs' : List Block)
    (hbs : ∀ b ∈ bs, BlockOK P S b)
    (h : scan_blocks P size align bs = some (m, bs')) : ∀ b ∈ bs', BlockOK P S b := by
  obtain ⟨pre, c, post, rfl, _, hfit, rfl, rfl⟩ := scan_blocks_some P size align bs m bs' h
  intro b hb
  rcases List.mem_append.mp hb with hb | hb
  · exact hbs b (List.mem_append_left _ hb)
  · rcases List.mem_cons.mp hb with rfl | hb
    · exact (hbs c (by simp)).claim hP size align hfit
    · exact hbs b (List.mem_append_right _ (List.mem_cons_of_mem _ hb))

theorem ngx_palloc_block_inv {P : Platform} {S : Nat} (hP : P.WF) (w : World) (size : Nat)
    (h : Inv P S w) (hsz : size + P.sizeof_pool_data_t ≤ S) :
    Inv P S (ngx_palloc_block P w size).2 := by
  unfold ngx_palloc_block
  cases hb : w.pool.blocks with
  | nil => exact h
  | cons hd tl =>
    have hhd : BlockOK P S hd := h.blocks_ok hd (by rw [hb]; simp)
    have hps : size_sub P hd.end_ hd.base = S := by
      rw [size_sub_of_le P _ _ (by rw [hhd.end_eq]; omega) hhd.end_lt, hhd.end_eq]; omega
    simp only [ngx_memalign, provider_next_eq, hps]
    have hprov : ∀ a ∈ w.prov.tail, ProvOK P S a :=
      fun a ha => h.prov_ok a (List.mem_of_mem_tail ha)
    by_cases ha : w.prov.headD 0 = 0
    · simp only [ha, if_true]
      exact ⟨h.blocks_ok, h.max_le, h.size_align, hprov⟩
    · simp only [ha, if_false]
      have hmem : w.prov.headD 0 ∈ w.prov := (headD_mem_or w.prov).resolve_left ha
      obtain ⟨hal, hlt'⟩ := h.prov_ok _ hmem
      have hlt : w.prov.headD 0 + S < P.word := by have := hP.align_pos; omega
      clear hlt'
      generalize w.prov.headD 0 = a at ha hal hlt
      have hal' : P.NGX_ALIGNMENT ∣ a + P.sizeof_pool_data_t :=
        Nat.dvd_add (Nat.dvd_trans hP.pool_align hal) hP.data_align
      have hroom : a + P.sizeof_pool_data_t + P.NGX_ALIGNMENT ≤ P.word :=
        aligned_room hP _ hal' (by omega)
      have hfix := ngx_align_ptr_fix hP _ hroom hal'
      refine ⟨?_, h.max_le, h.size_align, hprov⟩
      intro b hbm
      simp only [List.mem_append, List.mem_singleton] at hbm
      rcases hbm with (hbm | hbm) | rfl
      · exact h.blocks_ok b (List.mem_of_mem_take hbm)
      · refine walk_failed_forall (BlockOK P S) ?_ _ _ _ ?_ b hbm
        · intro x hx
          exact ⟨hx.last_le, hx.end_eq, hx.end_align, hx.end_lt, hx.base_pos, hx.base_le⟩
        · intro x hx; exact h.blocks_ok x (List.mem_of_mem_drop hx)
      · refine ⟨?_, rfl, ?_, by simp only; omega, by simp only; omega,
          by simp only [hfix]; omega⟩
        · simp only [hfix]; omega
        · simp only
          exact Nat.dvd_add (Nat.dvd_trans hP.pool_align hal) h.size_align

theorem ngx_palloc_small_inv {P : Platform} {S : Nat} (hP : P.WF) (w : World)
    (size align : Nat) (h : Inv P S w) (hsz : size + P.sizeof_pool_data_t ≤ S) :
    Inv P S (ngx_palloc_small P w size align).2 := by
  unfold ngx_palloc_small
  cases hs : scan_blocks P size align (w.pool.blocks.drop w.pool.current) with
  | none => exact ngx_palloc_block_inv hP w size h hsz
  | some r =>
    obtain ⟨m, bs⟩ := r
    refine ⟨?_, h.max_le, h.size_align, h.prov_ok⟩
    intro b hb
    rcases List.mem_append.mp hb with hb | hb
    · exact h.blocks_ok b (List.mem_of_mem_take hb)
    · exact scan_blocks_ok hP size align _ m bs
        (fun x hx => h.blocks_ok x (List.mem_of_mem_drop hx)) hs b hb

theorem Inv.small_size {P : Platform} {S : Nat} {w : World} (hP : P.WF) (h : Inv P S w)
    (size : Nat) (hsz : size ≤ w.pool.max) : size + P.sizeof_pool_data_t ≤ S := by
  have h1 := h.max_le
  have h2 := hP.data_le
  omega

theorem Inv.large_size {P : Platform} {S : Nat} {w : World} (hP : P.WF) (h : Inv P S w) :
    P.sizeof_pool_large_t + P.sizeof_pool_data_t ≤ S := by
  have h1 := h.max_le
  have h2 := hP.data_le
  omega

theorem ngx_palloc_large_inv {P : Platform} {S : Nat} (hP : P.WF) (w : World) (size : Nat)
    (h : Inv P S w) : Inv P S (ngx_palloc_large P w size).2 := by
  have h1 : Inv P S (ngx_alloc size w).2 :=
    ⟨h.blocks_ok, h.max_le, h.size_align, fun a ha => h.prov_ok a (by
      simp only [ngx_alloc, provider_next_eq] at ha; exact List.mem_of_mem_tail ha)⟩
  unfold ngx_palloc_large
  simp only
  split
  · exact h1
  · split
    · exact ⟨h1.blocks_ok, h1.max_le, h1.size_align, h1.prov_ok⟩
    · have h2 := ngx_palloc_small_inv hP (ngx_alloc size w).2 P.sizeof_pool_large_t 1 h1
        (h1.large_size hP)
      split
      · exact ⟨h2.blocks_ok, h2.max_le, h2.size_align, h2.prov_ok⟩
      · exact ⟨h2.blocks_ok, h2.max_le, h2.size_align, h2.prov_ok⟩

theorem ngx_pmemalign_inv {P : Platform} {S : Nat} (hP : P.WF) (w : World)
    (size alignment : Nat) (h : Inv P S w) : Inv P S (ngx_pmemalign P w size alignment).2 := by
  have h1 : Inv P S (ngx_memalign alignment size w).2 :=
    ⟨h.blocks_ok, h.max_le, h.size_align, fun a ha => h.prov_ok a (by
      simp only [ngx_memalign, provider_next_eq] at ha; exact List.mem_of_mem_tail ha)⟩
  unfold ngx_pmemalign
  simp only
  split
  · exact h1
  · have h2 := ngx_palloc_small_inv hP (ngx_memalign alignment size w).2
      P.sizeof_pool_large_t 1 h1 (h1.large_size hP)
    split
    · exact ⟨h2.blocks_ok, h2.max_le, h2.size_align, h2.prov_ok⟩
    · exact ⟨h2.blocks_ok, h2.max_le, h2.size_align, h2.prov_ok⟩

theorem ngx_palloc_inv {P : Platform} {S : Nat} (hP : P.WF) (w : World) (size : Nat)
    (h : Inv P S w) : Inv P S (ngx_palloc P w size).2 := by
  unfold ngx_palloc
  split
  · exact ngx_palloc_small_inv hP w size 1 h (h.small_size hP size (by assumption))
  · exact ngx_palloc_large_inv hP w size h

theorem ngx_pnalloc_inv {P : Platform} {S : Nat} (hP : P.WF) (w : World) (size : Nat)
    (h : Inv P S w) : Inv P S (ngx_pnalloc P w size).2 := by
  unfold ngx_pnalloc
  split
  · exact ngx_palloc_small_inv hP w size 0 h (h.small_size hP size (by assumption))
  · exact ngx_palloc_large_inv hP w size h

theorem ngx_pfree_inv {P : Platform} {S : Nat} (w : World) (p : Nat)
    (h : Inv P S w) : Inv P S (ngx_pfree w p).2 := by
  unfold ngx_pfree
  split
  · exact ⟨h.blocks_ok, h.max_le, h.size_align, h.prov_ok⟩
  · exact h

theorem ngx_pool_cleanup_add_inv {P : Platform} {S : Nat} (hP : P.WF) (w : World) (size : Nat)
    (h : Inv P S w) : Inv P S (ngx_pool_cleanup_add P w size).2 := by
  have h1 := ngx_palloc_inv hP w P.sizeof_pool_cleanup_t h
  unfold ngx_pool_cleanup_add
  simp only
  split
  · exact h1
  · split
    · have h2 := ngx_palloc_inv hP (ngx_palloc P w P.sizeof_pool_cleanup_t).2 size h1
      split
      · exact h2
      · exact ⟨h2.blocks_ok, h2.max_le, h2.size_align, h2.prov_ok⟩
    · exact ⟨h1.blocks_ok, h1.max_le, h1.size_align, h1.prov_ok⟩

theorem rewind_mem (P : Platform) (bs : List Block) (b : Block) (hb : b ∈ rewind P bs) :
    ∃ b0 ∈ bs, b = { b0 with last := b0.base + P.sizeof_pool_t, failed := 0 } := by
  induction bs with
  | nil => simp [rewind] at hb
  | cons x rest ih =>
    simp only [rewind, List.mem_cons] at hb
    rcases hb with rfl | hb
    · exact ⟨x, by simp, rfl⟩
    · obtain ⟨b0, hb0, rfl⟩ := ih hb
      exact ⟨b0, List.mem_cons_of_mem _ hb0, rfl⟩

theorem ngx_reset_pool_inv {P : Platform} {S : Nat} (w : World)
    (h : Inv P S w) : Inv P S (ngx_reset_pool P w) := by
  refine ⟨?_, h.max_le, h.size_align, h.prov_ok⟩
  intro b hb
  obtain ⟨b0, hb0, rfl⟩ := rewind_mem P _ b hb
  have h0 := h.blocks_ok b0 hb0
  have hm := h.max_le
  exact ⟨by simp only; rw [h0.end_eq]; omega, h0.end_eq, h0.end_align, h0.end_lt, h0.base_pos,
    by simp only; omega⟩

theorem step_inv {P : Platform} {S : Nat} (hP : P.WF) (w : World) (op : Op)
    (h : Inv P S w) : Inv P S (step P w op) := by
  cases op with
  | palloc size => exact ngx_palloc_inv hP w size h
  | pnalloc size => exact ngx_pnalloc_inv hP w size h
  | pcalloc size => exact ngx_palloc_inv hP w size h
  | pmemalign size alignment => exact ngx_pmemalign_inv hP w size alignment h
  | pfree p => exact ngx_pfree_inv w p h
  | cleanup_add size => exact ngx_pool_cleanup_add_inv hP w size h
  | set_cleanup c hh fd => exact ⟨h.blocks_ok, h.max_le, h.size_align, h.prov_ok⟩
  | run_cleanup_file fd => exact ⟨h.blocks_ok, h.max_le, h.size_align, h.prov_ok⟩
  | reset => exact ngx_reset_pool_inv w h

theorem run_inv {P : Platform} {S : Nat} (hP : P.WF) (ops : List Op) (w : World)
    (h : Inv P S w) : Inv P S (run P w ops) := by
  induction ops generalizing w with
  | nil => exact h
  | cons op rest ih => exact ih (step P w op) (step_inv hP w op h)

theorem ngx_create_pool_inv {P : Platform} {S : Nat} (hP : P.WF) (prov : List Nat) (w : World)
    (hS : P.sizeof_pool_t ≤ S) (hal : P.NGX_ALIGNMENT ∣ S)
    (hprov : ∀ a ∈ prov, ProvOK P S a)
    (hc : ngx_create_pool P S prov = some w) : Inv P S w := by
  unfold ngx_create_pool at hc
  simp only [provider_next_eq] at hc
  by_cases ha : prov.headD 0 = 0
  · rw [if_pos ha] at hc; cases hc
  · simp only [ha, if_false, Option.some.injEq] at hc
    subst hc
    have hmem : prov.headD 0 ∈ prov := (headD_mem_or prov).resolve_left ha
    obtain ⟨hpa, hlt'⟩ := hprov _ hmem
    have hlt : prov.headD 0 + S < P.word := by have := hP.align_pos; omega
    have hsub : size_sub P S P.sizeof_pool_t = S - P.sizeof_pool_t :=
      size_sub_of_le P _ _ hS (by omega)
    refine ⟨?_, ?_, hal, fun a ha => hprov a (List.mem_of_mem_tail ha)⟩
    · intro b hb
      simp only [List.mem_singleton] at hb
      subst hb
      exact ⟨by simp only; omega, rfl,
        Nat.dvd_add (Nat.dvd_trans hP.pool_align hpa) hal, hlt, by simp only; omega,
        by simp only; omega⟩
    · simp only [hsub]
      split <;> omega

/-- Under the invariant every cursor is a non-null address that leaves room
for one alignment step, and the test of `ngx_palloc_small` accepts a block
exactly when the region fits between the candidate address and `end`. -/
theorem Inv.cursors_ok {P : Platform} {S : Nat} {w : World} (hP : P.WF) (h : Inv P S w) :
    (∀ b ∈ w.pool.blocks, 0 < b.last ∧ b.last + P.NGX_ALIGNMENT ≤ P.word) ∧
    (∀ b ∈ w.pool.blocks, ∀ size align,
      fits P size align b ↔ candidate P align b + size ≤ b.end_) := by
  constructor
  · intro b hb
    have hok := h.blocks_ok b hb
    have h1 := hok.base_pos
    have h2 := hok.base_le
    have h3 := hok.last_le
    have h4 := aligned_room hP _ hok.end_align hok.end_lt
    omega
  · intro b hb size align
    have hok := h.blocks_ok b hb
    have hc := hok.candidate_le hP align
    unfold fits
    rw [size_sub_of_le P _ _ hc hok.end_lt]
    omega

/-! ## C1 -/

/-- C1, counterexample: `last <= end` does not hold for every pool.  A pool of
100 bytes at 4096 has `end = 4196`, which is not a multiple of `NGX_ALIGNMENT`;
after `ngx_pnalloc(17)` the cursor is 4193, and `ngx_palloc(1)` rounds it up to
4200, past `end`: the unsigned difference `end - m` wraps, the test succeeds and
the cursor becomes 4201.  A pool of 16 bytes, smaller than its header, starts
with cursor 4176 and `end = 4112`. -/
theorem c1_last_exceeds_end :
    (ngx_create_pool lp64 100 [4096] = some
        { pool := { blocks := [{ base := 4096, last := 4176, end_ := 4196, failed := 0 }],
                    max := 20, current := 0, large := [], cleanup := [] },
          prov := [], trace := [Event.memalign 16 100 4096] }
      ∧ (run lp64
          { pool := { blocks := [{ base := 4096, last := 4176, end_ := 4196, failed := 0 }],
                      max := 20, current := 0, large := [], cleanup := [] },
            prov := [], trace := [Event.memalign 16 100 4096] }
          [Op.pnalloc 17, Op.palloc 1]).pool.blocks
        = [{ base := 4096, last := 4201, end_ := 4196, failed := 0 }]
      ∧ ¬ (4201 ≤ 4196))
    ∧ ((ngx_create_pool lp64 16 [4096]).map (fun w => w.pool.blocks)
        = some [{ base := 4096, last := 4176, end_ := 4112, failed := 0 }]
      ∧ ¬ (4176 ≤ 4112)) := by
  decide

/-- C1, amended: for a pool created with a size `S` that holds the pool header
and is a multiple of `NGX_ALIGNMENT`, from a provider whose blocks are
`NGX_POOL_ALIGNMENT`-aligned and end inside the address space, every block
satisfies `last <= end` after every finite sequence of calls. -/
theorem last_le_end_of_aligned_size (P : Platform) (hP : P.WF) (S : Nat) (prov : List Nat)
    (w0 : World) (hS : P.sizeof_pool_t ≤ S) (hal : P.NGX_ALIGNMENT ∣ S)
    (hprov : ∀ a ∈ prov, ProvOK P S a)
    (hc : ngx_create_pool P S prov = some w0) (ops : List Op) :
    ∀ b ∈ (run P w0 ops).pool.blocks, b.last ≤ b.end_ :=
  fun b hb => ((run_inv hP ops w0 (ngx_create_pool_inv hP prov w0 hS hal hprov hc)).blocks_ok
    b hb).last_le

/-- Witness of `last_le_end_of_aligned_size`: a 4096-byte pool that fills both
its first block and a second one to the last byte, takes a large allocation,
releases it, registers a cleanup and is reset. -/
theorem last_le_end_of_aligned_size_witness :
    (lp64.sizeof_pool_t ≤ 4096 ∧ lp64.NGX_ALIGNMENT ∣ 4096
      ∧ (∀ a ∈ [65536, 131072, 196608, 262144], ProvOK lp64 4096 a))
    ∧ ∀ b ∈ (run lp64
        { pool := { blocks := [{ base := 65536, last := 65616, end_ := 69632, failed := 0 }],
                    max := 4016, current := 0, large := [], cleanup := [] },
          prov := [131072, 196608, 262144], trace := [Event.memalign 16 4096 65536] }
        [Op.palloc 4000, Op.pnalloc 17, Op.palloc 1, Op.palloc 4000, Op.palloc 5000,
          Op.pfree 196608, Op.cleanup_add 8, Op.reset, Op.pcalloc 100]).pool.blocks,
        b.last ≤ b.end_ :=
  ⟨by decide,
    last_le_end_of_aligned_size lp64 lp64_wf 4096 [65536, 131072, 196608, 262144] _
      (by decide) (by decide) (by decide) (by decide) _⟩

/-! ## What each function computes -/

theorem ngx_create_pool_some (P : Platform) (S : Nat) (prov : List Nat) (w : World)
    (h : ngx_create_pool P S prov = some w) :
    ∃ b0 rest, prov = b0 :: rest ∧ b0 ≠ 0 ∧
      w = { pool :=
              { blocks := [{ base := b0, last := b0 + P.sizeof_pool_t, end_ := b0 + S,
                             failed := 0 }]
                max := if size_sub P S P.sizeof_pool_t < P.NGX_MAX_ALLOC_FROM_POOL
                  then size_sub P S P.sizeof_pool_t else P.NGX_MAX_ALLOC_FROM_POOL
                current := 0
                large := []
                cleanup := [] }
            prov := rest
            trace := [Event.memalign P.NGX_POOL_ALIGNMENT S b0] } := by
  cases prov with
  | nil => simp [ngx_create_pool, provider_next] at h
  | cons b0 rest =>
    simp only [ngx_create_pool, provider_next] at h
    by_cases hb : b0 = 0
    · rw [if_pos hb] at h; cases h
    · rw [if_neg hb] at h
      exact ⟨b0, rest, rfl, hb, (Option.some.inj h).symm⟩

theorem ngx_palloc_block_fail (P : Platform) (w : World) (size : Nat)
    (hp : w.prov.headD 0 = 0) : (ngx_palloc_block P w size).1 = 0 := by
  unfold ngx_palloc_block
  cases w.pool.blocks with
  | nil => rfl
  | cons hd tl => simp only [ngx_memalign, provider_next_eq, hp, if_true]

theorem ngx_palloc_block_grow (P : Platform) (w : World) (size : Nat) (hd : Block)
    (tl : List Block) (a : Nat) (rest : List Nat)
    (hb : w.pool.blocks = hd :: tl) (hp : w.prov = a :: rest) (ha : a ≠ 0) :
    ngx_palloc_block P w size =
      (ngx_align_ptr P (a + P.sizeof_pool_data_t) P.NGX_ALIGNMENT,
        { pool := { w.pool with
            blocks := w.pool.blocks.take w.pool.current
              ++ (walk_failed (w.pool.blocks.drop w.pool.current) w.pool.current
                    w.pool.current).1
              ++ [{ base := a,
                    last := ngx_align_ptr P (a + P.sizeof_pool_data_t) P.NGX_ALIGNMENT + size,
                    end_ := a + size_sub P hd.end_ hd.base,
                    failed := 0 }]
            current := (walk_failed (w.pool.blocks.drop w.pool.current) w.pool.current
                    w.pool.current).2 }
          prov := rest
          trace := w.trace ++ [Event.memalign P.NGX_POOL_ALIGNMENT
            (size_sub P hd.end_ hd.base) a] }) := by
  simp [ngx_palloc_block, hb, ngx_memalign, provider_next, hp, ha]

/-- The small path on a pool whose `current` is its first block, when that
block has room. -/
theorem ngx_palloc_small_head (P : Platform) (w : World) (size align : Nat) (hd : Block)
    (tl : List Block) (hb : w.pool.blocks = hd :: tl) (hcur : w.pool.current = 0)
    (hfit : fits P size align hd) :
    ngx_palloc_small P w size align =
      (candidate P align hd,
        { w with pool := { w.pool with
            blocks := { hd with last := candidate P align hd + size } :: tl } }) := by
  unfold fits at hfit
  simp [ngx_palloc_small, hb, hcur, scan_blocks, hfit]

/-- The small path on a pool whose `current` is its first and only block, when
that block has no room. -/
theorem ngx_palloc_small_single_full (P : Platform) (w : World) (size align : Nat)
    (hd : Block) (hb : w.pool.blocks = [hd]) (hcur : w.pool.current = 0)
    (hfit : ¬ fits P size align hd) :
    ngx_palloc_small P w size align = ngx_palloc_block P w size := by
  unfold fits at hfit
  simp [ngx_palloc_small, hb, hcur, scan_blocks, hfit]

theorem candidate_aligned_eq {P : Platform} (hP : P.WF) (b : Block) (align : Nat)
    (hal : P.NGX_ALIGNMENT ∣ b.last) (hroom : b.last + P.NGX_ALIGNMENT ≤ P.word) :
    candidate P align b = b.last := by
  unfold candidate
  split
  · exact ngx_align_ptr_fix hP _ hroom hal
  · rfl

theorem candidate_ge {P : Platform} (hP : P.WF) (b : Block) (align : Nat)
    (hroom : b.last + P.NGX_ALIGNMENT ≤ P.word) : b.last ≤ candidate P align b := by
  unfold candidate
  split
  · exact ngx_align_ptr_ge hP _ hroom
  · exact Nat.le_refl _

/-! ## C2 -/

/-- The small `ngx_palloc` on a pool whose `current` is the first block, with
that block's cursor just past the pool header, is served there. -/
theorem ngx_palloc_rewound {P : Platform} (hP : P.WF) (S size : Nat) (w : World) (hd : Block)
    (tl : List Block) (hb : w.pool.blocks = hd :: tl) (hcur : w.pool.current = 0)
    (hlast : hd.last = hd.base + P.sizeof_pool_t) (hend : hd.end_ = hd.base + S)
    (hal : P.NGX_POOL_ALIGNMENT ∣ hd.base)
    (hroom : hd.base + P.sizeof_pool_t + P.NGX_ALIGNMENT ≤ P.word) (hsz : size ≤ w.pool.max)
    (hmx : w.pool.max ≤ size_sub P S P.sizeof_pool_t) :
    ngx_palloc P w size
    = (hd.base + P.sizeof_pool_t,
      { w with pool := { w.pool with
          blocks := { hd with last := hd.base + P.sizeof_pool_t + size } :: tl } }) := by
  have hal' : P.NGX_ALIGNMENT ∣ hd.last := by
    rw [hlast]; exact Nat.dvd_add (Nat.dvd_trans hP.pool_align hal) hP.hdr_align
  have hcand : candidate P 1 hd = hd.base + P.sizeof_pool_t := by
    rw [candidate_aligned_eq hP _ 1 hal' (by omega), hlast]
  have hfit : fits P size 1 hd := by
    unfold fits
    rw [hcand, hend, size_sub_add_left]
    omega
  unfold ngx_palloc
  rw [if_pos hsz, ngx_palloc_small_head P _ size 1 _ tl hb hcur hfit, hcand]

theorem fresh_max_le (P : Platform) (S : Nat) (hS : P.sizeof_pool_t ≤ S) (hlt : S < P.word) :
    (if size_sub P S P.sizeof_pool_t < P.NGX_MAX_ALLOC_FROM_POOL
      then size_sub P S P.sizeof_pool_t else P.NGX_MAX_ALLOC_FROM_POOL) + P.sizeof_pool_t ≤ S := by
  rw [size_sub_of_le P _ _ hS hlt]
  split <;> omega

/-- C2, counterexample: a 200-byte pool at 8192 serves the first
`ngx_palloc(100)` at 8272; the second does not fit, the provider places the new
block at 4096 and the call returns 4128, below the first region. -/
theorem c2_second_below_first :
    ngx_create_pool lp64 200 [8192, 4096] = some
        { pool := { blocks := [{ base := 8192, last := 8272, end_ := 8392, failed := 0 }],
                    max := 120, current := 0, large := [], cleanup := [] },
          prov := [4096], trace := [Event.memalign 16 200 8192] }
    ∧ (ngx_palloc lp64
        { pool := { blocks := [{ base := 8192, last := 8272, end_ := 8392, failed := 0 }],
                    max := 120, current := 0, large := [], cleanup := [] },
          prov := [4096], trace := [Event.memalign 16 200 8192] } 100).1 = 8272
    ∧ (ngx_palloc lp64 (ngx_palloc lp64
        { pool := { blocks := [{ base := 8192, last := 8272, end_ := 8392, failed := 0 }],
                    max := 120, current := 0, large := [], cleanup := [] },
          prov := [4096], trace := [Event.memalign 16 200 8192] } 100).2 100).1 = 4128
    ∧ ¬ (4128 ≥ 8272 + 100) := by
  decide

/-- C2, amended: on a freshly created pool (size at least the header, provider
blocks aligned, inside the address space and pairwise disjoint), two
consecutive successful `ngx_palloc(pool, size)` with `size <= max` return
regions `[a1, a1+size)` and `[a2, a2+size)` that do not overlap; and
`a2 >= a1 + size` when the second call is served without growing the chain. -/
theorem two_pallocs_apart (P : Platform) (hP : P.WF) (S size : Nat) (prov : List Nat)
    (w0 : World) (hS : P.sizeof_pool_t ≤ S) (hprov : ∀ a ∈ prov, ProvOK P S a)
    (hdis : ProvApart S prov) (hc : ngx_create_pool P S prov = some w0)
    (hsz : size ≤ w0.pool.max) (_h1 : (ngx_palloc P w0 size).1 ≠ 0)
    (h2 : (ngx_palloc P (ngx_palloc P w0 size).2 size).1 ≠ 0) :
    ((ngx_palloc P w0 size).1 + size ≤ (ngx_palloc P (ngx_palloc P w0 size).2 size).1
      ∨ (ngx_palloc P (ngx_palloc P w0 size).2 size).1 + size ≤ (ngx_palloc P w0 size).1)
    ∧ ((ngx_palloc P (ngx_palloc P w0 size).2 size).2.pool.blocks.length = 1 →
      (ngx_palloc P w0 size).1 + size ≤ (ngx_palloc P (ngx_palloc P w0 size).2 size).1) := by
  obtain ⟨b0, rest, rfl, hb0, rfl⟩ := ngx_create_pool_some P S _ w0 hc
  have hpos := hP.align_pos
  have hok0 : ProvOK P S b0 := hprov b0 (by simp)
  have hmx := fresh_max_le P S hS (by have := hok0.2; omega)
  rw [ngx_palloc_rewound hP S size _ _ [] rfl rfl rfl rfl hok0.1
    (by have := hok0.2; simp only; omega) hsz (fresh_max_le_sub P S)] at h2 ⊢
  simp only at hsz hmx h2 ⊢
  generalize hmxd : (if size_sub P S P.sizeof_pool_t < P.NGX_MAX_ALLOC_FROM_POOL
      then size_sub P S P.sizeof_pool_t else P.NGX_MAX_ALLOC_FROM_POOL) = mx at hsz hmx h2 ⊢
  unfold ngx_palloc at h2 ⊢
  simp only [if_pos hsz] at h2 ⊢
  by_cases hfit : fits P size 1
      { base := b0, last := b0 + P.sizeof_pool_t + size, end_ := b0 + S, failed := 0 }
  · rw [ngx_palloc_small_head P _ size 1 _ [] rfl rfl hfit]
    have hge := candidate_ge hP
      { base := b0, last := b0 + P.sizeof_pool_t + size, end_ := b0 + S, failed := 0 } 1
      (by have := hok0.2; simp only; omega)
    simp only at hge ⊢
    exact ⟨Or.inl hge, fun _ => hge⟩
  · rw [ngx_palloc_small_single_full P _ size 1 _ rfl rfl hfit] at h2 ⊢
    cases rest with
    | nil => exact (h2 (ngx_palloc_block_fail P _ size rfl)).elim
    | cons b1 rest' =>
      by_cases hb1 : b1 = 0
      · exact (h2 (ngx_palloc_block_fail P _ size hb1)).elim
      · rw [ngx_palloc_block_grow P _ size _ [] b1 rest' rfl rfl hb1]
        obtain ⟨hal1, hlt1⟩ := hprov b1 (by simp)
        have hal' : P.NGX_ALIGNMENT ∣ b1 + P.sizeof_pool_data_t :=
          Nat.dvd_add (Nat.dvd_trans hP.pool_align hal1) hP.data_align
        have hle := hP.data_le
        rw [ngx_align_ptr_fix hP _ (by omega) hal']
        have hap : b0 + S ≤ b1 ∨ b1 + S ≤ b0 := by
          have := List.rel_of_pairwise_cons hdis (List.mem_cons_self b1 rest')
          exact this hb0 hb1
        constructor
        · rcases hap with h | h
          · left; omega
          · right; omega
        · intro hlen
          simp [walk_failed] at hlen

/-- Witness of `two_pallocs_apart`: the 200-byte pool of the counterexample;
the two regions `[8272, 8372)` and `[4128, 4228)` are disjoint. -/
theorem two_pallocs_apart_witness :
    (8272 + 100 ≤ 4128 ∨ 4128 + 100 ≤ 8272) ∧
    ((ngx_palloc lp64 (ngx_palloc lp64
        { pool := { blocks := [{ base := 8192, last := 8272, end_ := 8392, failed := 0 }],
                    max := 120, current := 0, large := [], cleanup := [] },
          prov := [4096], trace := [Event.memalign 16 200 8192] } 100).2
        100).2.pool.blocks.length = 1 → 8272 + 100 ≤ 4128) :=
  two_pallocs_apart lp64 lp64_wf 200 100 [8192, 4096]
    { pool := { blocks := [{ base := 8192, last := 8272, end_ := 8392, failed := 0 }],
                max := 120, current := 0, large := [], cleanup := [] },
      prov := [4096], trace := [Event.memalign 16 200 8192] }
    (by decide) (by decide) (by unfold ProvApart; decide) (by decide) (by decide)
    (by decide) (by decide)

/-! ## C3 -/

/-- When the sum in `ngx_align_ptr` wraps around, the result is the null
pointer: a non-null result was computed without wrap-around. -/
theorem ngx_align_ptr_room {P : Platform} (hP : P.WF) (p : Nat) (hp : p < P.word)
    (hne : ngx_align_ptr P p P.NGX_ALIGNMENT ≠ 0) : p + P.NGX_ALIGNMENT ≤ P.word := by
  by_contra hcon
  apply hne
  obtain ⟨k, hkb, hk⟩ := hP.align_pow
  have hpos := hP.align_pos
  have hle : P.NGX_ALIGNMENT ≤ P.word := Nat.le_of_dvd P.word_pos hP.align_dvd_word
  have hmod : (p + (P.NGX_ALIGNMENT - 1)) % P.word = p + (P.NGX_ALIGNMENT - 1) - P.word := by
    rw [Nat.mod_eq_sub_mod (by omega), Nat.mod_eq_of_lt (by omega)]
  unfold ngx_align_ptr
  rw [hmod]
  have h := land_mask P.bits k (p + (P.NGX_ALIGNMENT - 1) - P.word) hkb
    (by unfold Platform.word at *; omega)
  rw [Nat.div_eq_of_lt (by rw [← hk]; omega), Nat.zero_mul, ← hk] at h
  exact h

theorem ngx_align_ptr_leastAligned {P : Platform} (hP : P.WF) (p : Nat) (hp : p < P.word)
    (hne : ngx_align_ptr P p P.NGX_ALIGNMENT ≠ 0) :
    LeastAligned P p (ngx_align_ptr P p P.NGX_ALIGNMENT) := by
  have hroom := ngx_align_ptr_room hP p hp hne
  exact ⟨ngx_align_ptr_dvd hP p hroom, ngx_align_ptr_ge hP p hroom, ngx_align_ptr_lt hP p hroom,
    fun q hq hpq => ngx_align_ptr_least hP p q hroom hq hpq⟩

/-- A successful `ngx_palloc_block` found a non-empty chain and a non-null
answer of the provider. -/
theorem ngx_palloc_block_ne_zero (P : Platform) (w : World) (size : Nat)
    (h : (ngx_palloc_block P w size).1 ≠ 0) :
    ∃ hd tl a rest, w.pool.blocks = hd :: tl ∧ w.prov = a :: rest ∧ a ≠ 0 := by
  cases hb : w.pool.blocks with
  | nil => simp [ngx_palloc_block, hb] at h
  | cons hd tl =>
    cases hp : w.prov with
    | nil => exact (h (ngx_palloc_block_fail P w size (by rw [hp]; rfl))).elim
    | cons a rest =>
      refine ⟨hd, tl, a, rest, rfl, rfl, ?_⟩
      intro ha
      exact h (ngx_palloc_block_fail P w size (by rw [hp]; exact ha))

/-- The small path, case by case: either a block from `current` on is claimed
at its candidate address, or no block has room and the result is that of
`ngx_palloc_block`. -/
theorem ngx_palloc_small_cases (P : Platform) (w : World) (size align : Nat) :
    (∃ pre b post, w.pool.blocks.drop w.pool.current = pre ++ b :: post ∧
        (∀ x ∈ pre, ¬ fits P size align x) ∧ fits P size align b ∧
        ngx_palloc_small P w size align =
          (candidate P align b,
            { w with pool := { w.pool with
                blocks := w.pool.blocks.take w.pool.current ++
                  (pre ++ { b with last := candidate P align b + size } :: post) } }))
    ∨ ((∀ x ∈ w.pool.blocks.drop w.pool.current, ¬ fits P size align x) ∧
        ngx_palloc_small P w size align = ngx_palloc_block P w size) := by
  cases hs : scan_blocks P size align (w.pool.blocks.drop w.pool.current) with
  | none =>
    right
    exact ⟨(scan_blocks_none P size align _).mp hs, by simp [ngx_palloc_small, hs]⟩
  | some r =>
    obtain ⟨m, bs⟩ := r
    obtain ⟨pre, b, post, h1, h2, h3, rfl, rfl⟩ := scan_blocks_some P size align _ m bs hs
    left
    exact ⟨pre, b, post, h1, h2, h3, by simp [ngx_palloc_small, hs]⟩

/-- C3: for a pool whose cursors and provider answers are machine addresses and
`size <= max`, a successful `ngx_palloc` either claims an existing block from
`current` on, returning the least multiple of `NGX_ALIGNMENT` that is at least
that block's cursor, or appends a new block, returning the least multiple of
`NGX_ALIGNMENT` at least the new block's initial cursor
(`base + sizeof(ngx_pool_data_t)`); and `ngx_pnalloc`, when a block from
`current` on has room, returns exactly the old cursor of the block it claims. -/
theorem palloc_least_aligned (P : Platform) (hP : P.WF) (w : World) (size : Nat)
    (hsz : size ≤ w.pool.max) (hlast : ∀ b ∈ w.pool.blocks, b.last < P.word)
    (hprov : ∀ a ∈ w.prov, a + P.sizeof_pool_data_t < P.word) :
    ((ngx_palloc P w size).1 ≠ 0 →
      (∃ pre b post, w.pool.blocks.drop w.pool.current = pre ++ b :: post ∧
          (ngx_palloc P w size).2.pool.blocks = w.pool.blocks.take w.pool.current ++
            (pre ++ { b with last := (ngx_palloc P w size).1 + size } :: post) ∧
          LeastAligned P b.last (ngx_palloc P w size).1)
      ∨ (∃ old nb, (ngx_palloc P w size).2.pool.blocks = old ++ [nb] ∧
          old.length = w.pool.blocks.length ∧
          nb.last = (ngx_palloc P w size).1 + size ∧
          LeastAligned P (nb.base + P.sizeof_pool_data_t) (ngx_palloc P w size).1))
    ∧ ((∃ b ∈ w.pool.blocks.drop w.pool.current, fits P size 0 b) →
      ∃ pre b post, w.pool.blocks.drop w.pool.current = pre ++ b :: post ∧
          (ngx_pnalloc P w size).1 = b.last ∧
          (ngx_pnalloc P w size).2.pool.blocks = w.pool.blocks.take w.pool.current ++
            (pre ++ { b with last := b.last + size } :: post)) := by
  constructor
  · intro hne
    unfold ngx_palloc at hne ⊢
    rw [if_pos hsz] at hne ⊢
    rcases ngx_palloc_small_cases P w size 1 with ⟨pre, b, post, h1, _, _, heq⟩ | ⟨_, heq⟩
    · left
      rw [heq] at hne ⊢
      refine ⟨pre, b, post, h1, rfl, ?_⟩
      have hb : b ∈ w.pool.blocks :=
        List.mem_of_mem_drop (by rw [h1]; simp)
      simp only [candidate, Nat.one_ne_zero, ne_eq, not_false_eq_true, if_true] at hne ⊢
      exact ngx_align_ptr_leastAligned hP _ (hlast b hb) hne
    · right
      rw [heq] at hne ⊢
      obtain ⟨hd, tl, a, rest, hb, hp, ha⟩ := ngx_palloc_block_ne_zero P w size hne
      rw [ngx_palloc_block_grow P w size hd tl a rest hb hp ha] at hne ⊢
      refine ⟨_, _, rfl, ?_, rfl, ?_⟩
      · rw [List.length_append, walk_failed_length, List.length_take, List.length_drop]
        omega
      · exact ngx_align_ptr_leastAligned hP _ (hprov a (by rw [hp]; simp)) hne
  · rintro ⟨b, hb, hfit⟩
    unfold ngx_pnalloc
    rw [if_pos hsz]
    rcases ngx_palloc_small_cases P w size 0 with ⟨pre, c, post, h1, _, _, heq⟩ | ⟨hno, _⟩
    · rw [heq]
      exact ⟨pre, c, post, h1, by simp [candidate], by simp [candidate]⟩
    · exact (hno b hb hfit).elim

/-- Witness of `palloc_least_aligned`: on a block with cursor 4193,
`ngx_palloc(10)` returns 4200 and `ngx_pnalloc(10)` returns 4193. -/
theorem palloc_least_aligned_witness :
    (ngx_palloc lp64 ex_unaligned 10).1 = 4200 ∧ (ngx_pnalloc lp64 ex_unaligned 10).1 = 4193 ∧
      (((ngx_palloc lp64 ex_unaligned 10).1 ≠ 0 →
        (∃ pre b post,
            ex_unaligned.pool.blocks.drop ex_unaligned.pool.current = pre ++ b :: post ∧
            (ngx_palloc lp64 ex_unaligned 10).2.pool.blocks =
              ex_unaligned.pool.blocks.take ex_unaligned.pool.current ++
                (pre ++ { b with last := (ngx_palloc lp64 ex_unaligned 10).1 + 10 } :: post) ∧
            LeastAligned lp64 b.last (ngx_palloc lp64 ex_unaligned 10).1)
        ∨ (∃ old nb, (ngx_palloc lp64 ex_unaligned 10).2.pool.blocks = old ++ [nb] ∧
            old.length = ex_unaligned.pool.blocks.length ∧
            nb.last = (ngx_palloc lp64 ex_unaligned 10).1 + 10 ∧
            LeastAligned lp64 (nb.base + lp64.sizeof_pool_data_t)
              (ngx_palloc lp64 ex_unaligned 10).1))
      ∧ ((∃ b ∈ ex_unaligned.pool.blocks.drop ex_unaligned.pool.current, fits lp64 10 0 b) →
        ∃ pre b post,
            ex_unaligned.pool.blocks.drop ex_unaligned.pool.current = pre ++ b :: post ∧
            (ngx_pnalloc lp64 ex_unaligned 10).1 = b.last ∧
            (ngx_pnalloc lp64 ex_unaligned 10).2.pool.blocks =
              ex_unaligned.pool.blocks.take ex_unaligned.pool.current ++
                (pre ++ { b with last := b.last + 10 } :: post))) :=
  ⟨by decide, by decide,
    palloc_least_aligned lp64 lp64_wf ex_unaligned 10 (by decide) (by decide) (by decide)⟩

/-! ## The large registry -/

theorem free_slot_none (p : Nat) (ls : List LargeRec) :
    free_slot p ls = none ↔ ∀ l ∈ ls, l.alloc ≠ p := by
  induction ls with
  | nil => simp [free_slot]
  | cons l rest ih =>
    unfold free_slot
    by_cases h : p = l.alloc
    · simp only [h, if_true, List.mem_cons, forall_eq_or_imp]
      constructor
      · intro hc; cases hc
      · intro hc; exact (hc.1 rfl).elim
    · simp only [h, if_false, List.mem_cons, forall_eq_or_imp]
      cases hr : free_slot p rest with
      | none => exact ⟨fun _ => ⟨fun e => h e.symm, ih.mp hr⟩, fun _ => rfl⟩
      | some r =>
        constructor
        · intro hc; cases hc
        · intro hc
          have := ih.mpr hc.2
          rw [hr] at this; cases this

theorem free_slot_at (p : Nat) (pre : List LargeRec) (l : LargeRec) (post : List LargeRec)
    (hpre : ∀ x ∈ pre, x.alloc ≠ p) (hl : l.alloc = p) :
    free_slot p (pre ++ l :: post) = some (pre ++ { l with alloc := 0 } :: post) := by
  induction pre with
  | nil => simp [free_slot, hl]
  | cons x rest ih =>
    have hx : ¬ p = x.alloc := fun e => hpre x (by simp) e.symm
    have := ih (fun y hy => hpre y (List.mem_cons_of_mem _ hy))
    rw [List.cons_append, free_slot, if_neg hx, this]
    rfl

theorem exists_first (p : Nat) (ls : List LargeRec) (h : ∃ l ∈ ls, l.alloc = p) :
    ∃ pre l post, ls = pre ++ l :: post ∧ (∀ x ∈ pre, x.alloc ≠ p) ∧ l.alloc = p := by
  induction ls with
  | nil => simp at h
  | cons x rest ih =>
    by_cases hx : x.alloc = p
    · exact ⟨[], x, rest, rfl, by simp, hx⟩
    · obtain ⟨l, hl, hlp⟩ := h
      rcases List.mem_cons.mp hl with rfl | hl
      · exact (hx hlp).elim
      · obtain ⟨pre, l', post, h1, h2, h3⟩ := ih ⟨l, hl, hlp⟩
        refine ⟨x :: pre, l', post, by simp [h1], ?_, h3⟩
        intro y hy
        rcases List.mem_cons.mp hy with rfl | hy
        · exact hx
        · exact h2 y hy

theorem reuse_slot_some (p : Nat) (ls : List LargeRec) (n : Nat) (ls' : List LargeRec)
    (hn4 : n ≤ 4) (h : reuse_slot p ls n = some ls') :
    ∃ pre l post, ls = pre ++ l :: post ∧ (∀ x ∈ pre, x.alloc ≠ 0) ∧ l.alloc = 0 ∧
      pre.length + n ≤ 4 ∧ ls' = pre ++ { l with alloc := p } :: post := by
  induction ls generalizing n ls' with
  | nil => simp [reuse_slot] at h
  | cons x rest ih =>
    unfold reuse_slot at h
    by_cases hx : x.alloc = 0
    · simp only [hx, if_true, Option.some.injEq] at h
      subst h
      exact ⟨[], x, rest, rfl, by simp, hx, by simpa using hn4, rfl⟩
    · simp only [hx, if_false] at h
      by_cases hn : n > 3
      · simp [hn] at h
      · simp only [hn, if_false] at h
        cases hr : reuse_slot p rest (n + 1) with
        | none => rw [hr] at h; cases h
        | some r =>
          rw [hr] at h
          simp only [Option.some.injEq] at h
          subst h
          obtain ⟨pre, l, post, h1, h2, h3, h4, h5⟩ := ih (n + 1) r (by omega) hr
          refine ⟨x :: pre, l, post, by simp [h1], ?_, h3, by simp only [List.length_cons]; omega,
            by simp [h5]⟩
          intro y hy
          rcases List.mem_cons.mp hy with rfl | hy
          · exact hx
          · exact h2 y hy

/-- The small path leaves `max` and both registries alone. -/
theorem ngx_palloc_block_frame (P : Platform) (w : World) (size : Nat) :
    (ngx_palloc_block P w size).2.pool.large = w.pool.large ∧
      (ngx_palloc_block P w size).2.pool.cleanup = w.pool.cleanup ∧
      (ngx_palloc_block P w size).2.pool.max = w.pool.max := by
  unfold ngx_palloc_block
  cases w.pool.blocks with
  | nil => exact ⟨rfl, rfl, rfl⟩
  | cons hd tl =>
    simp only [ngx_memalign]
    split <;> exact ⟨rfl, rfl, rfl⟩

theorem ngx_palloc_small_frame (P : Platform) (w : World) (size align : Nat) :
    (ngx_palloc_small P w size align).2.pool.large = w.pool.large ∧
      (ngx_palloc_small P w size align).2.pool.cleanup = w.pool.cleanup ∧
      (ngx_palloc_small P w size align).2.pool.max = w.pool.max := by
  unfold ngx_palloc_small
  split
  · exact ⟨rfl, rfl, rfl⟩
  · exact ngx_palloc_block_frame P w size

theorem reuse_slot_none (p : Nat) (ls : List LargeRec) (n : Nat) (hn4 : n ≤ 4)
    (h : reuse_slot p ls n = none) : ∀ x ∈ ls.take (5 - n), x.alloc ≠ 0 := by
  induction ls generalizing n with
  | nil => simp
  | cons x rest ih =>
    unfold reuse_slot at h
    by_cases hx : x.alloc = 0
    · rw [if_pos hx] at h; cases h
    · rw [if_neg hx] at h
      have h5 : 5 - n = (4 - n) + 1 := by omega
      rw [h5, List.take_succ_cons]
      intro y hy
      rcases List.mem_cons.mp hy with rfl | hy
      · exact hx
      · by_cases hn : n > 3
        · have h0 : 4 - n = 0 := by omega
          rw [h0] at hy
          simp at hy
        · rw [if_neg hn] at h
          cases hr : reuse_slot p rest (n + 1) with
          | some r => rw [hr] at h; cases h
          | none =>
            have := ih (n + 1) (by omega) hr
            have h4 : 5 - (n + 1) = 4 - n := by omega
            rw [h4] at this
            exact this y hy

/-- A successful `ngx_palloc_large` returns the provider's answer and stores it
either in the first empty record among the leading records or in a new record
at the head of the registry. -/
theorem ngx_palloc_large_ne_zero (P : Platform) (w : World) (size : Nat)
    (h : (ngx_palloc_large P w size).1 ≠ 0) :
    (ngx_palloc_large P w size).1 = w.prov.headD 0 ∧
    ((∃ pre l post, w.pool.large = pre ++ l :: post ∧ (∀ x ∈ pre, x.alloc ≠ 0) ∧
        l.alloc = 0 ∧ pre.length ≤ 4 ∧
        (ngx_palloc_large P w size).2.pool.large
          = pre ++ { l with alloc := (ngx_palloc_large P w size).1 } :: post)
      ∨ ((∀ x ∈ w.pool.large.take 5, x.alloc ≠ 0) ∧ ∃ addr,
        (ngx_palloc_large P w size).2.pool.large
          = { addr := addr, alloc := (ngx_palloc_large P w size).1 } :: w.pool.large)) := by
  unfold ngx_palloc_large at h ⊢
  simp only [ngx_alloc, provider_next_eq] at h ⊢
  by_cases hp : w.prov.headD 0 = 0
  · rw [if_pos hp] at h; exact (h rfl).elim
  · simp only [hp, if_false] at h ⊢
    cases hr : reuse_slot (w.prov.headD 0) w.pool.large 0 with
    | some ls =>
      simp only [hr] at h ⊢
      obtain ⟨pre, l, post, h1, h2, h3, h4, h5⟩ :=
        reuse_slot_some _ _ 0 ls (by omega) hr
      exact ⟨trivial, Or.inl ⟨pre, l, post, h1, h2, h3, by simpa using h4, h5⟩⟩
    | none =>
      simp only [hr] at h ⊢
      split
      · rename_i hz
        rw [if_pos hz] at h
        exact (h rfl).elim
      · refine ⟨rfl, Or.inr ⟨?_, (ngx_palloc_small P
          ⟨w.pool, w.prov.tail, w.trace ++ [Event.alloc size (w.prov.headD 0)]⟩
          P.sizeof_pool_large_t 1).1, ?_⟩⟩
        · exact reuse_slot_none _ _ 0 (by omega) hr
        · simp only [List.cons.injEq, true_and]
          exact (ngx_palloc_small_frame P ⟨w.pool, w.prov.tail, _⟩ _ _).1

theorem ngx_pfree_of_some (w : World) (p : Nat) (ls : List LargeRec)
    (h : free_slot p w.pool.large = some ls) :
    ngx_pfree w p = (NGX_OK, { ngx_free p w with pool := { w.pool with large := ls } }) := by
  simp [ngx_pfree, h]

theorem ngx_pfree_of_none (w : World) (p : Nat) (h : free_slot p w.pool.large = none) :
    ngx_pfree w p = (NGX_DECLINED, w) := by
  simp [ngx_pfree, h]

/-- Releasing the only record that holds `p`: found once, then not found. -/
theorem ngx_pfree_twice (w : World) (p : Nat) (pre : List LargeRec) (l : LargeRec)
    (post : List LargeRec) (hp : p ≠ 0) (hl : w.pool.large = pre ++ l :: post)
    (hlp : l.alloc = p) (hpre : ∀ x ∈ pre, x.alloc ≠ p) (hpost : ∀ x ∈ post, x.alloc ≠ p) :
    (ngx_pfree w p).1 = NGX_OK ∧ (ngx_pfree (ngx_pfree w p).2 p).1 = NGX_DECLINED := by
  have h1 : free_slot p w.pool.large = some (pre ++ { l with alloc := 0 } :: post) := by
    rw [hl]; exact free_slot_at p pre l post hpre hlp
  rw [ngx_pfree_of_some w p _ h1]
  refine ⟨rfl, ?_⟩
  rw [ngx_pfree_of_none]
  simp only [ngx_free]
  rw [free_slot_none]
  intro x hx
  rcases List.mem_append.mp hx with hx | hx
  · exact hpre x hx
  · rcases List.mem_cons.mp hx with rfl | hx
    · exact fun e => hp e.symm
    · exact hpost x hx

/-! ## C4 -/

/-- C4: for `size > max`, a successful `ngx_palloc` whose result is a fresh
address (no record of the registry already holds it) returns the payload of a
record of `pool.large`; the next `ngx_pfree` of it returns `NGX_OK` and a second
one `NGX_DECLINED`. -/
theorem large_palloc_pfree_once (P : Platform) (w : World) (size : Nat)
    (hsz : w.pool.max < size) (hne : (ngx_palloc P w size).1 ≠ 0)
    (hfresh : ∀ l ∈ w.pool.large, l.alloc ≠ (ngx_palloc P w size).1) :
    (∃ l ∈ (ngx_palloc P w size).2.pool.large, l.alloc = (ngx_palloc P w size).1) ∧
    (ngx_pfree (ngx_palloc P w size).2 (ngx_palloc P w size).1).1 = NGX_OK ∧
    (ngx_pfree (ngx_pfree (ngx_palloc P w size).2 (ngx_palloc P w size).1).2
      (ngx_palloc P w size).1).1 = NGX_DECLINED := by
  have hlarge : ngx_palloc P w size = ngx_palloc_large P w size := by
    unfold ngx_palloc; rw [if_neg (by omega)]
  rw [hlarge] at hne hfresh ⊢
  obtain ⟨_, hcase⟩ := ngx_palloc_large_ne_zero P w size hne
  rcases hcase with ⟨pre, l, post, h1, _, _, _, h5⟩ | ⟨_, addr, h5⟩
  · have hpre : ∀ x ∈ pre, x.alloc ≠ (ngx_palloc_large P w size).1 :=
      fun x hx => hfresh x (by rw [h1]; exact List.mem_append_left _ hx)
    have hpost : ∀ x ∈ post, x.alloc ≠ (ngx_palloc_large P w size).1 :=
      fun x hx => hfresh x (by rw [h1]; exact List.mem_append_right _ (List.mem_cons_of_mem _ hx))
    exact ⟨⟨{ l with alloc := (ngx_palloc_large P w size).1 }, by rw [h5]; simp, rfl⟩,
      ngx_pfree_twice _ _ pre _ post hne h5 rfl hpre hpost⟩
  · exact ⟨⟨{ addr := addr, alloc := (ngx_palloc_large P w size).1 }, by rw [h5]; simp, rfl⟩,
      ngx_pfree_twice _ _ [] _ w.pool.large hne h5 rfl (by simp) hfresh⟩

/-- Witness of `large_palloc_pfree_once`: 5000 bytes from a pool with `max = 4016`. -/
theorem large_palloc_pfree_once_witness :
    (ngx_palloc lp64 ex_large 5000).1 = 131072 ∧
    ((∃ l ∈ (ngx_palloc lp64 ex_large 5000).2.pool.large,
        l.alloc = (ngx_palloc lp64 ex_large 5000).1) ∧
    (ngx_pfree (ngx_palloc lp64 ex_large 5000).2 (ngx_palloc lp64 ex_large 5000).1).1 = NGX_OK ∧
    (ngx_pfree (ngx_pfree (ngx_palloc lp64 ex_large 5000).2
      (ngx_palloc lp64 ex_large 5000).1).2 (ngx_palloc lp64 ex_large 5000).1).1
      = NGX_DECLINED) :=
  ⟨by decide, large_palloc_pfree_once lp64 ex_large 5000 (by decide) (by decide) (by decide)⟩

/-! ## C5 -/

/-- C5, counterexample: on a fresh 4096-byte pool, after a large allocation at
131072 is released, its record stays in the registry with an empty payload; `ngx_pfree(pool, NULL)`
then matches that record and returns `NGX_OK` although the null pointer is
not the payload of a record holding a live payload. -/
theorem c5_pfree_null_found :
    ngx_create_pool lp64 4096 [65536, 131072, 196608, 262144] = some ex_fresh
    ∧ (run lp64 ex_fresh [Op.palloc 5000, Op.pfree 131072]).pool.large
        = [{ addr := 65616, alloc := 0 }]
    ∧ (ngx_pfree (run lp64 ex_fresh [Op.palloc 5000, Op.pfree 131072]) 0).1 = NGX_OK
    ∧ ¬ ((ngx_pfree (run lp64 ex_fresh [Op.palloc 5000, Op.pfree 131072]) 0).1 = NGX_OK ↔
        ∃ l ∈ (run lp64 ex_fresh [Op.palloc 5000, Op.pfree 131072]).pool.large,
          l.alloc = 0 ∧ l.alloc ≠ 0) := by
  decide

/-- C5, amended: `ngx_pfree(pool, p)` returns `NGX_OK` exactly when the `alloc`
field of some large record equals `p` (for a non-null `p`, a record holding `p`
as its live payload; for the null pointer, a record whose payload is empty).
In that case `ngx_free(p)` is called once, the first such record is the one
set to empty and the registry keeps its records in order (for the null pointer
the pool is unchanged); otherwise it returns `NGX_DECLINED` and the world is
unchanged. -/
theorem pfree_first_match (w : World) (p : Nat) :
    ((ngx_pfree w p).1 = NGX_OK ↔ ∃ l ∈ w.pool.large, l.alloc = p)
    ∧ ((∃ l ∈ w.pool.large, l.alloc = p) →
        ∃ pre l post, w.pool.large = pre ++ l :: post ∧ (∀ x ∈ pre, x.alloc ≠ p) ∧
          l.alloc = p ∧
          ngx_pfree w p = (NGX_OK,
            { pool := { w.pool with large := pre ++ { l with alloc := 0 } :: post },
              prov := w.prov, trace := w.trace ++ [Event.free p] }))
    ∧ ((¬ ∃ l ∈ w.pool.large, l.alloc = p) → ngx_pfree w p = (NGX_DECLINED, w))
    ∧ (p = 0 → (ngx_pfree w p).2.pool = w.pool) := by
  have hfound : (∃ l ∈ w.pool.large, l.alloc = p) →
      ∃ pre l post, w.pool.large = pre ++ l :: post ∧ (∀ x ∈ pre, x.alloc ≠ p) ∧
        l.alloc = p ∧
        ngx_pfree w p = (NGX_OK,
          { pool := { w.pool with large := pre ++ { l with alloc := 0 } :: post },
            prov := w.prov, trace := w.trace ++ [Event.free p] }) := by
    intro hex
    obtain ⟨pre, l, post, h1, h2, h3⟩ := exists_first p w.pool.large hex
    refine ⟨pre, l, post, h1, h2, h3, ?_⟩
    rw [ngx_pfree_of_some w p (pre ++ { l with alloc := 0 } :: post)
      (by rw [h1]; exact free_slot_at p pre l post h2 h3)]
    rfl
  have hnot : (¬ ∃ l ∈ w.pool.large, l.alloc = p) → ngx_pfree w p = (NGX_DECLINED, w) := by
    intro hno
    apply ngx_pfree_of_none
    rw [free_slot_none]
    intro l hl hlp
    exact hno ⟨l, hl, hlp⟩
  refine ⟨?_, hfound, hnot, ?_⟩
  · constructor
    · intro hok
      by_contra hno
      rw [hnot hno] at hok
      have hd : NGX_DECLINED ≠ NGX_OK := by decide
      exact hd hok
    · intro hex
      obtain ⟨_, _, _, _, _, _, heq⟩ := hfound hex
      rw [heq]
  · intro hp
    by_cases hex : ∃ l ∈ w.pool.large, l.alloc = p
    · obtain ⟨pre, l, post, h1, _, h3, heq⟩ := hfound hex
      rw [heq]
      have hl : ({ l with alloc := 0 } : LargeRec) = l := by
        cases l; simp only at h3 ⊢; rw [h3, hp]
      simp only [hl, ← h1]
    · rw [hnot hex]

/-! ## The cleanup registry -/

theorem ngx_palloc_large_frame (P : Platform) (w : World) (size : Nat) :
    (ngx_palloc_large P w size).2.pool.cleanup = w.pool.cleanup ∧
      (ngx_palloc_large P w size).2.pool.max = w.pool.max := by
  unfold ngx_palloc_large
  simp only
  split
  · exact ⟨rfl, rfl⟩
  · split
    · exact ⟨rfl, rfl⟩
    · have h := ngx_palloc_small_frame P (ngx_alloc size w).2 P.sizeof_pool_large_t 1
      split
      · exact ⟨h.2.1, h.2.2⟩
      · exact ⟨h.2.1, h.2.2⟩

theorem ngx_palloc_frame (P : Platform) (w : World) (size : Nat) :
    (ngx_palloc P w size).2.pool.cleanup = w.pool.cleanup ∧
      (ngx_palloc P w size).2.pool.max = w.pool.max := by
  unfold ngx_palloc
  split
  · exact (ngx_palloc_small_frame P w size 1).2
  · exact ngx_palloc_large_frame P w size

/-! ## The releases of `ngx_destroy_pool` -/

theorem free_large_frees (ls : List LargeRec) : ∀ e ∈ free_large ls, ∃ a, e = Event.free a := by
  induction ls with
  | nil => simp [free_large]
  | cons l rest ih =>
    unfold free_large
    split
    · intro e he
      rcases List.mem_cons.mp he with rfl | he
      · exact ⟨_, rfl⟩
      · exact ih e he
    · exact ih

theorem free_blocks_frees (bs : List Block) : ∀ e ∈ free_blocks bs, ∃ a, e = Event.free a := by
  induction bs with
  | nil => simp [free_blocks]
  | cons b rest ih =>
    unfold free_blocks
    intro e he
    rcases List.mem_cons.mp he with rfl | he
    · exact ⟨_, rfl⟩
    · exact ih e he

/-! ## C6 -/

/-- C6, the code at the failing input.  On a fresh 4096-byte pool a cleanup is
registered with an 8-byte payload and handler 11, the pool is reset, and a
second cleanup is registered the same way with handler 12.  Both calls of
`ngx_pool_cleanup_add` return 65616: the reset has rewound the cursor and left
`pool->cleanup` pointing at the first record, so the second record is written
over it and `c->next = p->cleanup` makes it its own successor.  The handler loop
of `ngx_destroy_pool` then calls handler 12 at every record it passes and has
not ended after any number of them; handler 11 is never called.  Without the
reset the second record lies at 65648 and the loop ends after calling 12, then
11. -/
theorem c6_relinked_handler_loop :
    (ngx_pool_cleanup_add_linked lp64 ex_fresh { head := 0, cells := [] } 8).1 = 65616
    ∧ write_handler (ngx_pool_cleanup_add_linked lp64 ex_fresh { head := 0, cells := [] } 8).2.2
        65616 11 = ex_chain_one
    ∧ (ngx_pool_cleanup_add_linked lp64
        (ngx_reset_pool lp64
          (ngx_pool_cleanup_add_linked lp64 ex_fresh { head := 0, cells := [] } 8).2.1)
        ex_chain_one 8).1 = 65616
    ∧ write_handler (ngx_pool_cleanup_add_linked lp64
        (ngx_reset_pool lp64
          (ngx_pool_cleanup_add_linked lp64 ex_fresh { head := 0, cells := [] } 8).2.1)
        ex_chain_one 8).2.2 65616 12 = ex_chain_relinked
    ∧ lookup_cell ex_chain_relinked.cells ex_chain_relinked.head
        = some { handler := 12, data := 65640, next := 65616 }
    ∧ (∀ n, cleanup_loop ex_chain_relinked.cells n ex_chain_relinked.head
        = (List.replicate n (Event.handler 12 65640), false))
    ∧ (ngx_pool_cleanup_add_linked lp64
        (ngx_pool_cleanup_add_linked lp64 ex_fresh { head := 0, cells := [] } 8).2.1
        ex_chain_one 8).1 = 65648
    ∧ cleanup_loop
        (write_handler (ngx_pool_cleanup_add_linked lp64
          (ngx_pool_cleanup_add_linked lp64 ex_fresh { head := 0, cells := [] } 8).2.1
          ex_chain_one 8).2.2 65648 12).cells 3 65648
        = ([Event.handler 12 65672, Event.handler 11 65640], true) := by
  refine ⟨by decide, by decide, by decide, by decide, by decide, ?_, by decide, by decide⟩
  intro n
  induction n with
  | zero => rfl
  | succ k ih =>
    show cleanup_loop ex_chain_relinked.cells (k + 1) 65616 = _
    unfold cleanup_loop
    have hl : lookup_cell ex_chain_relinked.cells 65616
        = some { handler := 12, data := 65640, next := 65616 } := by decide
    have ih' : cleanup_loop ex_chain_relinked.cells k 65616
        = (List.replicate k (Event.handler 12 65640), false) := ih
    rw [if_neg (by decide), hl]
    simp only
    rw [ih', if_pos (by decide)]
    rfl

/-! ## C7 -/

theorem rewind_eq_map (P : Platform) (bs : List Block) :
    rewind P bs = bs.map (fun b => { b with last := b.base + P.sizeof_pool_t, failed := 0 }) := by
  induction bs with
  | nil => rfl
  | cons b rest ih => simp only [rewind, List.map_cons, ih]

theorem free_large_eq (ls : List LargeRec) :
    free_large ls = (ls.filter (fun l => l.alloc ≠ 0)).map (fun l => Event.free l.alloc) := by
  induction ls with
  | nil => rfl
  | cons l rest ih =>
    by_cases h : l.alloc = 0
    · simp [free_large, h, ih]
    · simp [free_large, h, ih]

/-- C7: `ngx_reset_pool` consumes no answer of the provider and appends to the
trace exactly one `ngx_free` per record holding a live payload, in registry
order (no request, no release of a block); afterwards the chain has the same
blocks in the same order, each with its cursor at `base + sizeof(ngx_pool_t)`
and `failed = 0`, `end` and `max` are unchanged, `current` is the first block
and the large registry is empty. -/
theorem reset_pool_effect (P : Platform) (w : World) :
    (ngx_reset_pool P w).prov = w.prov
    ∧ (ngx_reset_pool P w).trace = w.trace
        ++ (w.pool.large.filter (fun l => l.alloc ≠ 0)).map (fun l => Event.free l.alloc)
    ∧ (ngx_reset_pool P w).pool.blocks
        = w.pool.blocks.map (fun b => { b with last := b.base + P.sizeof_pool_t, failed := 0 })
    ∧ (ngx_reset_pool P w).pool.max = w.pool.max
    ∧ (ngx_reset_pool P w).pool.current = 0
    ∧ (ngx_reset_pool P w).pool.large = [] := by
  refine ⟨rfl, ?_, rewind_eq_map P _, rfl, rfl, rfl⟩
  simp only [ngx_reset_pool, free_large_eq]

/-! ## C8 -/

/-- C8, the code at the failing input: on a fresh 4096-byte pool with two
registered cleanups (handlers 11 and 12) `ngx_reset_pool` leaves both records
on the registry, which is therefore not empty, and the `ngx_destroy_pool` that
follows calls both handlers, registered before the reset. -/
theorem c8_reset_keeps_registry :
    ngx_create_pool lp64 4096 [65536, 131072, 196608, 262144] = some ex_fresh
    ∧ register_all lp64 ex_fresh [⟨8, 11, 0⟩, ⟨0, 12, 0⟩] = some ex_two_cleanups
    ∧ (ngx_reset_pool lp64 ex_two_cleanups).pool.cleanup
      = [{ addr := 65648, handler := 12, data := 0, fd := 0 },
          { addr := 65616, handler := 11, data := 65640, fd := 0 }]
    ∧ (ngx_reset_pool lp64 ex_two_cleanups).pool.cleanup ≠ []
    ∧ (ngx_destroy_pool (ngx_reset_pool lp64 ex_two_cleanups)).2
      = [Event.memalign 16 4096 65536, Event.handler 12 0, Event.handler 11 65640,
          Event.free 65536] := by
  decide

/-! ## The chain only grows at its tail -/

theorem walk_failed_geom (bs : List Block) (i cur : Nat) :
    (walk_failed bs i cur).1.map Block.geom = bs.map Block.geom := by
  induction bs generalizing i cur with
  | nil => simp [walk_failed]
  | cons b rest ih =>
    cases rest with
    | nil => simp [walk_failed]
    | cons b' rest' =>
      simp only [walk_failed, List.map_cons]
      rw [ih (i + 1) _]
      simp [Block.geom]

theorem scan_blocks_geom (P : Platform) (size align : Nat) (bs : List Block) (m : Nat)
    (bs' : List Block) (h : scan_blocks P size align bs = some (m, bs')) :
    bs'.map Block.geom = bs.map Block.geom := by
  obtain ⟨pre, b, post, rfl, _, _, _, rfl⟩ := scan_blocks_some P size align bs m bs' h
  simp [Block.geom]

theorem Extends.refl (w : World) : Extends w w := ⟨⟨[], by simp⟩, rfl⟩

theorem Extends.trans {w1 w2 w3 : World} (h12 : Extends w1 w2) (h23 : Extends w2 w3) :
    Extends w1 w3 := by
  obtain ⟨⟨e1, h1⟩, m1⟩ := h12
  obtain ⟨⟨e2, h2⟩, m2⟩ := h23
  exact ⟨⟨e1 ++ e2, by rw [h2, h1, List.append_assoc]⟩, by rw [m2, m1]⟩

theorem Extends.of_eq {w w' : World} (hb : w'.pool.blocks = w.pool.blocks)
    (hm : w'.pool.max = w.pool.max) : Extends w w' :=
  ⟨⟨[], by rw [hb]; simp⟩, hm⟩

theorem ngx_palloc_block_extends (P : Platform) (w : World) (size : Nat) :
    Extends w (ngx_palloc_block P w size).2 := by
  unfold ngx_palloc_block
  cases hb : w.pool.blocks with
  | nil => exact Extends.of_eq rfl rfl
  | cons hd tl =>
    simp only [ngx_memalign]
    split
    · exact Extends.of_eq rfl rfl
    · constructor
      · simp only [List.map_append, walk_failed_geom]
        rw [← List.map_append, List.take_append_drop]
        exact ⟨_, rfl⟩
      · rfl

theorem ngx_palloc_small_extends (P : Platform) (w : World) (size align : Nat) :
    Extends w (ngx_palloc_small P w size align).2 := by
  unfold ngx_palloc_small
  cases hs : scan_blocks P size align (w.pool.blocks.drop w.pool.current) with
  | none => exact ngx_palloc_block_extends P w size
  | some r =>
    obtain ⟨m, bs⟩ := r
    refine ⟨⟨[], ?_⟩, rfl⟩
    simp only [List.map_append, scan_blocks_geom P size align _ m bs hs, List.append_nil]
    rw [← List.map_append, List.take_append_drop]

theorem ngx_palloc_large_extends (P : Platform) (w : World) (size : Nat) :
    Extends w (ngx_palloc_large P w size).2 := by
  have h0 : Extends w (ngx_alloc size w).2 := Extends.of_eq rfl rfl
  have h1 := ngx_palloc_small_extends P (ngx_alloc size w).2 P.sizeof_pool_large_t 1
  unfold ngx_palloc_large
  simp only
  split
  · exact h0
  · split
    · exact Extends.of_eq rfl rfl
    · split
      · exact h0.trans (h1.trans (Extends.of_eq rfl rfl))
      · exact h0.trans (h1.trans (Extends.of_eq rfl rfl))

theorem ngx_pmemalign_extends (P : Platform) (w : World) (size alignment : Nat) :
    Extends w (ngx_pmemalign P w size alignment).2 := by
  have h0 : Extends w (ngx_memalign alignment size w).2 := Extends.of_eq rfl rfl
  have h1 := ngx_palloc_small_extends P (ngx_memalign alignment size w).2
    P.sizeof_pool_large_t 1
  unfold ngx_pmemalign
  simp only
  split
  · exact h0
  · split
    · exact h0.trans (h1.trans (Extends.of_eq rfl rfl))
    · exact h0.trans (h1.trans (Extends.of_eq rfl rfl))

theorem ngx_palloc_extends (P : Platform) (w : World) (size : Nat) :
    Extends w (ngx_palloc P w size).2 := by
  unfold ngx_palloc
  split
  · exact ngx_palloc_small_extends P w size 1
  · exact ngx_palloc_large_extends P w size

theorem ngx_pnalloc_extends (P : Platform) (w : World) (size : Nat) :
    Extends w (ngx_pnalloc P w size).2 := by
  unfold ngx_pnalloc
  split
  · exact ngx_palloc_small_extends P w size 0
  · exact ngx_palloc_large_extends P w size

theorem ngx_pfree_extends (w : World) (p : Nat) : Extends w (ngx_pfree w p).2 := by
  unfold ngx_pfree
  split
  · exact Extends.of_eq rfl rfl
  · exact Extends.refl w

theorem ngx_pool_cleanup_add_extends (P : Platform) (w : World) (size : Nat) :
    Extends w (ngx_pool_cleanup_add P w size).2 := by
  have h1 := ngx_palloc_extends P w P.sizeof_pool_cleanup_t
  have h2 := ngx_palloc_extends P (ngx_palloc P w P.sizeof_pool_cleanup_t).2 size
  unfold ngx_pool_cleanup_add
  simp only
  split
  · exact h1
  · split
    · split
      · exact h1.trans h2
      · exact h1.trans (h2.trans (Extends.of_eq rfl rfl))
    · exact h1.trans (Extends.of_eq rfl rfl)

theorem ngx_reset_pool_extends (P : Platform) (w : World) :
    Extends w (ngx_reset_pool P w) := by
  refine ⟨⟨[], ?_⟩, rfl⟩
  simp only [ngx_reset_pool, rewind_eq_map, List.map_map, List.append_nil]
  rfl

theorem step_extends (P : Platform) (w : World) (op : Op) : Extends w (step P w op) := by
  cases op with
  | palloc size => exact ngx_palloc_extends P w size
  | pnalloc size => exact ngx_pnalloc_extends P w size
  | pcalloc size => exact ngx_palloc_extends P w size
  | pmemalign size alignment => exact ngx_pmemalign_extends P w size alignment
  | pfree p => exact ngx_pfree_extends w p
  | cleanup_add size => exact ngx_pool_cleanup_add_extends P w size
  | set_cleanup c h fd => exact Extends.of_eq rfl rfl
  | run_cleanup_file fd => exact Extends.of_eq rfl rfl
  | reset => exact ngx_reset_pool_extends P w

theorem run_extends (P : Platform) (ops : List Op) (w : World) : Extends w (run P w ops) := by
  induction ops generalizing w with
  | nil => exact Extends.refl w
  | cons op rest ih => exact (step_extends P w op).trans (ih (step P w op))

/-- What extends a chain starting with `hd` starts with a block at the same
address with the same end. -/
theorem Extends.head {w w' : World} (h : Extends w w') (hd : Block) (tl : List Block)
    (hb : w.pool.blocks = hd :: tl) :
    ∃ hd' tl', w'.pool.blocks = hd' :: tl' ∧ hd'.base = hd.base ∧ hd'.end_ = hd.end_ := by
  obtain ⟨⟨extra, he⟩, _⟩ := h
  rw [hb] at he
  cases hb' : w'.pool.blocks with
  | nil => rw [hb'] at he; simp at he
  | cons hd' tl' =>
    rw [hb'] at he
    simp only [List.map_cons, List.cons_append, List.cons.injEq, Block.geom, Prod.mk.injEq] at he
    exact ⟨hd', tl', rfl, he.1.1, he.1.2⟩

/-! ## C9 -/

/-- The small path when the provider does not refuse the next request, on a
pool whose first block spans `S` bytes and whose cursors are addresses inside
the address space: the call succeeds, and when no block from `current` on has
room it appends one block of `S` bytes that contains the region returned. -/
theorem ngx_palloc_small_grows {P : Platform} {S : Nat} (hP : P.WF) (w : World)
    (size align : Nat) (hd : Block) (tl : List Block) (hbl : w.pool.blocks = hd :: tl)
    (hend : hd.end_ = hd.base + S)
    (htyp : ∀ b ∈ w.pool.blocks, 0 < b.last ∧ b.last + P.NGX_ALIGNMENT ≤ P.word)
    (hprov : ∀ a ∈ w.prov, ProvOK P S a)
    (hsz : size + P.sizeof_pool_data_t ≤ S) (hnf : w.prov.headD 0 ≠ 0) :
    (ngx_palloc_small P w size align).1 ≠ 0 ∧
    ((∀ b ∈ w.pool.blocks.drop w.pool.current, ¬ fits P size align b) →
      ∃ old nb, (ngx_palloc_small P w size align).2.pool.blocks = old ++ [nb] ∧
        old.map Block.geom = w.pool.blocks.map Block.geom ∧
        nb.end_ = nb.base + S ∧ nb.base ≤ (ngx_palloc_small P w size align).1 ∧
        (ngx_palloc_small P w size align).1 + size ≤ nb.end_) := by
  rcases ngx_palloc_small_cases P w size align with ⟨pre, b, post, h1, _, hfit, heq⟩ | ⟨_, heq⟩
  · have hb : b ∈ w.pool.blocks.drop w.pool.current := by rw [h1]; simp
    obtain ⟨hpos, hroom⟩ := htyp b (List.mem_of_mem_drop hb)
    rw [heq]
    constructor
    · have h1 := candidate_ge hP b align hroom
      simp only; omega
    · intro hno
      exact (hno b hb hfit).elim
  · rw [heq]
    cases hpv : w.prov with
    | nil => rw [hpv] at hnf; exact (hnf rfl).elim
    | cons a rest =>
      rw [hpv] at hnf
      simp only [List.headD_cons] at hnf
      obtain ⟨hal, hlt⟩ := hprov a (by rw [hpv]; simp)
      have hpos := hP.align_pos
      have hps : size_sub P hd.end_ hd.base = S := by
        have := size_sub_add_left P hd.base S 0
        rw [Nat.add_zero] at this
        rw [hend, this, size_sub_of_le P S 0 (Nat.zero_le _) (by omega)]
        rfl
      have hal' : P.NGX_ALIGNMENT ∣ a + P.sizeof_pool_data_t :=
        Nat.dvd_add (Nat.dvd_trans hP.pool_align hal) hP.data_align
      have hfix := ngx_align_ptr_fix hP (a + P.sizeof_pool_data_t) (by omega) hal'
      rw [ngx_palloc_block_grow P w size hd tl a rest hbl hpv hnf, hfix, hps]
      refine ⟨by simp only; omega, fun _ => ⟨_, _, rfl, ?_, rfl, by simp only; omega,
        by simp only; omega⟩⟩
      rw [List.map_append, walk_failed_geom, ← List.map_append, List.take_append_drop]

/-- C10, counterexample: in the 100-byte pool at 4096, after `ngx_pnalloc(17)` the
only block has cursor 4193 and `end = 4196`, so it has no room for one byte at
the aligned address 4200; with the provider ready to answer 8192,
`ngx_palloc(1)` appends no block and returns 4200: the region `[4200, 4201)`
lies in no block of the pool. -/
theorem c10_no_room_no_growth :
    ngx_create_pool lp64 100 [4096, 8192] = some ex_small
    ∧ (ngx_pnalloc lp64 ex_small 17).2.pool.blocks
      = [{ base := 4096, last := 4193, end_ := 4196, failed := 0 }]
    ∧ 1 ≤ (ngx_pnalloc lp64 ex_small 17).2.pool.max
    ∧ (ngx_pnalloc lp64 ex_small 17).2.prov = [8192]
    ∧ (∀ b ∈ (ngx_pnalloc lp64 ex_small 17).2.pool.blocks.drop
          (ngx_pnalloc lp64 ex_small 17).2.pool.current,
        ¬ (candidate lp64 1 b + 1 ≤ b.end_))
    ∧ (ngx_palloc lp64 (ngx_pnalloc lp64 ex_small 17).2 1).1 = 4200
    ∧ (ngx_palloc lp64 (ngx_pnalloc lp64 ex_small 17).2 1).2.pool.blocks
      = [{ base := 4096, last := 4201, end_ := 4196, failed := 0 }]
    ∧ ¬ (4200 + 1 ≤ 4196) := by
  decide

/-- C10, amended: let a pool be created with a total size `S` that holds the
pool header and is a multiple of `NGX_ALIGNMENT`, from a provider honouring
its contract, and let `w` be the world after any sequence of calls.  If the
provider does not refuse the next request, `ngx_palloc` and `ngx_pnalloc` with
`size <= max` succeed; and when no block from `current` on has room for `size`
bytes at its candidate address, the call appends exactly one block after the
existing ones, of total size `S`, and the region `[m, m+size)` returned lies
inside that block. -/
theorem small_alloc_grows_chain (P : Platform) (hP : P.WF) (S size : Nat) (prov : List Nat)
    (w0 w : World) (ops : List Op) (hS : P.sizeof_pool_t ≤ S) (hal : P.NGX_ALIGNMENT ∣ S)
    (hprov : ∀ a ∈ prov, ProvOK P S a) (hc : ngx_create_pool P S prov = some w0)
    (hw : run P w0 ops = w) (hsz : size ≤ w.pool.max) (hnf : w.prov.headD 0 ≠ 0) :
    ((ngx_palloc P w size).1 ≠ 0 ∧
      ((∀ b ∈ w.pool.blocks.drop w.pool.current, ¬ (candidate P 1 b + size ≤ b.end_)) →
        ∃ old nb, (ngx_palloc P w size).2.pool.blocks = old ++ [nb] ∧
          old.map Block.geom = w.pool.blocks.map Block.geom ∧
          nb.end_ = nb.base + S ∧ nb.base ≤ (ngx_palloc P w size).1 ∧
          (ngx_palloc P w size).1 + size ≤ nb.end_))
    ∧ ((ngx_pnalloc P w size).1 ≠ 0 ∧
      ((∀ b ∈ w.pool.blocks.drop w.pool.current, ¬ (candidate P 0 b + size ≤ b.end_)) →
        ∃ old nb, (ngx_pnalloc P w size).2.pool.blocks = old ++ [nb] ∧
          old.map Block.geom = w.pool.blocks.map Block.geom ∧
          nb.end_ = nb.base + S ∧ nb.base ≤ (ngx_pnalloc P w size).1 ∧
          (ngx_pnalloc P w size).1 + size ≤ nb.end_)) := by
  have hinv : Inv P S w := by
    rw [← hw]; exact run_inv hP ops w0 (ngx_create_pool_inv hP prov w0 hS hal hprov hc)
  obtain ⟨b0, rest, _, _, hw0⟩ := ngx_create_pool_some P S _ w0 hc
  have hext := run_extends P ops w0
  rw [hw] at hext
  obtain ⟨hd, tl, hb, _, _⟩ := hext.head _ [] (by rw [hw0])
  have hend := (hinv.blocks_ok hd (by rw [hb]; simp)).end_eq
  obtain ⟨htyp, hroom⟩ := hinv.cursors_ok hP
  have hsz' := hinv.small_size hP size hsz
  have h1 := ngx_palloc_small_grows hP w size 1 hd tl hb hend htyp hinv.prov_ok hsz' hnf
  have h0 := ngx_palloc_small_grows hP w size 0 hd tl hb hend htyp hinv.prov_ok hsz' hnf
  unfold ngx_palloc ngx_pnalloc
  rw [if_pos hsz, if_pos hsz]
  refine ⟨⟨h1.1, fun hno => h1.2 ?_⟩, ⟨h0.1, fun hno => h0.2 ?_⟩⟩
  · intro b hb' hfit
    exact hno b hb' ((hroom b (List.mem_of_mem_drop hb') size 1).mp hfit)
  · intro b hb' hfit
    exact hno b hb' ((hroom b (List.mem_of_mem_drop hb') size 0).mp hfit)

set_option maxRecDepth 100000 in
/-- Witness of `small_alloc_grows_chain`: on the 4096-byte pool at 65536, 38
allocations of 100 bytes fill the first block; the 39th is served at 131104
from a second block `[131072, 135168)` of 4096 bytes. -/
theorem small_alloc_grows_chain_witness :
    (ngx_palloc lp64 (run lp64 ex_fresh (List.replicate 38 (Op.palloc 100))) 100).1 = 131104
    ∧ (ngx_palloc lp64 (run lp64 ex_fresh (List.replicate 38 (Op.palloc 100)))
        100).2.pool.blocks
      = [{ base := 65536, last := 69564, end_ := 69632, failed := 0 },
          { base := 131072, last := 131204, end_ := 135168, failed := 0 }]
    ∧ (∀ b ∈ (run lp64 ex_fresh (List.replicate 38 (Op.palloc 100))).pool.blocks.drop
          (run lp64 ex_fresh (List.replicate 38 (Op.palloc 100))).pool.current,
        ¬ (candidate lp64 1 b + 100 ≤ b.end_))
    ∧ (((ngx_palloc lp64 (run lp64 ex_fresh (List.replicate 38 (Op.palloc 100))) 100).1 ≠ 0 ∧
      ((∀ b ∈ (run lp64 ex_fresh (List.replicate 38 (Op.palloc 100))).pool.blocks.drop
            (run lp64 ex_fresh (List.replicate 38 (Op.palloc 100))).pool.current,
          ¬ (candidate lp64 1 b + 100 ≤ b.end_)) →
        ∃ old nb, (ngx_palloc lp64 (run lp64 ex_fresh (List.replicate 38 (Op.palloc 100)))
            100).2.pool.blocks = old ++ [nb] ∧
          old.map Block.geom
            = (run lp64 ex_fresh (List.replicate 38 (Op.palloc 100))).pool.blocks.map Block.geom ∧
          nb.end_ = nb.base + 4096 ∧
          nb.base ≤ (ngx_palloc lp64 (run lp64 ex_fresh (List.replicate 38 (Op.palloc 100)))
            100).1 ∧
          (ngx_palloc lp64 (run lp64 ex_fresh (List.replicate 38 (Op.palloc 100))) 100).1 + 100
            ≤ nb.end_))
    ∧ ((ngx_pnalloc lp64 (run lp64 ex_fresh (List.replicate 38 (Op.palloc 100))) 100).1 ≠ 0 ∧
      ((∀ b ∈ (run lp64 ex_fresh (List.replicate 38 (Op.palloc 100))).pool.blocks.drop
            (run lp64 ex_fresh (List.replicate 38 (Op.palloc 100))).pool.current,
          ¬ (candidate lp64 0 b + 100 ≤ b.end_)) →
        ∃ old nb, (ngx_pnalloc lp64 (run lp64 ex_fresh (List.replicate 38 (Op.palloc 100)))
            100).2.pool.blocks = old ++ [nb] ∧
          old.map Block.geom
            = (run lp64 ex_fresh (List.replicate 38 (Op.palloc 100))).pool.blocks.map Block.geom ∧
          nb.end_ = nb.base + 4096 ∧
          nb.base ≤ (ngx_pnalloc lp64 (run lp64 ex_fresh (List.replicate 38 (Op.palloc 100)))
            100).1 ∧
          (ngx_pnalloc lp64 (run lp64 ex_fresh (List.replicate 38 (Op.palloc 100))) 100).1 + 100
            ≤ nb.end_))) :=
  ⟨by decide, by decide, by decide,
    small_alloc_grows_chain lp64 lp64_wf 4096 100 [65536, 131072, 196608, 262144] ex_fresh
      (run lp64 ex_fresh (List.replicate 38 (Op.palloc 100))) (List.replicate 38 (Op.palloc 100))
      (by decide) (by decide) (by decide) (by decide) rfl (by decide) (by decide)⟩

/-! ## C11 -/

theorem reuse_slot_at (p : Nat) (pre : List LargeRec) (l : LargeRec) (post : List LargeRec)
    (n : Nat) (hpre : ∀ x ∈ pre, x.alloc ≠ 0) (hl : l.alloc = 0) (hn : pre.length + n ≤ 4) :
    reuse_slot p (pre ++ l :: post) n = some (pre ++ { l with alloc := p } :: post) := by
  induction pre generalizing n with
  | nil => simp [reuse_slot, hl]
  | cons x rest ih =>
    have hx : ¬ x.alloc = 0 := hpre x (by simp)
    have hn3 : ¬ n > 3 := by simp only [List.length_cons] at hn; omega
    have := ih (n + 1) (fun y hy => hpre y (List.mem_cons_of_mem _ hy))
      (by simp only [List.length_cons] at hn; omega)
    rw [List.cons_append, reuse_slot, if_neg hx, if_neg hn3, this]
    rfl

theorem ngx_palloc_large_reuse (P : Platform) (w : World) (size : Nat) (ls : List LargeRec)
    (hp : w.prov.headD 0 ≠ 0) (hr : reuse_slot (w.prov.headD 0) w.pool.large 0 = some ls) :
    (ngx_palloc_large P w size).1 = w.prov.headD 0 ∧
      (ngx_palloc_large P w size).2.pool.large = ls := by
  unfold ngx_palloc_large
  simp only [ngx_alloc, provider_next_eq, hp, if_false, hr]
  exact ⟨trivial, trivial⟩

/-- In a registry whose leading records are all live up to a record holding
`p`, the first record holding `p` is among them. -/
theorem first_holder (p : Nat) (pre : List LargeRec) (r : LargeRec) (post : List LargeRec)
    (hpre : ∀ x ∈ pre, x.alloc ≠ 0) (hr : r.alloc = p) :
    ∃ pre2 l2 post2, pre ++ r :: post = pre2 ++ l2 :: post2 ∧
      (∀ x ∈ pre2, x.alloc ≠ p) ∧ (∀ x ∈ pre2, x.alloc ≠ 0) ∧ l2.alloc = p ∧
      pre2.length ≤ pre.length := by
  induction pre with
  | nil => exact ⟨[], r, post, rfl, by simp, by simp, hr, Nat.le_refl _⟩
  | cons x rest ih =>
    by_cases hx : x.alloc = p
    · exact ⟨[], x, rest ++ r :: post, rfl, by simp, by simp, hx, Nat.zero_le _⟩
    · obtain ⟨pre2, l2, post2, h1, h2, h3, h4, h5⟩ :=
        ih (fun y hy => hpre y (List.mem_cons_of_mem _ hy))
      refine ⟨x :: pre2, l2, post2, by simp [h1], ?_, ?_, h4, by simp; omega⟩
      · intro y hy
        rcases List.mem_cons.mp hy with rfl | hy
        · exact hx
        · exact h2 y hy
      · intro y hy
        rcases List.mem_cons.mp hy with rfl | hy
        · exact hpre y (by simp)
        · exact h3 y hy

/-- C11: for `size > max`, after a successful `ngx_palloc` returning `p`,
`ngx_pfree(pool, p)` and a second successful `ngx_palloc` returning `q`, the
large registry has as many records as after the first allocation, and the
record that was released (the first one holding `p`) now holds `q`, the other
records being as they were. -/
theorem large_slot_reused (P : Platform) (w : World) (size : Nat)
    (hsz : w.pool.max < size) (h1 : (ngx_palloc P w size).1 ≠ 0)
    (h2 : (ngx_palloc P (ngx_pfree (ngx_palloc P w size).2 (ngx_palloc P w size).1).2 size).1
      ≠ 0) :
    (ngx_pfree (ngx_palloc P w size).2 (ngx_palloc P w size).1).1 = NGX_OK
    ∧ (ngx_palloc P (ngx_pfree (ngx_palloc P w size).2 (ngx_palloc P w size).1).2
        size).2.pool.large.length = (ngx_palloc P w size).2.pool.large.length
    ∧ ∃ pre l post, (ngx_palloc P w size).2.pool.large = pre ++ l :: post ∧
        (∀ x ∈ pre, x.alloc ≠ (ngx_palloc P w size).1) ∧ l.alloc = (ngx_palloc P w size).1 ∧
        (ngx_pfree (ngx_palloc P w size).2 (ngx_palloc P w size).1).2.pool.large
          = pre ++ { l with alloc := 0 } :: post ∧
        (ngx_palloc P (ngx_pfree (ngx_palloc P w size).2 (ngx_palloc P w size).1).2
          size).2.pool.large
          = pre ++ { l with alloc :=
              (ngx_palloc P (ngx_pfree (ngx_palloc P w size).2 (ngx_palloc P w size).1).2
                size).1 } :: post := by
  have hmax1 : (ngx_palloc P w size).2.pool.max = w.pool.max := (ngx_palloc_frame P w size).2
  have hl1 : ngx_palloc P w size = ngx_palloc_large P w size := by
    unfold ngx_palloc; rw [if_neg (by omega)]
  -- the record holding `p` after the first allocation
  have hdec : ∃ pre r post, (ngx_palloc P w size).2.pool.large = pre ++ r :: post ∧
      (∀ x ∈ pre, x.alloc ≠ 0) ∧ r.alloc = (ngx_palloc P w size).1 ∧ pre.length ≤ 4 := by
    rw [hl1] at h1 ⊢
    obtain ⟨_, hcase⟩ := ngx_palloc_large_ne_zero P w size h1
    rcases hcase with ⟨pre, l, post, _, hpre, _, hlen, h5⟩ | ⟨_, addr, h5⟩
    · exact ⟨pre, _, post, h5, hpre, rfl, hlen⟩
    · exact ⟨[], _, w.pool.large, h5, by simp, rfl, Nat.zero_le _⟩
  generalize hw1 : (ngx_palloc P w size).2 = w1 at *
  generalize hp : (ngx_palloc P w size).1 = p at *
  obtain ⟨pre, r, post, hlarge, hpre, hr, hlen⟩ := hdec
  obtain ⟨pre2, l2, post2, hsplit, hnp, hn0, hl2, hlen2⟩ := first_holder p pre r post hpre hr
  rw [hsplit] at hlarge
  have hfree : free_slot p w1.pool.large = some (pre2 ++ { l2 with alloc := 0 } :: post2) := by
    rw [hlarge]; exact free_slot_at p pre2 l2 post2 hnp hl2
  rw [ngx_pfree_of_some w1 p _ hfree] at h2 ⊢
  simp only at h2 ⊢
  generalize hw2 : ({ ngx_free p w1 with pool := { w1.pool with
    large := pre2 ++ { l2 with alloc := 0 } :: post2 } } : World) = w2 at *
  have hlarge2 : w2.pool.large = pre2 ++ { l2 with alloc := 0 } :: post2 := by rw [← hw2]
  have hmax2 : w2.pool.max = w.pool.max := by rw [← hw2]; exact hmax1
  have hl2' : ngx_palloc P w2 size = ngx_palloc_large P w2 size := by
    unfold ngx_palloc; rw [if_neg (by omega)]
  rw [hl2'] at h2 ⊢
  have hq := (ngx_palloc_large_ne_zero P w2 size h2).1
  have hq0 : w2.prov.headD 0 ≠ 0 := by rw [← hq]; exact h2
  have hreuse := ngx_palloc_large_reuse P w2 size
    (pre2 ++ { l2 with alloc := w2.prov.headD 0 } :: post2) hq0
    (by rw [hlarge2]; exact reuse_slot_at _ pre2 _ post2 0 hn0 rfl (by omega))
  refine ⟨trivial, ?_, pre2, l2, post2, hlarge, hnp, hl2, rfl, ?_⟩
  · rw [hreuse.2, hlarge]; simp
  · rw [hreuse.2, hreuse.1]

/-- Witness of `large_slot_reused`: on the fresh 4096-byte pool, 10000 bytes are
allocated at 131072, released, and allocated again at 196608; the registry
keeps its single record, at 65616. -/
theorem large_slot_reused_witness :
    (ngx_palloc lp64 ex_fresh 10000).2.pool.large = [{ addr := 65616, alloc := 131072 }]
    ∧ (ngx_palloc lp64 (ngx_pfree (ngx_palloc lp64 ex_fresh 10000).2
        (ngx_palloc lp64 ex_fresh 10000).1).2 10000).2.pool.large
      = [{ addr := 65616, alloc := 196608 }]
    ∧ ((ngx_pfree (ngx_palloc lp64 ex_fresh 10000).2 (ngx_palloc lp64 ex_fresh 10000).1).1
        = NGX_OK
      ∧ (ngx_palloc lp64 (ngx_pfree (ngx_palloc lp64 ex_fresh 10000).2
          (ngx_palloc lp64 ex_fresh 10000).1).2 10000).2.pool.large.length
        = (ngx_palloc lp64 ex_fresh 10000).2.pool.large.length
      ∧ ∃ pre l post, (ngx_palloc lp64 ex_fresh 10000).2.pool.large = pre ++ l :: post ∧
          (∀ x ∈ pre, x.alloc ≠ (ngx_palloc lp64 ex_fresh 10000).1) ∧
          l.alloc = (ngx_palloc lp64 ex_fresh 10000).1 ∧
          (ngx_pfree (ngx_palloc lp64 ex_fresh 10000).2
            (ngx_palloc lp64 ex_fresh 10000).1).2.pool.large
            = pre ++ { l with alloc := 0 } :: post ∧
          (ngx_palloc lp64 (ngx_pfree (ngx_palloc lp64 ex_fresh 10000).2
            (ngx_palloc lp64 ex_fresh 10000).1).2 10000).2.pool.large
            = pre ++ { l with alloc :=
                (ngx_palloc lp64 (ngx_pfree (ngx_palloc lp64 ex_fresh 10000).2
                  (ngx_palloc lp64 ex_fresh 10000).1).2 10000).1 } :: post) :=
  ⟨by decide, by decide,
    large_slot_reused lp64 ex_fresh 10000 (by decide) (by decide) (by decide)⟩

/-! ## C12 -/

/-- C12, counterexample: `ngx_create_pool(16)`, the provider answering 4096.  The
size is smaller than the pool header (80 bytes): `16 - 80` is `-64`, the
`size_t` difference wraps around and `max` is `NGX_MAX_ALLOC_FROM_POOL = 4095`.
That is not the smaller of `16 - 80` and 4095, whether the difference is taken
in the integers or cut off at zero, and it exceeds the size of the block. -/
theorem c12_size_below_header :
    ngx_create_pool lp64 16 [4096] = some
        { pool := { blocks := [{ base := 4096, last := 4176, end_ := 4112, failed := 0 }],
                    max := 4095, current := 0, large := [], cleanup := [] },
          prov := [], trace := [Event.memalign 16 16 4096] }
    ∧ (16 : Int) - (lp64.sizeof_pool_t : Int) = -64
    ∧ (4095 : Int)
        ≠ min ((16 : Int) - (lp64.sizeof_pool_t : Int)) (lp64.NGX_MAX_ALLOC_FROM_POOL : Int)
    ∧ 4095 ≠ min (16 - lp64.sizeof_pool_t) lp64.NGX_MAX_ALLOC_FROM_POOL
    ∧ ¬ (4095 ≤ 16) := by
  decide

/-- C12, amended: `ngx_create_pool(size)` fails exactly when the provider refuses
the block.  When `size` is at least `sizeof(ngx_pool_t)` (and a `size_t` value),
the pool returned is the single block at the provider's answer `p`, with
`last = p + sizeof(ngx_pool_t)`, `end = p + size`, `failed = 0`, `max` the
smaller of `size - sizeof(ngx_pool_t)` and `NGX_MAX_ALLOC_FROM_POOL`, `current`
the pool itself and both registries empty. -/
theorem create_pool_result (P : Platform) (S : Nat) (prov : List Nat) :
    (ngx_create_pool P S prov = none ↔ prov.headD 0 = 0)
    ∧ (P.sizeof_pool_t ≤ S → S < P.word →
      ∀ w, ngx_create_pool P S prov = some w →
        prov.headD 0 ≠ 0 ∧
        w.pool.blocks = [{ base := prov.headD 0, last := prov.headD 0 + P.sizeof_pool_t,
                           end_ := prov.headD 0 + S, failed := 0 }] ∧
        w.pool.max = min (S - P.sizeof_pool_t) P.NGX_MAX_ALLOC_FROM_POOL ∧
        w.pool.current = 0 ∧ w.pool.large = [] ∧ w.pool.cleanup = [] ∧
        w.prov = prov.tail ∧
        w.trace = [Event.memalign P.NGX_POOL_ALIGNMENT S (prov.headD 0)]) := by
  constructor
  · unfold ngx_create_pool
    simp only [provider_next_eq]
    by_cases h : prov.headD 0 = 0
    · rw [if_pos h]; exact ⟨fun _ => h, fun _ => rfl⟩
    · rw [if_neg h]
      constructor
      · intro hc; cases hc
      · intro hc; exact (h hc).elim
  · intro hS hlt w hw
    obtain ⟨b0, rest, rfl, hb0, rfl⟩ := ngx_create_pool_some P S prov w hw
    refine ⟨hb0, rfl, ?_, rfl, rfl, rfl, rfl, rfl⟩
    show (if _ then _ else _) = _
    rw [size_sub_of_le P S _ hS hlt]
    split
    · exact (Nat.min_eq_left (Nat.le_of_lt (by assumption))).symm
    · exact (Nat.min_eq_right (by omega)).symm

/-- Witness of `create_pool_result` for 4096 bytes at 65536: `max` is
`4096 - 80 = 4016`. -/
theorem create_pool_result_witness :
    ngx_create_pool lp64 4096 [65536, 131072, 196608, 262144] = some ex_fresh
    ∧ ex_fresh.pool.max = min (4096 - lp64.sizeof_pool_t) lp64.NGX_MAX_ALLOC_FROM_POOL
    ∧ ex_fresh.pool.max = 4016
    ∧ ngx_create_pool lp64 4096 [0, 65536] = none :=
  ⟨by decide,
    ((create_pool_result lp64 4096 [65536, 131072, 196608, 262144]).2 (by decide)
      (by decide) ex_fresh (by decide)).2.2.1,
    by decide, by decide⟩

/-! ## The functions that never read the cleanup registry -/

theorem with_cleanup_self (w : World) : with_cleanup w w.pool.cleanup = w := rfl

theorem ngx_palloc_block_with_cleanup (P : Platform) (w : World) (cs : List CleanupRec)
    (size : Nat) :
    ngx_palloc_block P (with_cleanup w cs) size
      = ((ngx_palloc_block P w size).1, with_cleanup (ngx_palloc_block P w size).2 cs) := by
  obtain ⟨⟨blocks, max, cur, large, cleanup⟩, prov, trace⟩ := w
  cases blocks with
  | nil => rfl
  | cons hd tl =>
    simp only [ngx_palloc_block, with_cleanup, ngx_memalign]
    split <;> rfl

theorem ngx_palloc_small_with_cleanup (P : Platform) (w : World) (cs : List CleanupRec)
    (size align : Nat) :
    ngx_palloc_small P (with_cleanup w cs) size align
      = ((ngx_palloc_small P w size align).1,
          with_cleanup (ngx_palloc_small P w size align).2 cs) := by
  unfold ngx_palloc_small
  show (match scan_blocks P size align (w.pool.blocks.drop w.pool.current) with
    | some (m, bs) => _
    | none => ngx_palloc_block P (with_cleanup w cs) size) = _
  rw [ngx_palloc_block_with_cleanup]
  cases scan_blocks P size align (w.pool.blocks.drop w.pool.current) with
  | none => rfl
  | some r => rfl

theorem ngx_palloc_large_with_cleanup (P : Platform) (w : World) (cs : List CleanupRec)
    (size : Nat) :
    ngx_palloc_large P (with_cleanup w cs) size
      = ((ngx_palloc_large P w size).1, with_cleanup (ngx_palloc_large P w size).2 cs) := by
  unfold ngx_palloc_large
  have h : ngx_alloc size (with_cleanup w cs)
      = ((ngx_alloc size w).1, with_cleanup (ngx_alloc size w).2 cs) := rfl
  simp only [h]
  split
  · rfl
  · have hl : (with_cleanup (ngx_alloc size w).2 cs).pool.large = (ngx_alloc size w).2.pool.large :=
      rfl
    rw [hl]
    cases reuse_slot (ngx_alloc size w).1 (ngx_alloc size w).2.pool.large 0 with
    | some ls => rfl
    | none =>
      simp only [ngx_palloc_small_with_cleanup]
      split <;> rfl

theorem ngx_palloc_with_cleanup (P : Platform) (w : World) (cs : List CleanupRec)
    (size : Nat) :
    ngx_palloc P (with_cleanup w cs) size
      = ((ngx_palloc P w size).1, with_cleanup (ngx_palloc P w size).2 cs) := by
  unfold ngx_palloc
  show (if size ≤ w.pool.max then _ else _) = _
  split
  · exact ngx_palloc_small_with_cleanup P w cs size 1
  · exact ngx_palloc_large_with_cleanup P w cs size

theorem ngx_pnalloc_with_cleanup (P : Platform) (w : World) (cs : List CleanupRec)
    (size : Nat) :
    ngx_pnalloc P (with_cleanup w cs) size
      = ((ngx_pnalloc P w size).1, with_cleanup (ngx_pnalloc P w size).2 cs) := by
  unfold ngx_pnalloc
  show (if size ≤ w.pool.max then _ else _) = _
  split
  · exact ngx_palloc_small_with_cleanup P w cs size 0
  · exact ngx_palloc_large_with_cleanup P w cs size

theorem ngx_pmemalign_with_cleanup (P : Platform) (w : World) (cs : List CleanupRec)
    (size alignment : Nat) :
    ngx_pmemalign P (with_cleanup w cs) size alignment
      = ((ngx_pmemalign P w size alignment).1,
          with_cleanup (ngx_pmemalign P w size alignment).2 cs) := by
  unfold ngx_pmemalign
  have h : ngx_memalign alignment size (with_cleanup w cs)
      = ((ngx_memalign alignment size w).1,
          with_cleanup (ngx_memalign alignment size w).2 cs) := rfl
  simp only [h]
  split
  · rfl
  · simp only [ngx_palloc_small_with_cleanup]
    split <;> rfl

theorem ngx_pfree_with_cleanup (w : World) (cs : List CleanupRec) (p : Nat) :
    ngx_pfree (with_cleanup w cs) p
      = ((ngx_pfree w p).1, with_cleanup (ngx_pfree w p).2 cs) := by
  unfold ngx_pfree
  show (match free_slot p w.pool.large with
    | some ls => _
    | none => _) = _
  cases free_slot p w.pool.large with
  | none => rfl
  | some ls => rfl

/-! ## C13 -/

theorem run_file_none (fd : Nat) (cs : List CleanupRec)
    (h : ∀ x ∈ cs, ¬ (x.handler = ngx_pool_cleanup_file ∧ x.fd = fd)) :
    run_file fd cs = ([], cs) := by
  induction cs with
  | nil => rfl
  | cons c rest ih =>
    unfold run_file
    rw [if_neg (h c (List.mem_cons_self _ _)),
      ih (fun x hx => h x (List.mem_cons_of_mem _ hx))]

theorem run_file_first (fd : Nat) (front : List CleanupRec) (c : CleanupRec)
    (back : List CleanupRec)
    (hfront : ∀ x ∈ front, ¬ (x.handler = ngx_pool_cleanup_file ∧ x.fd = fd))
    (hc : c.handler = ngx_pool_cleanup_file ∧ c.fd = fd) :
    run_file fd (front ++ c :: back)
      = ([Event.handler c.handler c.data], front ++ { c with handler := 0 } :: back) := by
  induction front with
  | nil =>
    show run_file fd (c :: back) = _
    unfold run_file
    rw [if_pos hc]; rfl
  | cons x rest ih =>
    show run_file fd (x :: (rest ++ c :: back)) = _
    unfold run_file
    rw [if_neg (hfront x (List.mem_cons_self _ _)),
      ih (fun y hy => hfront y (List.mem_cons_of_mem _ hy))]
    rfl

/-- C13, the code at the failing input.  On a fresh 4096-byte pool
`ngx_pool_cleanup_file` is registered with a 16-byte payload, the pool is reset,
and the same registration is made again.  Both calls of `ngx_pool_cleanup_add`
return 65616: the second record is written over the first, which
`pool->cleanup` still points at, and becomes its own successor.  The handler
loop of `ngx_destroy_pool` then calls the handler of this one record, with the
payload 65640, at every step and has not ended after any number of steps: after
two steps the handler has run twice. -/
theorem c13_file_handler_repeats :
    (ngx_pool_cleanup_add_linked lp64 ex_fresh { head := 0, cells := [] } 16).1 = 65616
    ∧ (ngx_pool_cleanup_add_linked lp64
        (ngx_reset_pool lp64
          (ngx_pool_cleanup_add_linked lp64 ex_fresh { head := 0, cells := [] } 16).2.1)
        (write_handler
          (ngx_pool_cleanup_add_linked lp64 ex_fresh { head := 0, cells := [] } 16).2.2
          65616 ngx_pool_cleanup_file) 16).1 = 65616
    ∧ write_handler (ngx_pool_cleanup_add_linked lp64
        (ngx_reset_pool lp64
          (ngx_pool_cleanup_add_linked lp64 ex_fresh { head := 0, cells := [] } 16).2.1)
        (write_handler
          (ngx_pool_cleanup_add_linked lp64 ex_fresh { head := 0, cells := [] } 16).2.2
          65616 ngx_pool_cleanup_file) 16).2.2 65616 ngx_pool_cleanup_file
        = ex_chain_file_relinked
    ∧ lookup_cell ex_chain_file_relinked.cells ex_chain_file_relinked.head
        = some { handler := ngx_pool_cleanup_file, data := 65640, next := 65616 }
    ∧ cleanup_loop ex_chain_file_relinked.cells 2 ex_chain_file_relinked.head
        = ([Event.handler ngx_pool_cleanup_file 65640,
            Event.handler ngx_pool_cleanup_file 65640], false)
    ∧ ∀ n, cleanup_loop ex_chain_file_relinked.cells n ex_chain_file_relinked.head
        = (List.replicate n (Event.handler ngx_pool_cleanup_file 65640), false) := by
  refine ⟨by decide, by decide, by decide, by decide, by decide, ?_⟩
  intro n
  induction n with
  | zero => rfl
  | succ k ih =>
    show cleanup_loop ex_chain_file_relinked.cells (k + 1) 65616 = _
    unfold cleanup_loop
    have hl : lookup_cell ex_chain_file_relinked.cells 65616
        = some { handler := 1, data := 65640, next := 65616 } := by decide
    have ih' : cleanup_loop ex_chain_file_relinked.cells k 65616
        = (List.replicate k (Event.handler ngx_pool_cleanup_file 65640), false) := ih
    rw [if_neg (by decide), hl]
    simp only
    rw [ih', if_pos (by decide)]
    rfl

/-! ## C14 -/

theorem run_file_append (fd : Nat) (pre cs : List CleanupRec)
    (hpre : ∀ x ∈ pre, ¬ (x.handler = ngx_pool_cleanup_file ∧ x.fd = fd)) :
    run_file fd (pre ++ cs) = ((run_file fd cs).1, pre ++ (run_file fd cs).2) := by
  induction pre with
  | nil => rfl
  | cons x rest ih =>
    show run_file fd (x :: (rest ++ cs)) = _
    conv_lhs => unfold run_file
    rw [if_neg (hpre x (List.mem_cons_self _ _)),
      ih (fun y hy => hpre y (List.mem_cons_of_mem _ hy))]
    rfl

/-- C14, counterexample: the pool `ex_files` is the result of three registrations
of `ngx_pool_cleanup_file`, for the descriptors 5, 7 and 5.  The first
`ngx_pool_run_cleanup_file(p, 5)` matches and runs the record registered last
(payload 65704); the second call with the same descriptor runs the record
registered first (payload 65640) and unsets its handler, so it invokes a
handler and changes the registry. -/
theorem c14_second_call_runs_next :
    register_all lp64 ex_fresh [⟨8, ngx_pool_cleanup_file, 5⟩,
        ⟨8, ngx_pool_cleanup_file, 7⟩, ⟨8, ngx_pool_cleanup_file, 5⟩] = some ex_files
    ∧ (ngx_pool_run_cleanup_file ex_files 5).trace
        = ex_files.trace ++ [Event.handler ngx_pool_cleanup_file 65704]
    ∧ (ngx_pool_run_cleanup_file (ngx_pool_run_cleanup_file ex_files 5) 5).trace
        = (ngx_pool_run_cleanup_file ex_files 5).trace
            ++ [Event.handler ngx_pool_cleanup_file 65640]
    ∧ (ngx_pool_run_cleanup_file (ngx_pool_run_cleanup_file ex_files 5) 5).pool.cleanup
        ≠ (ngx_pool_run_cleanup_file ex_files 5).pool.cleanup := by
  decide

/-- C14, amended: when the first `ngx_pool_run_cleanup_file(p, fd)` has matched a
record, the second call with the same `fd` passes that record and does to the
records behind it what a first call does: if none of them has the handler
`ngx_pool_cleanup_file` and the descriptor `fd`, it invokes no handler and
leaves the pool as it is; otherwise it runs the first of them that has, and
unsets its handler. -/
theorem run_cleanup_file_twice (w : World) (fd : Nat) (front : List CleanupRec)
    (c : CleanupRec) (back : List CleanupRec)
    (hw : w.pool.cleanup = front ++ c :: back)
    (hfront : ∀ x ∈ front, ¬ (x.handler = ngx_pool_cleanup_file ∧ x.fd = fd))
    (hc : c.handler = ngx_pool_cleanup_file ∧ c.fd = fd) :
    (ngx_pool_run_cleanup_file w fd).trace = w.trace ++ [Event.handler c.handler c.data]
    ∧ (ngx_pool_run_cleanup_file w fd).pool.cleanup
        = front ++ { c with handler := 0 } :: back
    ∧ ((∀ x ∈ back, ¬ (x.handler = ngx_pool_cleanup_file ∧ x.fd = fd)) →
        ngx_pool_run_cleanup_file (ngx_pool_run_cleanup_file w fd) fd
          = ngx_pool_run_cleanup_file w fd)
    ∧ ∀ mid d rest, back = mid ++ d :: rest →
        (∀ x ∈ mid, ¬ (x.handler = ngx_pool_cleanup_file ∧ x.fd = fd)) →
        (d.handler = ngx_pool_cleanup_file ∧ d.fd = fd) →
        (ngx_pool_run_cleanup_file (ngx_pool_run_cleanup_file w fd) fd).trace
            = (ngx_pool_run_cleanup_file w fd).trace ++ [Event.handler d.handler d.data]
        ∧ (ngx_pool_run_cleanup_file (ngx_pool_run_cleanup_file w fd) fd).pool.cleanup
            = front ++ { c with handler := 0 } :: (mid ++ { d with handler := 0 } :: rest) := by
  have h1 : ngx_pool_run_cleanup_file w fd
      = with_cleanup { w with trace := w.trace ++ [Event.handler c.handler c.data] }
          (front ++ { c with handler := 0 } :: back) := by
    unfold ngx_pool_run_cleanup_file
    simp only [hw, run_file_first fd front c back hfront hc]
    rfl
  have hpre : ∀ x ∈ front ++ [({ c with handler := 0 } : CleanupRec)],
      ¬ (x.handler = ngx_pool_cleanup_file ∧ x.fd = fd) := by
    intro x hx
    rcases List.mem_append.1 hx with hx | hx
    · exact hfront x hx
    · rw [List.mem_singleton.1 hx]
      intro h
      have h0 : (0 : Nat) ≠ ngx_pool_cleanup_file := by decide
      exact h0 h.1
  have h2 : run_file fd (front ++ { c with handler := 0 } :: back)
      = ((run_file fd back).1, front ++ { c with handler := 0 } :: (run_file fd back).2) := by
    have := run_file_append fd (front ++ [({ c with handler := 0 } : CleanupRec)]) back hpre
    simpa only [List.append_assoc, List.singleton_append] using this
  refine ⟨by rw [h1]; rfl, by rw [h1]; rfl, ?_, ?_⟩
  · intro hback
    rw [h1]
    unfold ngx_pool_run_cleanup_file
    show World.mk ⟨_, _, _, _, (run_file fd (front ++ { c with handler := 0 } :: back)).2⟩ _
        (_ ++ (run_file fd (front ++ { c with handler := 0 } :: back)).1) = _
    rw [h2, run_file_none fd back hback]
    simp only [List.append_nil]
    rfl
  · intro mid d rest hb hmid hd
    rw [h1]
    unfold ngx_pool_run_cleanup_file
    constructor
    · show _ ++ (run_file fd (front ++ { c with handler := 0 } :: back)).1 = _
      rw [h2, hb, run_file_first fd mid d rest hmid hd]
    · show (run_file fd (front ++ { c with handler := 0 } :: back)).2 = _
      rw [h2, hb, run_file_first fd mid d rest hmid hd]

/-- Witness of `run_cleanup_file_twice`: in `ex_files` one record only is for the
descriptor 7, and the second `ngx_pool_run_cleanup_file(p, 7)` changes
nothing. -/
theorem run_cleanup_file_twice_witness :
    (ngx_pool_run_cleanup_file ex_files 7).trace
        = ex_files.trace ++ [Event.handler 1 65672]
    ∧ ngx_pool_run_cleanup_file (ngx_pool_run_cleanup_file ex_files 7) 7
        = ngx_pool_run_cleanup_file ex_files 7 :=
  ⟨(run_cleanup_file_twice ex_files 7
      [{ addr := 65680, handler := 1, data := 65704, fd := 5 }]
      { addr := 65648, handler := 1, data := 65672, fd := 7 }
      [{ addr := 65616, handler := 1, data := 65640, fd := 5 }]
      rfl (by decide) (by decide)).1,
   (run_cleanup_file_twice ex_files 7
      [{ addr := 65680, handler := 1, data := 65704, fd := 5 }]
      { addr := 65648, handler := 1, data := 65672, fd := 7 }
      [{ addr := 65616, handler := 1, data := 65640, fd := 5 }]
      rfl (by decide) (by decide)).2.2.1 (by decide)⟩

/-! ## The accounts of the provider -/

theorem obtained_append (t e : List Event) : obtained (t ++ e) = obtained t ++ obtained e := by
  induction t with
  | nil => rfl
  | cons x rest ih =>
    cases x with
    | alloc s a => by_cases ha : a = 0 <;> simp [obtained, ha, ih]
    | memalign al s a => by_cases ha : a = 0 <;> simp [obtained, ha, ih]
    | free a => simpa [obtained] using ih
    | handler h d => simpa [obtained] using ih

theorem released_append (t e : List Event) : released (t ++ e) = released t ++ released e := by
  induction t with
  | nil => rfl
  | cons x rest ih =>
    cases x with
    | alloc s a => simpa [released] using ih
    | memalign al s a => simpa [released] using ih
    | free a => by_cases ha : a = 0 <;> simp [released, ha, ih]
    | handler h d => simpa [released] using ih

theorem obtained_released_handlers (cs : List CleanupRec) :
    obtained (run_handlers cs) = [] ∧ released (run_handlers cs) = [] := by
  induction cs with
  | nil => exact ⟨rfl, rfl⟩
  | cons c rest ih =>
    unfold run_handlers
    split
    · exact ih
    · exact ih

theorem obtained_released_free_large (ls : List LargeRec) :
    obtained (free_large ls) = [] ∧ released (free_large ls) = live_payloads ls := by
  induction ls with
  | nil => exact ⟨rfl, rfl⟩
  | cons l rest ih =>
    unfold free_large
    by_cases h : l.alloc ≠ 0
    · rw [if_pos h]
      refine ⟨ih.1, ?_⟩
      show (if l.alloc ≠ 0 then l.alloc :: released (free_large rest)
        else released (free_large rest)) = _
      rw [if_pos h, ih.2]
      unfold live_payloads
      rw [List.filter_cons_of_pos (by simpa using h)]
      rfl
    · rw [if_neg h]
      refine ⟨ih.1, ?_⟩
      rw [ih.2]
      unfold live_payloads
      rw [List.filter_cons_of_neg (by simpa using h)]

theorem obtained_released_free_blocks (bs : List Block)
    (h0 : 0 ∉ bs.map (fun b => b.base)) :
    obtained (free_blocks bs) = [] ∧ released (free_blocks bs) = bs.map (fun b => b.base) := by
  induction bs with
  | nil => exact ⟨rfl, rfl⟩
  | cons b rest ih =>
    have hb : b.base ≠ 0 := fun e => h0 (by simp [e])
    have hr : 0 ∉ rest.map (fun b => b.base) := fun hm => h0 (by simp at hm ⊢; exact Or.inr hm)
    unfold free_blocks
    refine ⟨(ih hr).1, ?_⟩
    show (if b.base ≠ 0 then b.base :: released (free_blocks rest)
      else released (free_blocks rest)) = _
    rw [if_pos hb, (ih hr).2]
    rfl

theorem map_base_of_geom {bs bs' : List Block}
    (h : bs'.map Block.geom = bs.map Block.geom) :
    bs'.map (fun b => b.base) = bs.map (fun b => b.base) := by
  have := congrArg (List.map Prod.fst) h
  simpa only [List.map_map, Function.comp, Block.geom] using this

theorem live_payloads_cons_live (l : LargeRec) (ls : List LargeRec) (h : l.alloc ≠ 0) :
    live_payloads (l :: ls) = l.alloc :: live_payloads ls := by
  unfold live_payloads
  rw [List.filter_cons_of_pos (by simpa using h)]
  rfl

theorem live_payloads_cons_empty (l : LargeRec) (ls : List LargeRec) (h : l.alloc = 0) :
    live_payloads (l :: ls) = live_payloads ls := by
  unfold live_payloads
  rw [List.filter_cons_of_neg (by simpa using h)]

theorem live_payloads_append (pre post : List LargeRec) :
    live_payloads (pre ++ post) = live_payloads pre ++ live_payloads post := by
  unfold live_payloads
  rw [List.filter_append, List.map_append]

/-- Filling an empty record with `p` adds `p` to the live payloads. -/
theorem live_payloads_fill (pre : List LargeRec) (l : LargeRec) (post : List LargeRec)
    (p a : Nat) (hl : l.alloc = 0) (hp : p ≠ 0) :
    (live_payloads (pre ++ { l with alloc := p } :: post)).count a
      = (live_payloads (pre ++ l :: post)).count a + [p].count a := by
  rw [live_payloads_append, live_payloads_append,
    live_payloads_cons_live _ post (show ({ l with alloc := p } : LargeRec).alloc ≠ 0 from hp),
    live_payloads_cons_empty l post hl]
  simp only [List.count_append, List.count_cons, List.count_nil]
  omega

/-- Clearing a record that holds `p` removes `p` from the live payloads. -/
theorem live_payloads_clear (pre : List LargeRec) (l : LargeRec) (post : List LargeRec)
    (a : Nat) (hl : l.alloc ≠ 0) :
    (live_payloads (pre ++ l :: post)).count a
      = (live_payloads (pre ++ { l with alloc := 0 } :: post)).count a + [l.alloc].count a := by
  rw [live_payloads_append, live_payloads_append, live_payloads_cons_live l post hl,
    live_payloads_cons_empty _ post (show ({ l with alloc := 0 } : LargeRec).alloc = 0 from rfl)]
  simp only [List.count_append, List.count_cons, List.count_nil]
  omega

theorem count_cons_singleton (a p : Nat) (e : List Nat) :
    (p :: e).count a = [p].count a + e.count a := by
  rw [← List.singleton_append, List.count_append]

/-- How the accounts move along a call that appends `evs` to the trace and the
blocks `nb` to the chain. -/
theorem Accounted.move {e e' : List Nat} {w w' : World} (h : Accounted e w)
    (nb : List Nat) (evs : List Event)
    (hb : w'.pool.blocks.map (fun b => b.base) = w.pool.blocks.map (fun b => b.base) ++ nb)
    (h0 : 0 ∉ nb) (ht : w'.trace = w.trace ++ evs)
    (hc : ∀ a, (obtained evs).count a + (live_payloads w.pool.large).count a + e.count a
      = (released evs).count a + (live_payloads w'.pool.large).count a + nb.count a
        + e'.count a) :
    Accounted e' w' := by
  constructor
  · rw [hb]
    intro hm
    rcases List.mem_append.1 hm with hm | hm
    · exact h.1 hm
    · exact h0 hm
  · intro a
    have h1 := h.2 a
    have h2 := hc a
    rw [hb, ht, obtained_append, released_append]
    simp only [List.count_append]
    omega

/-- The same along a call that leaves the chain as long as it is. -/
theorem Accounted.stay {e e' : List Nat} {w w' : World} (h : Accounted e w)
    (evs : List Event)
    (hb : w'.pool.blocks.map (fun b => b.base) = w.pool.blocks.map (fun b => b.base))
    (ht : w'.trace = w.trace ++ evs)
    (hc : ∀ a, (obtained evs).count a + (live_payloads w.pool.large).count a + e.count a
      = (released evs).count a + (live_payloads w'.pool.large).count a + e'.count a) :
    Accounted e' w' :=
  h.move [] evs (by rw [hb, List.append_nil]) (List.not_mem_nil 0) ht
    (fun a => by rw [hc a]; rfl)

theorem obtained_alloc (size p : Nat) (hp : p ≠ 0) :
    obtained [Event.alloc size p] = [p] ∧ released [Event.alloc size p] = [] := by
  simp [obtained, released, hp]

theorem obtained_alloc_null (size : Nat) :
    obtained [Event.alloc size 0] = [] ∧ released [Event.alloc size 0] = [] := by
  simp [obtained, released]

theorem obtained_memalign (al size p : Nat) (hp : p ≠ 0) :
    obtained [Event.memalign al size p] = [p] ∧ released [Event.memalign al size p] = [] := by
  simp [obtained, released, hp]

theorem obtained_memalign_null (al size : Nat) :
    obtained [Event.memalign al size 0] = [] ∧ released [Event.memalign al size 0] = [] := by
  simp [obtained, released]

theorem released_free (p : Nat) (hp : p ≠ 0) :
    obtained [Event.free p] = [] ∧ released [Event.free p] = [p] := by
  simp [obtained, released, hp]

theorem released_free_null :
    obtained [Event.free 0] = [] ∧ released [Event.free 0] = [] := by
  simp [obtained, released]

theorem ngx_palloc_block_acct (P : Platform) (e : List Nat) (w : World) (size : Nat)
    (h : Accounted e w) : Accounted e (ngx_palloc_block P w size).2 := by
  obtain ⟨⟨blocks, max, cur, large, cleanup⟩, prov, trace⟩ := w
  cases blocks with
  | nil => exact h
  | cons hd tl =>
    simp only [ngx_palloc_block, ngx_memalign]
    split
    · rename_i hm
      refine h.stay [Event.memalign P.NGX_POOL_ALIGNMENT (size_sub P hd.end_ hd.base)
        (provider_next prov).1] rfl rfl ?_
      intro a
      rw [hm, (obtained_memalign_null _ _).1, (obtained_memalign_null _ _).2]
    · rename_i hm
      refine h.move [(provider_next prov).1]
        [Event.memalign P.NGX_POOL_ALIGNMENT (size_sub P hd.end_ hd.base)
          (provider_next prov).1] ?_ ?_ rfl ?_
      · show List.map _ (List.take cur (hd :: tl)
            ++ (walk_failed (List.drop cur (hd :: tl)) cur cur).1 ++ [_]) = _
        rw [List.map_append, List.map_append, map_base_of_geom (walk_failed_geom _ _ _),
          ← List.map_append, List.take_append_drop]
        rfl
      · intro h0
        exact hm (List.mem_singleton.1 h0).symm
      · intro a
        rw [(obtained_memalign _ _ _ hm).1, (obtained_memalign _ _ _ hm).2]
        show _ = _ + (live_payloads large).count a + _ + _
        simp only [List.count_nil]
        omega

theorem ngx_palloc_small_acct (P : Platform) (e : List Nat) (w : World) (size align : Nat)
    (h : Accounted e w) : Accounted e (ngx_palloc_small P w size align).2 := by
  unfold ngx_palloc_small
  cases hs : scan_blocks P size align (w.pool.blocks.drop w.pool.current) with
  | none => exact ngx_palloc_block_acct P e w size h
  | some r =>
    obtain ⟨m, bs⟩ := r
    refine h.stay [] ?_ (List.append_nil _).symm (fun a => rfl)
    show List.map _ (List.take w.pool.current w.pool.blocks ++ bs) = _
    rw [List.map_append, map_base_of_geom (scan_blocks_geom P size align _ m bs hs),
      ← List.map_append, List.take_append_drop]

/-- The tail common to `ngx_palloc_large` and `ngx_pmemalign`: with the payload
`p` in hand, a record is bump-allocated and linked, or `p` is released. -/
theorem link_record_acct (P : Platform) (e : List Nat) (w1 : World) (p : Nat) (hp : p ≠ 0)
    (h : Accounted (p :: e) w1) :
    Accounted e
      (if (ngx_palloc_small P w1 P.sizeof_pool_large_t 1).1 = 0 then
        ((0 : Nat), ngx_free p (ngx_palloc_small P w1 P.sizeof_pool_large_t 1).2)
      else
        (p, { (ngx_palloc_small P w1 P.sizeof_pool_large_t 1).2 with
              pool := { (ngx_palloc_small P w1 P.sizeof_pool_large_t 1).2.pool with
                large := { addr := (ngx_palloc_small P w1 P.sizeof_pool_large_t 1).1,
                           alloc := p }
                  :: (ngx_palloc_small P w1 P.sizeof_pool_large_t 1).2.pool.large } })).2 := by
  have h2 := ngx_palloc_small_acct P (p :: e) w1 P.sizeof_pool_large_t 1 h
  split
  · refine h2.stay [Event.free p] rfl rfl ?_
    intro a
    rw [(released_free p hp).1, (released_free p hp).2, count_cons_singleton a p e]
    show _ = _ + (live_payloads (ngx_palloc_small P w1 P.sizeof_pool_large_t 1).2.pool.large).count a
      + _
    simp only [List.count_nil]
    omega
  · refine h2.stay [] rfl (List.append_nil _).symm ?_
    intro a
    show _ = _ + (live_payloads (_ :: _)).count a + _
    rw [live_payloads_cons_live _ _ (show (LargeRec.mk _ p).alloc ≠ 0 from hp),
      count_cons_singleton a p e, count_cons_singleton a p (live_payloads _)]
    simp only [obtained, released, List.count_nil]
    omega

theorem ngx_alloc_acct (e : List Nat) (w : World) (size : Nat) (h : Accounted e w)
    (hp : (ngx_alloc size w).1 ≠ 0) :
    Accounted ((ngx_alloc size w).1 :: e) (ngx_alloc size w).2 := by
  refine h.stay [Event.alloc size (ngx_alloc size w).1] rfl rfl ?_
  intro a
  rw [(obtained_alloc _ _ hp).1, (obtained_alloc _ _ hp).2, count_cons_singleton a _ e]
  show _ + (live_payloads w.pool.large).count a + _
    = _ + (live_payloads w.pool.large).count a + _
  simp only [List.count_nil]
  omega

theorem ngx_memalign_acct (e : List Nat) (w : World) (al size : Nat) (h : Accounted e w)
    (hp : (ngx_memalign al size w).1 ≠ 0) :
    Accounted ((ngx_memalign al size w).1 :: e) (ngx_memalign al size w).2 := by
  refine h.stay [Event.memalign al size (ngx_memalign al size w).1] rfl rfl ?_
  intro a
  rw [(obtained_memalign _ _ _ hp).1, (obtained_memalign _ _ _ hp).2,
    count_cons_singleton a _ e]
  show _ + (live_payloads w.pool.large).count a + _
    = _ + (live_payloads w.pool.large).count a + _
  simp only [List.count_nil]
  omega

theorem ngx_palloc_large_acct (P : Platform) (e : List Nat) (w : World) (size : Nat)
    (h : Accounted e w) : Accounted e (ngx_palloc_large P w size).2 := by
  unfold ngx_palloc_large
  simp only
  by_cases hp : (ngx_alloc size w).1 = 0
  · rw [if_pos hp]
    refine h.stay [Event.alloc size (ngx_alloc size w).1] rfl rfl ?_
    intro a
    rw [hp, (obtained_alloc_null _).1, (obtained_alloc_null _).2]
    rfl
  · rw [if_neg hp]
    cases hr : reuse_slot (ngx_alloc size w).1 (ngx_alloc size w).2.pool.large 0 with
    | some ls =>
      obtain ⟨pre, l, post, hls, _, hl, _, rfl⟩ := reuse_slot_some _ _ 0 ls (by omega) hr
      have hw : w.pool.large = pre ++ l :: post := hls
      refine h.stay [Event.alloc size (ngx_alloc size w).1] rfl rfl ?_
      intro a
      show _ = _ + (live_payloads (pre ++ _ :: post)).count a + _
      rw [live_payloads_fill pre l post _ a hl hp, hw, (obtained_alloc _ _ hp).1,
        (obtained_alloc _ _ hp).2]
      simp only [List.count_nil]
      omega
    | none =>
      exact link_record_acct P e _ _ hp (ngx_alloc_acct e w size h hp)

theorem ngx_pmemalign_acct (P : Platform) (e : List Nat) (w : World) (size alignment : Nat)
    (h : Accounted e w) : Accounted e (ngx_pmemalign P w size alignment).2 := by
  unfold ngx_pmemalign
  simp only
  by_cases hp : (ngx_memalign alignment size w).1 = 0
  · rw [if_pos hp]
    refine h.stay [Event.memalign alignment size (ngx_memalign alignment size w).1] rfl rfl ?_
    intro a
    rw [hp, (obtained_memalign_null _ _).1, (obtained_memalign_null _ _).2]
    rfl
  · rw [if_neg hp]
    exact link_record_acct P e _ _ hp (ngx_memalign_acct e w alignment size h hp)

theorem ngx_palloc_acct (P : Platform) (e : List Nat) (w : World) (size : Nat)
    (h : Accounted e w) : Accounted e (ngx_palloc P w size).2 := by
  unfold ngx_palloc
  split
  · exact ngx_palloc_small_acct P e w size 1 h
  · exact ngx_palloc_large_acct P e w size h

theorem ngx_pnalloc_acct (P : Platform) (e : List Nat) (w : World) (size : Nat)
    (h : Accounted e w) : Accounted e (ngx_pnalloc P w size).2 := by
  unfold ngx_pnalloc
  split
  · exact ngx_palloc_small_acct P e w size 0 h
  · exact ngx_palloc_large_acct P e w size h

theorem ngx_pfree_acct (e : List Nat) (w : World) (p : Nat) (h : Accounted e w) :
    Accounted e (ngx_pfree w p).2 := by
  cases hf : free_slot p w.pool.large with
  | none => rw [ngx_pfree_of_none w p hf]; exact h
  | some ls =>
    rw [ngx_pfree_of_some w p ls hf]
    have hex : ∃ l ∈ w.pool.large, l.alloc = p := by
      by_contra hne
      have := (free_slot_none p w.pool.large).2
        (fun l hl e => hne ⟨l, hl, e⟩)
      rw [this] at hf; cases hf
    obtain ⟨pre, l, post, hw, hpre, hl⟩ := exists_first p w.pool.large hex
    have hls : ls = pre ++ { l with alloc := 0 } :: post := by
      have := free_slot_at p pre l post hpre hl
      rw [← hw, hf] at this
      exact Option.some.inj this
    refine h.stay [Event.free p] rfl rfl ?_
    intro a
    show _ + _ + _ = _ + (live_payloads ls).count a + _
    rw [hw, hls]
    by_cases hp : p = 0
    · have hl0 : l.alloc = 0 := hl.trans hp
      have hsame : ({ l with alloc := 0 } : LargeRec) = l := by
        cases l; simp only at hl0; subst hl0; rfl
      rw [hsame, hp, released_free_null.1, released_free_null.2]
    · have hl0 : l.alloc ≠ 0 := fun e0 => hp (hl.symm.trans e0)
      rw [live_payloads_clear pre l post a hl0, hl, (released_free p hp).1,
        (released_free p hp).2]
      simp only [List.count_nil]
      omega

theorem ngx_reset_pool_acct (P : Platform) (w : World) (h : Accounted [] w) :
    Accounted [] (ngx_reset_pool P w) := by
  refine h.stay (free_large w.pool.large) ?_ rfl ?_
  · show List.map _ (rewind P w.pool.blocks) = _
    rw [rewind_eq_map, List.map_map]
    rfl
  · intro a
    rw [(obtained_released_free_large _).1, (obtained_released_free_large _).2]
    show _ = _ + (live_payloads []).count a + _
    have : live_payloads [] = [] := rfl
    rw [this]
    simp only [List.count_nil]
    omega

theorem ngx_pool_cleanup_add_acct (P : Platform) (w : World) (size : Nat)
    (h : Accounted [] w) : Accounted [] (ngx_pool_cleanup_add P w size).2 := by
  have h1 := ngx_palloc_acct P [] w P.sizeof_pool_cleanup_t h
  have h2 := ngx_palloc_acct P [] _ size h1
  unfold ngx_pool_cleanup_add
  simp only
  split
  · exact h1
  · split
    · split
      · exact h2
      · exact h2
    · exact h1

theorem step_acct (P : Platform) (w : World) (op : Op) (h : Accounted [] w) :
    Accounted [] (step P w op) := by
  cases op with
  | palloc size => exact ngx_palloc_acct P [] w size h
  | pnalloc size => exact ngx_pnalloc_acct P [] w size h
  | pcalloc size => exact ngx_palloc_acct P [] w size h
  | pmemalign size alignment => exact ngx_pmemalign_acct P [] w size alignment h
  | pfree p => exact ngx_pfree_acct [] w p h
  | cleanup_add size => exact ngx_pool_cleanup_add_acct P w size h
  | set_cleanup c hd fd => exact h
  | run_cleanup_file fd =>
    refine h.stay (run_file fd w.pool.cleanup).1 rfl rfl ?_
    intro a
    have hev : ∀ cs : List CleanupRec, obtained (run_file fd cs).1 = []
        ∧ released (run_file fd cs).1 = [] := by
      intro cs
      induction cs with
      | nil => exact ⟨rfl, rfl⟩
      | cons c rest ih =>
        unfold run_file
        split
        · exact ⟨rfl, rfl⟩
        · exact ih
    rw [(hev _).1, (hev _).2]
    rfl
  | reset => exact ngx_reset_pool_acct P w h

theorem run_acct (P : Platform) (ops : List Op) :
    ∀ w : World, Accounted [] w → Accounted [] (run P w ops) := by
  induction ops with
  | nil => intro w h; exact h
  | cons op rest ih => intro w h; exact ih (step P w op) (step_acct P w op h)

theorem ngx_create_pool_acct (P : Platform) (S : Nat) (prov : List Nat) (w : World)
    (h : ngx_create_pool P S prov = some w) : Accounted [] w := by
  obtain ⟨b0, rest, rfl, hb0, rfl⟩ := ngx_create_pool_some P S prov w h
  constructor
  · intro hm
    exact hb0 (List.mem_singleton.1 hm).symm
  · intro a
    show (obtained [Event.memalign P.NGX_POOL_ALIGNMENT S b0]).count a
      = (released [Event.memalign P.NGX_POOL_ALIGNMENT S b0]).count a
        + (live_payloads []).count a + [b0].count a + _
    rw [(obtained_memalign _ _ _ hb0).1, (obtained_memalign _ _ _ hb0).2]
    have : live_payloads [] = [] := rfl
    rw [this]
    simp only [List.count_nil]
    omega

/-! ## C15 -/

theorem free_large_eq_live (ls : List LargeRec) :
    free_large ls = (live_payloads ls).map Event.free := by
  rw [free_large_eq, live_payloads, List.map_map]
  rfl

theorem free_blocks_eq (bs : List Block) :
    free_blocks bs = bs.map (fun b => Event.free b.base) := by
  induction bs with
  | nil => rfl
  | cons b rest ih => simp only [free_blocks, List.map_cons, ih]

theorem live_payloads_ne_zero (ls : List LargeRec) : 0 ∉ live_payloads ls := by
  unfold live_payloads
  intro h
  obtain ⟨l, hl, h0⟩ := List.mem_map.1 h
  have := (List.mem_filter.1 hl).2
  simp only [decide_eq_true_eq] at this
  exact this h0

theorem step_plain_cleanup (P : Platform) (w : World) (op : Op) (h : op.plain = true) :
    (step P w op).pool.cleanup = w.pool.cleanup := by
  cases op with
  | palloc size => exact (ngx_palloc_frame P w size).1
  | pnalloc size =>
    show (ngx_pnalloc P w size).2.pool.cleanup = _
    conv_lhs => rw [← with_cleanup_self w, ngx_pnalloc_with_cleanup]
    rfl
  | pcalloc size => exact (ngx_palloc_frame P w size).1
  | pmemalign size alignment =>
    show (ngx_pmemalign P w size alignment).2.pool.cleanup = _
    conv_lhs => rw [← with_cleanup_self w, ngx_pmemalign_with_cleanup]
    rfl
  | pfree p =>
    show (ngx_pfree w p).2.pool.cleanup = _
    conv_lhs => rw [← with_cleanup_self w, ngx_pfree_with_cleanup]
    rfl
  | cleanup_add size => cases h
  | set_cleanup c hd fd => cases h
  | run_cleanup_file fd => cases h
  | reset => rfl

theorem run_plain_cleanup (P : Platform) (ops : List Op) (hops : ∀ op ∈ ops, op.plain = true) :
    ∀ w : World, (run P w ops).pool.cleanup = w.pool.cleanup := by
  induction ops with
  | nil => intro w; rfl
  | cons op rest ih =>
    intro w
    show (run P (step P w op) rest).pool.cleanup = _
    rw [ih (fun o ho => hops o (List.mem_cons_of_mem _ ho)),
      step_plain_cleanup P w op (hops op (List.mem_cons_self _ _))]

theorem reuse_slot_all_live (p : Nat) (ls : List LargeRec) (n : Nat) (hn4 : n ≤ 4)
    (h : ∀ x ∈ ls.take (5 - n), x.alloc ≠ 0) : reuse_slot p ls n = none := by
  induction ls generalizing n with
  | nil => rfl
  | cons x rest ih =>
    have h5 : 5 - n = (4 - n) + 1 := by omega
    rw [h5, List.take_succ_cons] at h
    have hx : ¬ x.alloc = 0 := h x (List.mem_cons_self _ _)
    unfold reuse_slot
    rw [if_neg hx]
    by_cases hn : n > 3
    · rw [if_pos hn]
    · rw [if_neg hn]
      have h4 : 4 - n = 5 - (n + 1) := by omega
      rw [ih (n + 1) (by omega)
        (fun y hy => h y (List.mem_cons_of_mem _ (by rw [h4]; exact hy)))]

set_option maxRecDepth 100000 in
/-- C16, counterexample: `ex_five_large` is reached from a fresh pool by five
allocations of 5000 bytes and the release of the first.  None of the first four
records of its large registry is empty, the fifth is.  The next
`ngx_palloc_large` stores its payload in the fifth record and the registry
keeps its five records: the scan went past the first four. -/
theorem c16_fifth_record_reused :
    ngx_create_pool lp64 4096
        [65536, 131072, 196608, 262144, 327680, 393216, 458752, 524288] = some ex_rich
    ∧ run lp64 ex_rich [Op.palloc 5000, Op.palloc 5000, Op.palloc 5000, Op.palloc 5000,
        Op.palloc 5000, Op.pfree 131072] = ex_five_large
    ∧ ex_five_large.pool.large.length = 5
    ∧ (∀ x ∈ ex_five_large.pool.large.take 4, x.alloc ≠ 0)
    ∧ (ngx_palloc_large lp64 ex_five_large 5000).1 = 458752
    ∧ (ngx_palloc_large lp64 ex_five_large 5000).2.pool.large
        = [{ addr := 65680, alloc := 393216 }, { addr := 65664, alloc := 327680 },
           { addr := 65648, alloc := 262144 }, { addr := 65632, alloc := 196608 },
           { addr := 65616, alloc := 458752 }]
    ∧ (ngx_palloc_large lp64 ex_five_large 5000).2.pool.large.length
        ≠ ex_five_large.pool.large.length + 1 := by
  decide

/-- C16, amended: with the provider answering `p`, not `NULL`, the scan of
`ngx_palloc_large` examines the first five records of the large registry.  If
one of them is empty, the first empty one receives `p`, the other records and
the length of the registry are unchanged, and no record is allocated (the
chain is untouched).  If none of the first five is empty, whatever the later
records hold, a record is bump-allocated by `ngx_palloc_small` and, when that
succeeds, inserted at the head, holding `p`: the registry grows by one. -/
theorem large_scan_first_five (P : Platform) (w : World) (size : Nat)
    (hp : w.prov.headD 0 ≠ 0) :
    (∀ pre l post, w.pool.large = pre ++ l :: post → (∀ x ∈ pre, x.alloc ≠ 0) →
        l.alloc = 0 → pre.length ≤ 4 →
        (ngx_palloc_large P w size).1 = w.prov.headD 0
        ∧ (ngx_palloc_large P w size).2.pool.large
            = pre ++ { l with alloc := w.prov.headD 0 } :: post
        ∧ (ngx_palloc_large P w size).2.pool.large.length = w.pool.large.length
        ∧ (ngx_palloc_large P w size).2.pool.blocks = w.pool.blocks
        ∧ (ngx_palloc_large P w size).2.pool.current = w.pool.current)
    ∧ ((∀ x ∈ w.pool.large.take 5, x.alloc ≠ 0) →
        (ngx_palloc_small P (ngx_alloc size w).2 P.sizeof_pool_large_t 1).1 ≠ 0 →
        (ngx_palloc_large P w size).1 = w.prov.headD 0
        ∧ (ngx_palloc_large P w size).2.pool.large
            = { addr := (ngx_palloc_small P (ngx_alloc size w).2 P.sizeof_pool_large_t 1).1,
                alloc := w.prov.headD 0 } :: w.pool.large
        ∧ (ngx_palloc_large P w size).2.pool.large.length = w.pool.large.length + 1) := by
  have hp1 : (ngx_alloc size w).1 = w.prov.headD 0 := by
    simp only [ngx_alloc, provider_next_eq]
  constructor
  · intro pre l post hw hpre hl hlen
    have hr : reuse_slot (w.prov.headD 0) w.pool.large 0
        = some (pre ++ { l with alloc := w.prov.headD 0 } :: post) := by
      rw [hw]; exact reuse_slot_at _ pre l post 0 hpre hl (by omega)
    have hr1 : reuse_slot (ngx_alloc size w).1 (ngx_alloc size w).2.pool.large 0
        = some (pre ++ { l with alloc := w.prov.headD 0 } :: post) := by
      rw [hp1]; exact hr
    unfold ngx_palloc_large
    simp only
    rw [if_neg (by rw [hp1]; exact hp), hr1]
    refine ⟨hp1, rfl, ?_, rfl, rfl⟩
    show (pre ++ _ :: post).length = _
    rw [hw]
    simp only [List.length_append, List.length_cons]
  · intro hall hs
    have hr1 : reuse_slot (ngx_alloc size w).1 (ngx_alloc size w).2.pool.large 0 = none :=
      reuse_slot_all_live _ _ 0 (by omega) hall
    have hl2 : (ngx_palloc_small P (ngx_alloc size w).2 P.sizeof_pool_large_t 1).2.pool.large
        = w.pool.large := (ngx_palloc_small_frame P _ _ 1).1
    unfold ngx_palloc_large
    simp only
    rw [if_neg (by rw [hp1]; exact hp), hr1]
    simp only
    rw [if_neg hs]
    refine ⟨hp1, ?_, ?_⟩
    · show _ :: _ = _
      rw [hl2, hp1]
    · show (_ :: _).length = _
      rw [hl2]
      rfl

/-- Witness of `large_scan_first_five` on `ex_five_large`: the fifth record is
the first empty one and receives the payload 458752. -/
theorem large_scan_first_five_witness :
    ex_five_large.prov.headD 0 ≠ 0
    ∧ (ngx_palloc_large lp64 ex_five_large 5000).2.pool.large
        = [{ addr := 65680, alloc := 393216 }, { addr := 65664, alloc := 327680 },
           { addr := 65648, alloc := 262144 }, { addr := 65632, alloc := 196608 }]
          ++ { addr := 65616, alloc := 458752 } :: [] :=
  ⟨by decide,
    ((large_scan_first_five lp64 ex_five_large 5000 (by decide)).1
      [{ addr := 65680, alloc := 393216 }, { addr := 65664, alloc := 327680 },
       { addr := 65648, alloc := 262144 }, { addr := 65632, alloc := 196608 }]
      { addr := 65616, alloc := 0 } [] rfl (by decide) rfl (by decide)).2.1⟩

/-! ## C17 -/

/-- C17, counterexample: after `ngx_palloc(4000)` on a fresh 4096-byte pool,
`ngx_palloc(100)` grows the chain; the provider places the new block at 131072
and `ngx_palloc_block` returns 131104, that is `base + sizeof(ngx_pool_data_t)`,
below `base + sizeof(ngx_pool_t) = 131152`, the position to which a later
`ngx_reset_pool` rewinds that block. -/
theorem c17_grown_block_starts_lower :
    ngx_palloc lp64 (ngx_palloc lp64 ex_fresh 4000).2 100
        = ngx_palloc_block lp64 (ngx_palloc lp64 ex_fresh 4000).2 100
    ∧ (ngx_palloc_block lp64 (ngx_palloc lp64 ex_fresh 4000).2 100).1 = 131104
    ∧ (ngx_palloc_block lp64 (ngx_palloc lp64 ex_fresh 4000).2 100).2.pool.blocks
        = [{ base := 65536, last := 69616, end_ := 69632, failed := 0 },
           { base := 131072, last := 131204, end_ := 135168, failed := 0 }]
    ∧ ¬ (131104 ≥ 131072 + lp64.sizeof_pool_t)
    ∧ (ngx_reset_pool lp64
          (ngx_palloc_block lp64 (ngx_palloc lp64 ex_fresh 4000).2 100).2).pool.blocks
        = [{ base := 65536, last := 65616, end_ := 69632, failed := 0 },
           { base := 131072, last := 131152, end_ := 135168, failed := 0 }] := by
  decide

theorem rewind_append (P : Platform) (xs ys : List Block) :
    rewind P (xs ++ ys) = rewind P xs ++ rewind P ys := by
  rw [rewind_eq_map, rewind_eq_map, rewind_eq_map, List.map_append]

/-- C17, amended: when `ngx_palloc_block` obtains a block at `a` (not `NULL`, with
the data header and one alignment step inside the address space), the address
it returns is the least multiple of `NGX_ALIGNMENT` at or above
`a + sizeof(ngx_pool_data_t)`, which is `a + sizeof(ngx_pool_data_t)` itself
when `a` is aligned: the new block reserves the data header only.  The block is
the new tail of the chain, with its cursor `size` bytes further.  A later
`ngx_reset_pool` puts the cursor of that block at `a + sizeof(ngx_pool_t)`,
which is above the address returned whenever the pool header is larger than
the data header. -/
theorem grown_block_cursor (P : Platform) (hP : P.WF) (w : World) (size : Nat) (hd : Block)
    (tl : List Block) (a : Nat) (rest : List Nat)
    (hb : w.pool.blocks = hd :: tl) (hp : w.prov = a :: rest) (ha : a ≠ 0)
    (hroom : a + P.sizeof_pool_data_t + P.NGX_ALIGNMENT ≤ P.word) :
    LeastAligned P (a + P.sizeof_pool_data_t) (ngx_palloc_block P w size).1
    ∧ (P.NGX_ALIGNMENT ∣ a → (ngx_palloc_block P w size).1 = a + P.sizeof_pool_data_t)
    ∧ (∃ front, (ngx_palloc_block P w size).2.pool.blocks
          = front ++ [{ base := a, last := (ngx_palloc_block P w size).1 + size,
                        end_ := a + size_sub P hd.end_ hd.base, failed := 0 }]
        ∧ (ngx_reset_pool P (ngx_palloc_block P w size).2).pool.blocks
          = rewind P front ++ [{ base := a, last := a + P.sizeof_pool_t,
                                 end_ := a + size_sub P hd.end_ hd.base, failed := 0 }])
    ∧ (P.NGX_ALIGNMENT ∣ a → P.sizeof_pool_data_t < P.sizeof_pool_t →
        (ngx_palloc_block P w size).1 < a + P.sizeof_pool_t) := by
  rw [ngx_palloc_block_grow P w size hd tl a rest hb hp ha]
  have hfix : P.NGX_ALIGNMENT ∣ a →
      ngx_align_ptr P (a + P.sizeof_pool_data_t) P.NGX_ALIGNMENT = a + P.sizeof_pool_data_t :=
    fun hal => ngx_align_ptr_fix hP _ hroom (Nat.dvd_add hal hP.data_align)
  refine ⟨?_, hfix, ?_, ?_⟩
  · exact ⟨ngx_align_ptr_dvd hP _ hroom, ngx_align_ptr_ge hP _ hroom,
      ngx_align_ptr_lt hP _ hroom, fun q hq hpq => ngx_align_ptr_least hP _ q hroom hq hpq⟩
  · refine ⟨_, rfl, ?_⟩
    show rewind P (_ ++ [_]) = _
    rw [rewind_append]
    rfl
  · intro hal hlt
    show ngx_align_ptr P (a + P.sizeof_pool_data_t) P.NGX_ALIGNMENT < _
    rw [hfix hal]
    omega

/-- Witness of `grown_block_cursor`: the growth of the counterexample, where the
address returned is `131072 + 32`. -/
theorem grown_block_cursor_witness :
    (ngx_palloc lp64 ex_fresh 4000).2.prov = 131072 :: [196608, 262144]
    ∧ (ngx_palloc_block lp64 (ngx_palloc lp64 ex_fresh 4000).2 100).1
        = 131072 + lp64.sizeof_pool_data_t :=
  ⟨by decide,
    (grown_block_cursor lp64 lp64_wf (ngx_palloc lp64 ex_fresh 4000).2 100
      { base := 65536, last := 69616, end_ := 69632, failed := 0 } [] 131072
      [196608, 262144] (by decide) (by decide) (by decide) (by decide)).2.1 (by decide)⟩

/-! ## The walk over the failed counts -/

/-- The walk of `ngx_palloc_block` increments `failed` in every block it is given
but the last one. -/
theorem walk_failed_blocks (bs : List Block) (i cur : Nat) :
    (walk_failed bs i cur).1
      = bs.dropLast.map (fun b => { b with failed := b.failed + 1 }) ++ bs.getLast?.toList := by
  induction bs generalizing i cur with
  | nil => rfl
  | cons b rest ih =>
    cases rest with
    | nil => rfl
    | cons b' rest' =>
      simp only [walk_failed, List.dropLast_cons₂, List.map_cons, List.getLast?_cons_cons,
        List.cons_append]
      rw [ih (i + 1) _]

/-- When no block passed by the walk had `failed > 4`, `current` stays. -/
theorem walk_failed_current_stays (bs : List Block) (i cur : Nat)
    (h : ∀ b ∈ bs.dropLast, b.failed ≤ 4) : (walk_failed bs i cur).2 = cur := by
  induction bs generalizing i cur with
  | nil => rfl
  | cons b rest ih =>
    cases rest with
    | nil => rfl
    | cons b' rest' =>
      rw [List.dropLast_cons₂] at h
      have hb : ¬ b.failed > 4 := by
        have := h b (List.mem_cons_self _ _); omega
      simp only [walk_failed]
      rw [ih (i + 1) _ (fun x hx => h x (List.mem_cons_of_mem _ hx)), if_neg hb]

/-- Otherwise `current` becomes the successor of the last block passed whose
`failed` exceeded 4 before the increment. -/
theorem walk_failed_current_moves (pre : List Block) (b : Block) (post : List Block) :
    ∀ (bs : List Block) (i cur : Nat), bs.dropLast = pre ++ b :: post → b.failed > 4 →
      (∀ x ∈ post, x.failed ≤ 4) → (walk_failed bs i cur).2 = i + pre.length + 1 := by
  induction pre with
  | nil =>
    intro bs i cur hbs hb hpost
    cases bs with
    | nil => simp at hbs
    | cons x rest =>
      cases rest with
      | nil => simp at hbs
      | cons x' rest' =>
        rw [List.dropLast_cons₂, List.nil_append] at hbs
        obtain ⟨rfl, hrest⟩ := List.cons.inj hbs
        simp only [walk_failed]
        rw [walk_failed_current_stays _ _ _ (by rw [hrest]; exact hpost), if_pos hb]
        rfl
  | cons p pre' ih =>
    intro bs i cur hbs hb hpost
    cases bs with
    | nil => simp at hbs
    | cons x rest =>
      cases rest with
      | nil => simp at hbs
      | cons x' rest' =>
        rw [List.dropLast_cons₂, List.cons_append] at hbs
        obtain ⟨_, hrest⟩ := List.cons.inj hbs
        simp only [walk_failed]
        rw [ih (x' :: rest') (i + 1) _ hrest hb hpost]
        simp only [List.length_cons]
        omega

theorem walk_failed_current_ge (bs : List Block) (i cur : Nat) (hc : cur ≤ i) :
    cur ≤ (walk_failed bs i cur).2 ∧ (walk_failed bs i cur).2 < i + 1 + bs.dropLast.length := by
  induction bs generalizing i cur with
  | nil => exact ⟨Nat.le_refl _, by simp [walk_failed]; omega⟩
  | cons b rest ih =>
    cases rest with
    | nil => exact ⟨Nat.le_refl _, by simp [walk_failed]; omega⟩
    | cons b' rest' =>
      simp only [walk_failed, List.dropLast_cons₂, List.length_cons]
      by_cases hb : b.failed > 4
      · rw [if_pos hb]
        have := ih (i + 1) (i + 1) (Nat.le_refl _)
        omega
      · rw [if_neg hb]
        have := ih (i + 1) cur (by omega)
        omega

/-- After the walk, the blocks from the new `current` on have `failed <= 5` if the
blocks walked had before. -/
theorem walk_failed_bound (bs : List Block) (i cur : Nat) (hc : cur ≤ i)
    (h : ∀ b ∈ bs, b.failed ≤ 5) :
    ∀ b ∈ (walk_failed bs i cur).1.drop ((walk_failed bs i cur).2 - i), b.failed ≤ 5 := by
  induction bs generalizing i cur with
  | nil => intro b hb; simp [walk_failed] at hb
  | cons x rest ih =>
    cases rest with
    | nil =>
      intro b hb
      exact h b (List.mem_of_mem_drop hb)
    | cons x' rest' =>
      have hrest : ∀ b ∈ x' :: rest', b.failed ≤ 5 :=
        fun b hb => h b (List.mem_cons_of_mem _ hb)
      have hx := h x (List.mem_cons_self _ _)
      simp only [walk_failed]
      by_cases hb : x.failed > 4
      · rw [if_pos hb]
        have hge := (walk_failed_current_ge (x' :: rest') (i + 1) (i + 1) (Nat.le_refl _)).1
        have hk : (walk_failed (x' :: rest') (i + 1) (i + 1)).2 - i
            = ((walk_failed (x' :: rest') (i + 1) (i + 1)).2 - (i + 1)) + 1 := by omega
        rw [hk, List.drop_succ_cons]
        exact ih (i + 1) (i + 1) (Nat.le_refl _) hrest
      · rw [if_neg hb]
        have ih' := ih (i + 1) cur (by omega) hrest
        by_cases hk0 : (walk_failed (x' :: rest') (i + 1) cur).2 ≤ i
        · have hz : (walk_failed (x' :: rest') (i + 1) cur).2 - i = 0 := by omega
          have hz' : (walk_failed (x' :: rest') (i + 1) cur).2 - (i + 1) = 0 := by omega
          rw [hz'] at ih'
          rw [hz]
          intro b hbm
          rcases List.mem_cons.1 hbm with rfl | hbm
          · show x.failed + 1 ≤ 5
            omega
          · exact ih' b hbm
        · have hk : (walk_failed (x' :: rest') (i + 1) cur).2 - i
              = ((walk_failed (x' :: rest') (i + 1) cur).2 - (i + 1)) + 1 := by omega
          rw [hk, List.drop_succ_cons]
          exact ih'

/-- The chain and `current` change through `ngx_palloc_small` and `ngx_reset_pool`
only: what these two preserve, every call preserves. -/
theorem step_chain (P : Platform) (Q : List Block → Nat → Prop)
    (hs : ∀ (w : World) (size align : Nat), Q w.pool.blocks w.pool.current →
      Q (ngx_palloc_small P w size align).2.pool.blocks
        (ngx_palloc_small P w size align).2.pool.current)
    (hr : ∀ bs cur, Q bs cur → Q (rewind P bs) 0) (w : World) (op : Op)
    (h : Q w.pool.blocks w.pool.current) :
    Q (step P w op).pool.blocks (step P w op).pool.current := by
  have hlink : ∀ (w1 : World) (p : Nat), Q w1.pool.blocks w1.pool.current →
      Q (if (ngx_palloc_small P w1 P.sizeof_pool_large_t 1).1 = 0 then
          ((0 : Nat), ngx_free p (ngx_palloc_small P w1 P.sizeof_pool_large_t 1).2)
        else
          (p, { (ngx_palloc_small P w1 P.sizeof_pool_large_t 1).2 with
                pool := { (ngx_palloc_small P w1 P.sizeof_pool_large_t 1).2.pool with
                  large := { addr := (ngx_palloc_small P w1 P.sizeof_pool_large_t 1).1,
                             alloc := p }
                    :: (ngx_palloc_small P w1 P.sizeof_pool_large_t 1).2.pool.large } })).2.pool.blocks
        (if (ngx_palloc_small P w1 P.sizeof_pool_large_t 1).1 = 0 then
          ((0 : Nat), ngx_free p (ngx_palloc_small P w1 P.sizeof_pool_large_t 1).2)
        else
          (p, { (ngx_palloc_small P w1 P.sizeof_pool_large_t 1).2 with
                pool := { (ngx_palloc_small P w1 P.sizeof_pool_large_t 1).2.pool with
                  large := { addr := (ngx_palloc_small P w1 P.sizeof_pool_large_t 1).1,
                             alloc := p }
                    :: (ngx_palloc_small P w1 P.sizeof_pool_large_t 1).2.pool.large } })).2.pool.current := by
    intro w1 p h1
    split
    · exact hs w1 _ 1 h1
    · exact hs w1 _ 1 h1
  have hlarge : ∀ (w : World) (size : Nat), Q w.pool.blocks w.pool.current →
      Q (ngx_palloc_large P w size).2.pool.blocks (ngx_palloc_large P w size).2.pool.current := by
    intro w size h
    unfold ngx_palloc_large
    simp only
    split
    · exact h
    · cases reuse_slot (ngx_alloc size w).1 (ngx_alloc size w).2.pool.large 0 with
      | some ls => exact h
      | none => exact hlink (ngx_alloc size w).2 _ h
  have hpalloc : ∀ (w : World) (size : Nat), Q w.pool.blocks w.pool.current →
      Q (ngx_palloc P w size).2.pool.blocks (ngx_palloc P w size).2.pool.current := by
    intro w size h
    unfold ngx_palloc
    split
    · exact hs w size 1 h
    · exact hlarge w size h
  cases op with
  | palloc size => exact hpalloc w size h
  | pnalloc size =>
    show Q (ngx_pnalloc P w size).2.pool.blocks (ngx_pnalloc P w size).2.pool.current
    unfold ngx_pnalloc
    split
    · exact hs w size 0 h
    · exact hlarge w size h
  | pcalloc size => exact hpalloc w size h
  | pmemalign size alignment =>
    show Q (ngx_pmemalign P w size alignment).2.pool.blocks
      (ngx_pmemalign P w size alignment).2.pool.current
    unfold ngx_pmemalign
    simp only
    split
    · exact h
    · exact hlink (ngx_memalign alignment size w).2 _ h
  | pfree p =>
    show Q (ngx_pfree w p).2.pool.blocks (ngx_pfree w p).2.pool.current
    unfold ngx_pfree
    cases free_slot p w.pool.large with
    | none => exact h
    | some ls => exact h
  | cleanup_add size =>
    show Q (ngx_pool_cleanup_add P w size).2.pool.blocks
      (ngx_pool_cleanup_add P w size).2.pool.current
    have h1 := hpalloc w P.sizeof_pool_cleanup_t h
    have h2 := hpalloc _ size h1
    unfold ngx_pool_cleanup_add
    simp only
    split
    · exact h1
    · split
      · split
        · exact h2
        · exact h2
      · exact h1
  | set_cleanup c hd fd => exact h
  | run_cleanup_file fd => exact h
  | reset => exact hr _ _ h

theorem run_chain (P : Platform) (Q : List Block → Nat → Prop)
    (hs : ∀ (w : World) (size align : Nat), Q w.pool.blocks w.pool.current →
      Q (ngx_palloc_small P w size align).2.pool.blocks
        (ngx_palloc_small P w size align).2.pool.current)
    (hr : ∀ bs cur, Q bs cur → Q (rewind P bs) 0) (ops : List Op) :
    ∀ w : World, Q w.pool.blocks w.pool.current →
      Q (run P w ops).pool.blocks (run P w ops).pool.current := by
  induction ops with
  | nil => intro w h; exact h
  | cons op rest ih => intro w h; exact ih _ (step_chain P Q hs hr w op h)

theorem ngx_palloc_block_failed (P : Platform) (w : World) (size : Nat) (h : FailedOK w) :
    FailedOK (ngx_palloc_block P w size).2 := by
  obtain ⟨⟨blocks, max, cur, large, cleanup⟩, prov, trace⟩ := w
  obtain ⟨hcur, hf⟩ := h
  simp only at hcur hf
  cases hbl : blocks with
  | nil => subst hbl; simp at hcur
  | cons hd tl =>
    rw [← hbl]
    have hpb : ngx_palloc_block P ⟨⟨blocks, max, cur, large, cleanup⟩, prov, trace⟩ size
        = (if (provider_next prov).1 = 0 then
            ((0 : Nat), (⟨⟨blocks, max, cur, large, cleanup⟩, (provider_next prov).2,
              trace ++ [Event.memalign P.NGX_POOL_ALIGNMENT (size_sub P hd.end_ hd.base)
                (provider_next prov).1]⟩ : World))
          else
            (ngx_align_ptr P ((provider_next prov).1 + P.sizeof_pool_data_t) P.NGX_ALIGNMENT,
              ⟨⟨blocks.take cur ++ (walk_failed (blocks.drop cur) cur cur).1
                  ++ [⟨(provider_next prov).1,
                      ngx_align_ptr P ((provider_next prov).1 + P.sizeof_pool_data_t)
                        P.NGX_ALIGNMENT + size,
                      (provider_next prov).1 + size_sub P hd.end_ hd.base, 0⟩],
                max, (walk_failed (blocks.drop cur) cur cur).2, large, cleanup⟩,
                (provider_next prov).2,
                trace ++ [Event.memalign P.NGX_POOL_ALIGNMENT (size_sub P hd.end_ hd.base)
                  (provider_next prov).1]⟩)) := by
      subst hbl
      simp only [ngx_palloc_block, ngx_memalign]
    rw [hpb]
    split
    · exact ⟨hcur, hf⟩
    · have hge := walk_failed_current_ge (blocks.drop cur) cur cur (Nat.le_refl _)
      have hwl := walk_failed_length (blocks.drop cur) cur cur
      have hdl : (blocks.drop cur).dropLast.length + 1 = blocks.length - cur := by
        rw [List.length_dropLast, List.length_drop]; omega
      have htk : (blocks.take cur).length = cur := by
        rw [List.length_take]; omega
      constructor
      · show (walk_failed (blocks.drop cur) cur cur).2 < (_ ++ _ ++ [_]).length
        simp only [List.length_append, List.length_singleton, htk, hwl, List.length_drop]
        omega
      · show ∀ b ∈ List.drop (walk_failed (blocks.drop cur) cur cur).2 (_ ++ _ ++ [_]), _
        intro b hb
        rw [List.append_assoc, List.drop_append_eq_append_drop,
          List.drop_eq_nil_of_le (by rw [htk]; exact hge.1), List.nil_append, htk,
          List.drop_append_eq_append_drop] at hb
        rcases List.mem_append.1 hb with hb | hb
        · exact walk_failed_bound (blocks.drop cur) cur cur (Nat.le_refl _) hf b hb
        · have := List.mem_of_mem_drop hb
          rw [List.mem_singleton.1 this]
          exact Nat.zero_le _

theorem ngx_palloc_small_failed (P : Platform) (w : World) (size align : Nat)
    (h : FailedOK w) : FailedOK (ngx_palloc_small P w size align).2 := by
  rcases ngx_palloc_small_cases P w size align with
    ⟨pre, b, post, hdrop, _, _, heq⟩ | ⟨_, heq⟩
  · rw [heq]
    obtain ⟨hcur, hf⟩ := h
    have htk : (w.pool.blocks.take w.pool.current).length = w.pool.current := by
      rw [List.length_take]; omega
    constructor
    · show w.pool.current < (_ ++ (pre ++ _ :: post)).length
      have := congrArg List.length hdrop
      simp only [List.length_append, List.length_cons, List.length_drop] at this ⊢
      omega
    · show ∀ x ∈ List.drop w.pool.current (_ ++ (pre ++ _ :: post)), _
      intro x hx
      rw [List.drop_append_eq_append_drop, List.drop_eq_nil_of_le (by rw [htk]),
        List.nil_append, htk, Nat.sub_self, List.drop_zero] at hx
      rw [hdrop] at hf
      rcases List.mem_append.1 hx with hx | hx
      · exact hf x (List.mem_append_left _ hx)
      · rcases List.mem_cons.1 hx with rfl | hx
        · exact hf b (List.mem_append_right _ (List.mem_cons_self _ _))
        · exact hf x (List.mem_append_right _ (List.mem_cons_of_mem _ hx))
  · rw [heq]
    exact ngx_palloc_block_failed P w size h

theorem run_failed (P : Platform) (w : World) (ops : List Op) (h : FailedOK w) :
    FailedOK (run P w ops) := by
  refine run_chain P
    (fun bs cur => cur < bs.length ∧ ∀ b ∈ bs.drop cur, b.failed ≤ 5) ?_ ?_ ops w h
  · intro w size align hw
    exact ngx_palloc_small_failed P w size align hw
  · intro bs cur hq
    refine ⟨?_, ?_⟩
    · rw [rewind_eq_map, List.length_map]; omega
    · intro b hb
      obtain ⟨b0, _, rfl⟩ := rewind_mem P bs b (List.mem_of_mem_drop hb)
      exact Nat.zero_le _

/-! ## C18 -/

/-- C19, counterexample: in the 100-byte pool at 4096 after `ngx_pnalloc(17)`, the
only block has cursor 4193 and `end = 4196`; the aligned candidate is 4200, so
`end - candidate` is `-4` and the block has no room for one byte.
`ngx_palloc_small(pool, 1, 1)` nevertheless returns 4200 and moves the cursor
to 4201: it does not fall through to `ngx_palloc_block`, which the provider
would have served at 8192. -/
theorem c19_no_space_yet_claimed :
    ngx_create_pool lp64 100 [4096, 8192] = some ex_small
    ∧ (ngx_pnalloc lp64 ex_small 17).2.pool.blocks
        = [{ base := 4096, last := 4193, end_ := 4196, failed := 0 }]
    ∧ (ngx_pnalloc lp64 ex_small 17).2.pool.current = 0
    ∧ 1 ≤ (ngx_pnalloc lp64 ex_small 17).2.pool.max
    ∧ candidate lp64 1 { base := 4096, last := 4193, end_ := 4196, failed := 0 } = 4200
    ∧ ¬ ((4196 : Int) - 4200 ≥ 1)
    ∧ (ngx_palloc_small lp64 (ngx_pnalloc lp64 ex_small 17).2 1 1).1 = 4200
    ∧ (ngx_palloc_small lp64 (ngx_pnalloc lp64 ex_small 17).2 1 1).2.pool.blocks
        = [{ base := 4096, last := 4201, end_ := 4196, failed := 0 }]
    ∧ (ngx_palloc_block lp64 (ngx_pnalloc lp64 ex_small 17).2 1).1 = 8224
    ∧ ngx_palloc_small lp64 (ngx_pnalloc lp64 ex_small 17).2 1 1
        ≠ ngx_palloc_block lp64 (ngx_pnalloc lp64 ex_small 17).2 1 := by
  decide

/-- C19, amended: in a pool where no block from `current` on has its candidate
address past its `end` (with `end` a machine address), `ngx_palloc_small` is
first-fit from `current`.  Either some block from `current` on has
`candidate + size <= end`: then the call returns the candidate address of the
first such block and the world afterwards is the world before with the cursor
of that block at `candidate + size`, nothing else changed, the provider not
called.  Or no block from `current` on has: then the call is
`ngx_palloc_block(pool, size)`.  The condition holds in every pool satisfying
the invariant `Inv`, that is, created with a size that holds the header and is
a multiple of `NGX_ALIGNMENT`. -/
theorem palloc_small_first_fit (P : Platform) (w : World) (size align : Nat) :
    ((∀ b ∈ w.pool.blocks.drop w.pool.current,
        candidate P align b ≤ b.end_ ∧ b.end_ < P.word) →
      (∃ pre b post, w.pool.blocks.drop w.pool.current = pre ++ b :: post ∧
          (∀ x ∈ pre, ¬ (candidate P align x + size ≤ x.end_)) ∧
          candidate P align b + size ≤ b.end_ ∧
          ngx_palloc_small P w size align =
            (candidate P align b,
              { w with pool := { w.pool with
                  blocks := w.pool.blocks.take w.pool.current ++
                    (pre ++ { b with last := candidate P align b + size } :: post) } }))
      ∨ ((∀ x ∈ w.pool.blocks.drop w.pool.current, ¬ (candidate P align x + size ≤ x.end_)) ∧
          ngx_palloc_small P w size align = ngx_palloc_block P w size))
    ∧ (∀ S, P.WF → Inv P S w →
        ∀ b ∈ w.pool.blocks.drop w.pool.current,
          candidate P align b ≤ b.end_ ∧ b.end_ < P.word) := by
  constructor
  · intro hroom
    have hfit : ∀ x ∈ w.pool.blocks.drop w.pool.current,
        (fits P size align x ↔ candidate P align x + size ≤ x.end_) := by
      intro x hx
      obtain ⟨h1, h2⟩ := hroom x hx
      unfold fits
      rw [size_sub_of_le P _ _ h1 h2]
      omega
    rcases ngx_palloc_small_cases P w size align with
      ⟨pre, b, post, hdrop, hpre, hb, heq⟩ | ⟨hnone, heq⟩
    · left
      refine ⟨pre, b, post, hdrop, ?_, ?_, heq⟩
      · intro x hx hxr
        have hxm : x ∈ w.pool.blocks.drop w.pool.current := by
          rw [hdrop]
          exact List.mem_append_left _ hx
        exact hpre x hx ((hfit x hxm).2 hxr)
      · have hbm : b ∈ w.pool.blocks.drop w.pool.current := by
          rw [hdrop]
          exact List.mem_append_right _ (List.mem_cons_self _ _)
        exact (hfit b hbm).1 hb
    · right
      exact ⟨fun x hx hxr => hnone x hx ((hfit x hx).2 hxr), heq⟩
  · intro S hP hinv b hb
    have hok := hinv.blocks_ok b (List.mem_of_mem_drop hb)
    exact ⟨hok.candidate_le hP align, hok.end_lt⟩

/-- Witness of `palloc_small_first_fit`: on the fresh 4096-byte pool a request
of 100 bytes is served at the cursor of the first block. -/
theorem palloc_small_first_fit_witness :
    ngx_palloc_small lp64 ex_fresh 100 1
      = (65616, { ex_fresh with pool := { ex_fresh.pool with
          blocks := [{ base := 65536, last := 65716, end_ := 69632, failed := 0 }] } })
    ∧ ((∃ pre b post, ex_fresh.pool.blocks.drop ex_fresh.pool.current = pre ++ b :: post ∧
          (∀ x ∈ pre, ¬ (candidate lp64 1 x + 100 ≤ x.end_)) ∧
          candidate lp64 1 b + 100 ≤ b.end_ ∧
          ngx_palloc_small lp64 ex_fresh 100 1 =
            (candidate lp64 1 b,
              { ex_fresh with pool := { ex_fresh.pool with
                  blocks := ex_fresh.pool.blocks.take ex_fresh.pool.current ++
                    (pre ++ { b with last := candidate lp64 1 b + 100 } :: post) } }))
      ∨ ((∀ x ∈ ex_fresh.pool.blocks.drop ex_fresh.pool.current,
            ¬ (candidate lp64 1 x + 100 ≤ x.end_)) ∧
          ngx_palloc_small lp64 ex_fresh 100 1 = ngx_palloc_block lp64 ex_fresh 100)) :=
  ⟨by decide, (palloc_small_first_fit lp64 ex_fresh 100 1).1 (by decide)⟩

/-! ## C20 -/

/-- When the provider refuses the block, `ngx_palloc_block` fails before it
touches the pool. -/
theorem ngx_palloc_block_refused (P : Platform) (w : World) (size : Nat)
    (hp : w.prov.headD 0 = 0) :
    (ngx_palloc_block P w size).1 = 0 ∧ (ngx_palloc_block P w size).2.pool = w.pool := by
  refine ⟨ngx_palloc_block_fail P w size hp, ?_⟩
  obtain ⟨⟨blocks, max, cur, large, cleanup⟩, prov, trace⟩ := w
  cases blocks with
  | nil => rfl
  | cons hd tl =>
    simp only [ngx_palloc_block, ngx_memalign, provider_next_eq]
    rw [if_pos hp]

/-- The trace of `ngx_palloc_small` grows by requests to the provider only. -/
theorem ngx_palloc_small_trace (P : Platform) (w : World) (size align : Nat) :
    ∃ evs, (ngx_palloc_small P w size align).2.trace = w.trace ++ evs ∧
      ∀ e ∈ evs, ∀ a, e ≠ Event.free a := by
  rcases ngx_palloc_small_cases P w size align with ⟨pre, b, post, _, _, _, heq⟩ | ⟨_, heq⟩
  · rw [heq]
    exact ⟨[], (List.append_nil _).symm, fun e he => (List.not_mem_nil e he).elim⟩
  · rw [heq]
    obtain ⟨⟨blocks, max, cur, large, cleanup⟩, prov, trace⟩ := w
    cases blocks with
    | nil => exact ⟨[], (List.append_nil _).symm, fun e he => (List.not_mem_nil e he).elim⟩
    | cons hd tl =>
      simp only [ngx_palloc_block, ngx_memalign]
      refine ⟨[Event.memalign P.NGX_POOL_ALIGNMENT (size_sub P hd.end_ hd.base)
        (provider_next prov).1], ?_, ?_⟩
      · split <;> rfl
      · intro e he a hea
        rw [List.mem_singleton.1 he] at hea
        cases hea

/-- With cursors and provider answers that are proper addresses, a null result
of `ngx_palloc_small` means that the provider refused a block, and the pool is
as before. -/
theorem ngx_palloc_small_null (P : Platform) (hP : P.WF) (w : World) (size align : Nat)
    (hlast : ∀ b ∈ w.pool.blocks, 0 < b.last ∧ b.last + P.NGX_ALIGNMENT ≤ P.word)
    (hprov : ∀ a ∈ w.prov, a + P.sizeof_pool_data_t + P.NGX_ALIGNMENT ≤ P.word)
    (h0 : (ngx_palloc_small P w size align).1 = 0) :
    (ngx_palloc_small P w size align).2.pool = w.pool ∧
      (∀ b ∈ w.pool.blocks.drop w.pool.current, ¬ fits P size align b) ∧
      (w.pool.blocks ≠ [] → w.prov.headD 0 = 0) := by
  rcases ngx_palloc_small_cases P w size align with
    ⟨pre, b, post, hdrop, _, _, heq⟩ | ⟨hnone, heq⟩
  · rw [heq] at h0
    have hb : b ∈ w.pool.blocks := by
      apply List.mem_of_mem_drop (n := w.pool.current)
      rw [hdrop]
      exact List.mem_append_right _ (List.mem_cons_self _ _)
    have := candidate_ge hP b align (hlast b hb).2
    have h1 : candidate P align b = 0 := h0
    have := (hlast b hb).1
    omega
  · rw [heq] at h0 ⊢
    by_cases hp : w.prov.headD 0 = 0
    · exact ⟨(ngx_palloc_block_refused P w size hp).2, hnone, fun _ => hp⟩
    · have hcases : w.pool.blocks = [] ∨ ∃ hd tl, w.pool.blocks = hd :: tl := by
        cases w.pool.blocks with
        | nil => exact Or.inl rfl
        | cons hd tl => exact Or.inr ⟨hd, tl, rfl⟩
      have hpcases : w.prov = [] ∨ ∃ a rest, w.prov = a :: rest := by
        cases w.prov with
        | nil => exact Or.inl rfl
        | cons a rest => exact Or.inr ⟨a, rest, rfl⟩
      rcases hcases with hbl | ⟨hd, tl, hbl⟩
      · refine ⟨?_, hnone, fun hne => (hne hbl).elim⟩
        unfold ngx_palloc_block
        rw [hbl]
      · rcases hpcases with hpr | ⟨a, rest, hpr⟩
        · rw [hpr] at hp; exact (hp rfl).elim
        · have ha : a ≠ 0 := by rw [hpr] at hp; exact hp
          rw [ngx_palloc_block_grow P w size hd tl a rest hbl hpr ha] at h0
          have hroom := hprov a (by rw [hpr]; exact List.mem_cons_self _ _)
          have hge := ngx_align_ptr_ge hP (a + P.sizeof_pool_data_t) hroom
          have h1 : ngx_align_ptr P (a + P.sizeof_pool_data_t) P.NGX_ALIGNMENT = 0 := h0
          have : 0 < a := Nat.pos_of_ne_zero ha
          omega

/-- C20: (1) when no block from `current` on passes the test and the provider
refuses the new block, `ngx_palloc` and `ngx_pnalloc` with `size <= max` return
`NULL` and leave the pool as it was: cursors, `failed` counts, `current`, chain
and registries.  (2) In a pool whose cursors and provider answers are proper
addresses this is the only way they return `NULL`, so every failure leaves the
pool as it was.  (3) When `ngx_palloc_large` (having found no record to reuse)
or `ngx_pmemalign` has obtained the payload `p` and `ngx_palloc_small` then
fails to allocate the record, the call returns `NULL`, the large registry is
as before and the trace ends with `ngx_free(p)`, the only release of the
call. -/
theorem failure_atomic (P : Platform) (w : World) (size : Nat) :
    (size ≤ w.pool.max → w.prov.headD 0 = 0 →
      ((∀ b ∈ w.pool.blocks.drop w.pool.current, ¬ fits P size 1 b) →
        (ngx_palloc P w size).1 = 0 ∧ (ngx_palloc P w size).2.pool = w.pool)
      ∧ ((∀ b ∈ w.pool.blocks.drop w.pool.current, ¬ fits P size 0 b) →
        (ngx_pnalloc P w size).1 = 0 ∧ (ngx_pnalloc P w size).2.pool = w.pool))
    ∧ (P.WF → (∀ b ∈ w.pool.blocks, 0 < b.last ∧ b.last + P.NGX_ALIGNMENT ≤ P.word) →
        (∀ a ∈ w.prov, a + P.sizeof_pool_data_t + P.NGX_ALIGNMENT ≤ P.word) →
        size ≤ w.pool.max →
        ((ngx_palloc P w size).1 = 0 → (ngx_palloc P w size).2.pool = w.pool)
        ∧ ((ngx_pnalloc P w size).1 = 0 → (ngx_pnalloc P w size).2.pool = w.pool))
    ∧ (∀ p rest, w.prov = p :: rest → p ≠ 0 →
        (reuse_slot p w.pool.large 0 = none →
          (ngx_palloc_small P (ngx_alloc size w).2 P.sizeof_pool_large_t 1).1 = 0 →
          (ngx_palloc_large P w size).1 = 0
          ∧ (ngx_palloc_large P w size).2.pool.large = w.pool.large
          ∧ ∃ evs, (ngx_palloc_large P w size).2.trace
                = w.trace ++ Event.alloc size p :: evs ++ [Event.free p]
              ∧ ∀ e ∈ evs, ∀ a, e ≠ Event.free a)
        ∧ ∀ alignment,
          (ngx_palloc_small P (ngx_memalign alignment size w).2 P.sizeof_pool_large_t 1).1 = 0 →
          (ngx_pmemalign P w size alignment).1 = 0
          ∧ (ngx_pmemalign P w size alignment).2.pool.large = w.pool.large
          ∧ ∃ evs, (ngx_pmemalign P w size alignment).2.trace
                = w.trace ++ Event.memalign alignment size p :: evs ++ [Event.free p]
              ∧ ∀ e ∈ evs, ∀ a, e ≠ Event.free a) := by
  refine ⟨?_, ?_, ?_⟩
  · intro hsz hp
    constructor
    · intro hnone
      unfold ngx_palloc
      rw [if_pos hsz]
      rcases ngx_palloc_small_cases P w size 1 with ⟨pre, b, post, hd, _, hb, _⟩ | ⟨_, heq⟩
      · exact (hnone b (by rw [hd]; exact List.mem_append_right _ (List.mem_cons_self _ _))
          hb).elim
      · rw [heq]; exact ngx_palloc_block_refused P w size hp
    · intro hnone
      unfold ngx_pnalloc
      rw [if_pos hsz]
      rcases ngx_palloc_small_cases P w size 0 with ⟨pre, b, post, hd, _, hb, _⟩ | ⟨_, heq⟩
      · exact (hnone b (by rw [hd]; exact List.mem_append_right _ (List.mem_cons_self _ _))
          hb).elim
      · rw [heq]; exact ngx_palloc_block_refused P w size hp
  · intro hP hlast hprov hsz
    constructor
    · intro h0
      unfold ngx_palloc at h0 ⊢
      rw [if_pos hsz] at h0 ⊢
      exact (ngx_palloc_small_null P hP w size 1 hlast hprov h0).1
    · intro h0
      unfold ngx_pnalloc at h0 ⊢
      rw [if_pos hsz] at h0 ⊢
      exact (ngx_palloc_small_null P hP w size 0 hlast hprov h0).1
  · intro p rest hprov hp
    have ha1 : (ngx_alloc size w).1 = p := by
      simp only [ngx_alloc, provider_next_eq, hprov, List.headD_cons]
    have ha2 : (ngx_alloc size w).2.trace = w.trace ++ [Event.alloc size p] := by
      simp only [ngx_alloc, provider_next_eq, hprov, List.headD_cons]
    constructor
    · intro hr hs
      obtain ⟨evs, htr, hev⟩ :=
        ngx_palloc_small_trace P (ngx_alloc size w).2 P.sizeof_pool_large_t 1
      have hl := (ngx_palloc_small_frame P (ngx_alloc size w).2 P.sizeof_pool_large_t 1).1
      have hr1 : reuse_slot (ngx_alloc size w).1 (ngx_alloc size w).2.pool.large 0 = none := by
        rw [ha1]; exact hr
      unfold ngx_palloc_large
      simp only
      rw [if_neg (by rw [ha1]; exact hp), hr1]
      simp only
      rw [if_pos hs]
      refine ⟨rfl, hl, evs, ?_, hev⟩
      show (ngx_palloc_small P (ngx_alloc size w).2 P.sizeof_pool_large_t 1).2.trace
          ++ [Event.free (ngx_alloc size w).1] = _
      rw [htr, ha1, ha2]
      simp only [List.append_assoc, List.singleton_append, List.cons_append, List.nil_append]
    · intro alignment hs
      have hm1 : (ngx_memalign alignment size w).1 = p := by
        simp only [ngx_memalign, provider_next_eq, hprov, List.headD_cons]
      have hm2 : (ngx_memalign alignment size w).2.trace
          = w.trace ++ [Event.memalign alignment size p] := by
        simp only [ngx_memalign, provider_next_eq, hprov, List.headD_cons]
      obtain ⟨evs, htr, hev⟩ :=
        ngx_palloc_small_trace P (ngx_memalign alignment size w).2 P.sizeof_pool_large_t 1
      have hl :=
        (ngx_palloc_small_frame P (ngx_memalign alignment size w).2 P.sizeof_pool_large_t 1).1
      unfold ngx_pmemalign
      simp only
      rw [if_neg (by rw [hm1]; exact hp), if_pos hs]
      refine ⟨rfl, hl, evs, ?_, hev⟩
      show (ngx_palloc_small P (ngx_memalign alignment size w).2 P.sizeof_pool_large_t 1).2.trace
          ++ [Event.free (ngx_memalign alignment size w).1] = _
      rw [htr, hm1, hm2]
      simp only [List.append_assoc, List.singleton_append, List.cons_append, List.nil_append]

/-- Witness of `failure_atomic`: the block of `ex_full` is full and the provider
has one answer left.  `ngx_palloc_large(5000)` obtains 131072, is refused the
block for its record and releases 131072; with the provider exhausted,
`ngx_palloc(100)` on the same pool fails and leaves it unchanged. -/
theorem failure_atomic_witness :
    ngx_palloc_large lp64 ex_full 5000
        = (0, { ex_full with
                prov := [],
                trace := ex_full.trace ++ [Event.alloc 5000 131072, Event.memalign 16 4096 0,
                  Event.free 131072] })
    ∧ ((ngx_palloc_large lp64 ex_full 5000).1 = 0
      ∧ (ngx_palloc_large lp64 ex_full 5000).2.pool.large = ex_full.pool.large
      ∧ ∃ evs, (ngx_palloc_large lp64 ex_full 5000).2.trace
            = ex_full.trace ++ Event.alloc 5000 131072 :: evs ++ [Event.free 131072]
          ∧ ∀ e ∈ evs, ∀ a, e ≠ Event.free a)
    ∧ ((ngx_palloc lp64 (ngx_palloc_large lp64 ex_full 5000).2 100).1 = 0
      ∧ (ngx_palloc lp64 (ngx_palloc_large lp64 ex_full 5000).2 100).2.pool
          = (ngx_palloc_large lp64 ex_full 5000).2.pool) :=
  ⟨by decide,
    ((failure_atomic lp64 ex_full 5000).2.2 131072 [] rfl (by decide)).1 (by decide)
      (by decide),
    ((failure_atomic lp64 (ngx_palloc_large lp64 ex_full 5000).2 100).1 (by decide)
      (by decide)).1 (by decide)⟩

end NgxPalloc
